import Mathlib

/-!
# VIBE_LED: expression evaluator and dynamic pattern engine

A shallow embedding of `src/VIBE_LED/dynamic_pattern.h`.

* The formula text `_expr` is a list of characters; reading at or past its end
  yields the terminating NUL, as in a C string.
* The cursor `_pos` is a natural number threaded through the parse functions.
* `float` is an arbitrary carrier `F` with its operations collected in
  `FloatOps F`; every theorem stated for an arbitrary `FloatOps` holds for the
  hardware arithmetic, whatever its rounding.  `exactOps` is the instance with
  exact rational arithmetic, used to compute concrete values.
* The mutually recursive parse functions take a recursion budget (`fuel`);
  `eval` supplies a budget computed from the length of the formula.
-/

namespace VibeLed

/-! ## Characters (`<ctype.h>`, "C" locale) -/

/-- The terminating NUL of a C string. -/
def NUL : Char := Char.ofNat 0

/-- Source `isspace`: space, `\t`, `\n`, `\v`, `\f`, `\r`. -/
def isspace (c : Char) : Bool := c.toNat == 32 || (9 ≤ c.toNat && c.toNat ≤ 13)

/-- Source `isdigit`. -/
def isdigit (c : Char) : Bool := 48 ≤ c.toNat && c.toNat ≤ 57

/-- Source `isalpha`. -/
def isalpha (c : Char) : Bool :=
  (65 ≤ c.toNat && c.toNat ≤ 90) || (97 ≤ c.toNat && c.toNat ≤ 122)

/-- Source `isalnum`. -/
def isalnum (c : Char) : Bool := isalpha c || isdigit c

/-- Characters scanned by `_parseNumber`: `isdigit(c) || c == '.'`. -/
def isNumChar (c : Char) : Bool := isdigit c || c == '.'

/-- Characters scanned by `_parseIdentifier`: `isalnum(c) || c == '_'`. -/
def isIdentChar (c : Char) : Bool := isalnum c || c == '_'

/-! ## Floating point operations used by the source -/

/-- The `float` operations the source applies, over a carrier `F`.
`lt a b` is `a < b` and `le a b` is `a <= b`; the source's `a > b` and
`a >= b` are `lt b a` and `le b a`; `ne0 a` is `a != 0` and the source's
`a == 0` is its negation.  `atof` is C `atof` on a NUL terminated text;
`ofInt` converts an `int` or `uint32_t` to `float`; `toUInt8` is the cast
`(uint8_t)x`; `twoPi`, `thousand` and `c255` are the constants `2 * PI`,
`1000.0f` and `255`. -/
structure FloatOps (F : Type) where
  zero : F
  one : F
  eps : F
  pi : F
  twoPi : F
  thousand : F
  c255 : F
  add : F → F → F
  sub : F → F → F
  mul : F → F → F
  div : F → F → F
  neg : F → F
  fmod : F → F → F
  fabs : F → F
  ne0 : F → Bool
  lt : F → F → Bool
  le : F → F → Bool
  isnan : F → Bool
  ofInt : Int → F
  toUInt8 : F → Nat
  atof : List Char → F
  fmax : F → F → F
  fmin : F → F → F
  pow : F → F → F
  sin : F → F
  cos : F → F
  tan : F → F
  sqrt : F → F
  floor : F → F
  ceil : F → F

/-- Per call inputs of the evaluator: `_theta`, `_t`, `_i` and the external
resolver `port_get_inport_value`. -/
structure EvalCtx (F : Type) where
  theta : F
  t : F
  i : Int
  port : List Char → F

section Evaluator

variable {F : Type} (ops : FloatOps F) (ctx : EvalCtx F) (expr : List Char)

/-- Source `_peek`: the character under the cursor (`_expr[_pos]`). -/
def peek (expr : List Char) (pos : Nat) : Char := expr.getD pos NUL

/-- The loop `while (p(_peek())) _pos++;` run on the text from the cursor on:
it stops at the first character failing `p`, at the latest at the NUL. -/
def scanWhile (p : Char → Bool) : List Char → Nat → Nat
  | [], pos => pos
  | c :: cs, pos => if p c then scanWhile p cs (pos + 1) else pos

/-- Source `_skipWhitespace`. -/
def skipWhitespace (expr : List Char) (pos : Nat) : Nat :=
  scanWhile isspace (expr.drop pos) pos

/-- The `char buffer[32]` filled by `strncpy(buffer, _expr + start, len)` with
`len = min(31, _pos - start)`. -/
def copyBuffer (expr : List Char) (start pos : Nat) : List Char :=
  (expr.drop start).take (min 31 (pos - start))

/-- Source `_parseNumber`. -/
def parseNumber (pos : Nat) : F × Nat :=
  let start := pos
  let pos := scanWhile isNumChar (expr.drop pos) pos
  (ops.atof (copyBuffer expr start pos), pos)

/-- The value `cond ? 1.0f : 0.0f`. -/
def boolVal (b : Bool) : F := if b then ops.one else ops.zero

/-- The two argument functions of `_parseIdentifier`. -/
def callBinary (buffer : List Char) (arg1 arg2 : F) : F :=
  if buffer = "max".toList then ops.fmax arg1 arg2
  else if buffer = "min".toList then ops.fmin arg1 arg2
  else if buffer = "mod".toList then ops.fmod arg1 arg2
  else if buffer = "pow".toList then ops.pow arg1 arg2
  else ops.zero

/-- The one argument functions of `_parseIdentifier`. -/
def callUnary (buffer : List Char) (arg1 : F) : F :=
  if buffer = "sin".toList then ops.sin arg1
  else if buffer = "cos".toList then ops.cos arg1
  else if buffer = "tan".toList then ops.tan arg1
  else if buffer = "abs".toList then ops.fabs arg1
  else if buffer = "sqrt".toList then ops.sqrt arg1
  else if buffer = "floor".toList then ops.floor arg1
  else if buffer = "ceil".toList then ops.ceil arg1
  else ops.zero

/-- The variable branch of `_parseIdentifier`: built-ins, then the resolver. -/
def lookupVariable (buffer : List Char) : F :=
  if buffer = "theta".toList then ctx.theta
  else if buffer = "t".toList then ctx.t
  else if buffer = "i".toList then ops.ofInt ctx.i
  else if buffer = "pi".toList then ops.pi
  else
    let val := ctx.port buffer
    if !ops.isnan val then val else ops.zero

/-- The result of a two character comparison (`<=`, `>=`, `==`, `!=`). -/
def compare2 (op1 : Char) (result right : F) : Option F :=
  if op1 = '<' then some (boolVal ops (ops.le result right))
  else if op1 = '>' then some (boolVal ops (ops.le right result))
  else if op1 = '=' then some (boolVal ops (ops.lt (ops.fabs (ops.sub result right)) ops.eps))
  else if op1 = '!' then some (boolVal ops (ops.le ops.eps (ops.fabs (ops.sub result right))))
  else none

/-- The result of a one character comparison (`<`, `>`). -/
def compare1 (op1 : Char) (result right : F) : Option F :=
  if op1 = '<' then some (boolVal ops (ops.lt result right))
  else if op1 = '>' then some (boolVal ops (ops.lt right result))
  else none

/-- One step of the `_parseTerm` loop body after the right operand is read. -/
def applyTermOp (op : Char) (result right : F) : F :=
  if op = '*' then ops.mul result right
  else if op = '/' then (if ops.ne0 right then ops.div result right else ops.zero)
  else if op = '%' then ops.fmod result right
  else result

mutual

/-- Source `_parseLogicalOr`. -/
def parseLogicalOr : Nat → Nat → Option (F × Nat)
  | 0, _ => none
  | fuel + 1, pos =>
    let pos := skipWhitespace expr pos
    match parseLogicalAnd fuel pos with
    | none => none
    | some (result, pos) => logicalOrLoop fuel result pos

/-- The `while (true)` loop of `_parseLogicalOr`. -/
def logicalOrLoop : Nat → F → Nat → Option (F × Nat)
  | 0, _, _ => none
  | fuel + 1, result, pos =>
    let pos := skipWhitespace expr pos
    if peek expr pos = '|' ∧ peek expr (pos + 1) = '|' then
      match parseLogicalAnd fuel (pos + 2) with
      | none => none
      | some (right, pos) =>
        logicalOrLoop fuel (boolVal ops (ops.ne0 result || ops.ne0 right)) pos
    else some (result, pos)

/-- Source `_parseLogicalAnd`. -/
def parseLogicalAnd : Nat → Nat → Option (F × Nat)
  | 0, _ => none
  | fuel + 1, pos =>
    let pos := skipWhitespace expr pos
    match parseComparison fuel pos with
    | none => none
    | some (result, pos) => logicalAndLoop fuel result pos

/-- The `while (true)` loop of `_parseLogicalAnd`. -/
def logicalAndLoop : Nat → F → Nat → Option (F × Nat)
  | 0, _, _ => none
  | fuel + 1, result, pos =>
    let pos := skipWhitespace expr pos
    if peek expr pos = '&' ∧ peek expr (pos + 1) = '&' then
      match parseComparison fuel (pos + 2) with
      | none => none
      | some (right, pos) =>
        logicalAndLoop fuel (boolVal ops (ops.ne0 result && ops.ne0 right)) pos
    else some (result, pos)

/-- Source `_parseComparison`. -/
def parseComparison : Nat → Nat → Option (F × Nat)
  | 0, _ => none
  | fuel + 1, pos =>
    let pos := skipWhitespace expr pos
    match parseExpression fuel pos with
    | none => none
    | some (result, pos) =>
      let pos := skipWhitespace expr pos
      let op1 := peek expr pos
      if op1 = '<' ∨ op1 = '>' ∨ op1 = '=' ∨ op1 = '!' then
        let pos := pos + 1
        let op2 := peek expr pos
        if (op1 = '<' ∧ op2 = '=') ∨ (op1 = '>' ∧ op2 = '=') ∨
            (op1 = '=' ∧ op2 = '=') ∨ (op1 = '!' ∧ op2 = '=') then
          match parseExpression fuel (pos + 1) with
          | none => none
          | some (right, pos) =>
            match compare2 ops op1 result right with
            | some v => some (v, pos)
            | none => some (result, pos)
        else if op1 = '<' ∨ op1 = '>' then
          match parseExpression fuel pos with
          | none => none
          | some (right, pos) =>
            match compare1 ops op1 result right with
            | some v => some (v, pos)
            | none => some (result, pos)
        else some (result, pos)
      else some (result, pos)

/-- Source `_parseExpression`. -/
def parseExpression : Nat → Nat → Option (F × Nat)
  | 0, _ => none
  | fuel + 1, pos =>
    let pos := skipWhitespace expr pos
    match parseTerm fuel pos with
    | none => none
    | some (result, pos) => expressionLoop fuel result pos

/-- The `while (true)` loop of `_parseExpression`. -/
def expressionLoop : Nat → F → Nat → Option (F × Nat)
  | 0, _, _ => none
  | fuel + 1, result, pos =>
    let pos := skipWhitespace expr pos
    let op := peek expr pos
    if op = '+' ∨ op = '-' then
      match parseTerm fuel (pos + 1) with
      | none => none
      | some (right, pos) =>
        expressionLoop fuel
          (if op = '+' then ops.add result right else ops.sub result right) pos
    else some (result, pos)

/-- Source `_parseTerm`. -/
def parseTerm : Nat → Nat → Option (F × Nat)
  | 0, _ => none
  | fuel + 1, pos =>
    let pos := skipWhitespace expr pos
    match parseFactor fuel pos with
    | none => none
    | some (result, pos) => termLoop fuel result pos

/-- The `while (true)` loop of `_parseTerm`. -/
def termLoop : Nat → F → Nat → Option (F × Nat)
  | 0, _, _ => none
  | fuel + 1, result, pos =>
    let pos := skipWhitespace expr pos
    let op := peek expr pos
    if op = '*' ∨ op = '/' ∨ op = '%' then
      match parseFactor fuel (pos + 1) with
      | none => none
      | some (right, pos) => termLoop fuel (applyTermOp ops op result right) pos
    else some (result, pos)

/-- Source `_parseFactor`. -/
def parseFactor : Nat → Nat → Option (F × Nat)
  | 0, _ => none
  | fuel + 1, pos =>
    let pos := skipWhitespace expr pos
    if peek expr pos = '!' then
      let pos := skipWhitespace expr (pos + 1)
      if peek expr pos ≠ '=' then
        match parseFactor fuel pos with
        | none => none
        | some (v, pos) => some (boolVal ops (!ops.ne0 v), pos)
      else parseUnary fuel (pos - 1)
    else parseUnary fuel pos

/-- Source `_parseUnary`. -/
def parseUnary : Nat → Nat → Option (F × Nat)
  | 0, _ => none
  | fuel + 1, pos =>
    let pos := skipWhitespace expr pos
    if peek expr pos = '-' then
      match parseUnary fuel (pos + 1) with
      | none => none
      | some (v, pos) => some (ops.neg v, pos)
    else if peek expr pos = '(' then
      match parseLogicalOr fuel (pos + 1) with
      | none => none
      | some (result, pos) =>
        let pos := skipWhitespace expr pos
        some (result, if peek expr pos = ')' then pos + 1 else pos)
    else if isdigit (peek expr pos) ∨ peek expr pos = '.' then
      some (parseNumber ops expr pos)
    else if isalpha (peek expr pos) ∨ peek expr pos = '_' then
      parseIdentifier fuel pos
    else some (ops.zero, pos)

/-- Source `_parseIdentifier`. -/
def parseIdentifier : Nat → Nat → Option (F × Nat)
  | 0, _ => none
  | fuel + 1, pos =>
    let start := pos
    let pos := scanWhile isIdentChar (expr.drop pos) pos
    let buffer := copyBuffer expr start pos
    let pos := skipWhitespace expr pos
    if peek expr pos = '(' then
      match parseLogicalOr fuel (pos + 1) with
      | none => none
      | some (arg1, pos) =>
        let pos := skipWhitespace expr pos
        if peek expr pos = ',' then
          match parseLogicalOr fuel (pos + 1) with
          | none => none
          | some (arg2, pos) =>
            let pos := skipWhitespace expr pos
            some (callBinary ops buffer arg1 arg2, if peek expr pos = ')' then pos + 1 else pos)
        else
          some (callUnary ops buffer arg1, if peek expr pos = ')' then pos + 1 else pos)
    else some (lookupVariable ops ctx buffer, pos)

end

/-- The recursion budget `eval` gives the parser for a formula of `len`
characters. -/
def evalFuel (len : Nat) : Nat := 16 * len + 16

/-- Source `ExpressionEvaluator::eval`: `none` only if the budget were exhausted. -/
def eval : Option F :=
  (parseLogicalOr ops ctx expr (evalFuel expr.length) 0).map Prod.fst

end Evaluator

/-! ## Exact arithmetic instance -/

/-- Values of the exact instance: a rational number or not-a-number. -/
inductive Val where
  | num (q : ℚ)
  | nan
  deriving DecidableEq, Repr

namespace Val

/-- Lift a binary rational operation; not-a-number is absorbing. -/
def lift2 (f : ℚ → ℚ → ℚ) : Val → Val → Val
  | num a, num b => num (f a b)
  | _, _ => nan

/-- Lift a unary rational operation; not-a-number is absorbing. -/
def lift1 (f : ℚ → ℚ) : Val → Val
  | num a => num (f a)
  | nan => nan

/-- Lift a comparison; every comparison with not-a-number is false. -/
def liftRel (r : ℚ → ℚ → Bool) : Val → Val → Bool
  | num a, num b => r a b
  | _, _ => false

/-- Rounding toward zero. -/
def truncQ (q : ℚ) : Int := if 0 ≤ q then Rat.floor q else -Rat.floor (-q)

/-- Division; a zero divisor has no rational quotient. -/
def divV : Val → Val → Val
  | num a, num b => if b = 0 then nan else num (a / b)
  | _, _ => nan

/-- C `fmod`: the remainder has the sign of the dividend; a zero divisor
gives not-a-number. -/
def fmodV : Val → Val → Val
  | num a, num b => if b = 0 then nan else num (a - b * (truncQ (a / b) : ℚ))
  | _, _ => nan

/-- The value of a run of decimal digits read left to right from `acc`. -/
def digitsVal (acc : Nat) : List Char → Nat
  | [] => acc
  | c :: cs => digitsVal (10 * acc + (c.toNat - 48)) cs

/-- C `atof` on a buffer: the longest prefix of the form digits, optional
point, digits (no sign or exponent is read; the buffers of the source hold
digits and points only); no digit at all gives 0. -/
def atofV (buf : List Char) : Val :=
  let ip := buf.takeWhile isdigit
  let rest := buf.dropWhile isdigit
  match rest with
  | '.' :: more =>
    let fp := more.takeWhile isdigit
    num ((digitsVal 0 ip : ℚ) + (digitsVal 0 fp : ℚ) / (10 : ℚ) ^ fp.length)
  | _ => num (digitsVal 0 ip : ℚ)

/-- Conversion `(uint8_t)x` of an in-range value. -/
def toUInt8V : Val → Nat
  | num q => (truncQ q).toNat % 256
  | nan => 0

/-- Exact square root where it is rational. -/
def sqrtV : Val → Val
  | num q =>
    if 0 ≤ q ∧ Nat.sqrt q.num.toNat * Nat.sqrt q.num.toNat = q.num.toNat
        ∧ Nat.sqrt q.den * Nat.sqrt q.den = q.den then
      num ((Nat.sqrt q.num.toNat : ℚ) / (Nat.sqrt q.den : ℚ))
    else nan
  | nan => nan

/-- Exact power for integral exponents. -/
def powV : Val → Val → Val
  | num a, num b =>
    if b.den = 1 then (if a = 0 ∧ b < 0 then nan else num (a ^ b.num)) else nan
  | _, _ => nan

/-- A trigonometric function at 0, the one argument where it is rational. -/
def trigV (at0 : ℚ) : Val → Val
  | num q => if q = 0 then num at0 else nan
  | nan => nan

end Val

/-- Exact rational arithmetic: no rounding; not-a-number arises from `fmod`
or division by zero, and stands for the results this instance cannot represent
(irrational roots, powers and trigonometric values).  `pi` is the `float`
nearest to π. -/
def exactOps : FloatOps Val where
  zero := .num 0
  one := .num 1
  eps := .num (1 / 10000)
  pi := .num (13176795 / 4194304)
  twoPi := .num (13176795 / 2097152)
  thousand := .num 1000
  c255 := .num 255
  add := Val.lift2 (· + ·)
  sub := Val.lift2 (· - ·)
  mul := Val.lift2 (· * ·)
  div := Val.divV
  neg := Val.lift1 (fun a => -a)
  fmod := Val.fmodV
  fabs := Val.lift1 (fun a => |a|)
  ne0 := fun v => match v with
    | .num q => decide (q ≠ 0)
    | .nan => true
  lt := Val.liftRel (fun a b => decide (a < b))
  le := Val.liftRel (fun a b => decide (a ≤ b))
  isnan := fun v => match v with
    | .num _ => false
    | .nan => true
  ofInt := fun z => .num z
  toUInt8 := Val.toUInt8V
  atof := Val.atofV
  fmax := fun a b => if Val.liftRel (fun x y => decide (x < y)) a b then b else a
  fmin := fun a b => if Val.liftRel (fun x y => decide (x < y)) b a then b else a
  pow := Val.powV
  sin := Val.trigV 0
  cos := Val.trigV 1
  tan := Val.trigV 0
  sqrt := Val.sqrtV
  floor := Val.lift1 (fun a => (Rat.floor a : ℚ))
  ceil := Val.lift1 (fun a => (-Rat.floor (-a) : ℚ))

/-- A context whose resolver knows no variable. -/
def ctx0 : EvalCtx Val where
  theta := .num 0
  t := .num 0
  i := 0
  port := fun _ => .nan

/-! ## The dynamic pattern controller -/

/-- Source `NUM_LEDS`. -/
def NUM_LEDS : Nat := 12

/-- Source `DynamicPattern::Pattern`. -/
structure Pattern where
  valid : Bool := false
  name : String := ""
  hue_expr : String := ""
  sat_expr : String := ""
  val_expr : String := ""
  deriving DecidableEq, Repr

/-- A value held by the `Preferences` store. -/
inductive PrefValue where
  | bool (b : Bool)
  | str (s : String)
  deriving DecidableEq, Repr

/-- The `Preferences` key-value store (namespace `patterns`): external
library, taken with its get/put contract. -/
def Preferences : Type := String → Option PrefValue

namespace Preferences

/-- Source `isKey`. -/
def isKey (p : Preferences) (key : String) : Bool := (p key).isSome

/-- Source `getBool(key)` with the default `false`. -/
def getBool (p : Preferences) (key : String) : Bool :=
  match p key with
  | some (.bool b) => b
  | _ => false

/-- Source `getString(key, defaultValue)`. -/
def getString (p : Preferences) (key : String) (defaultValue : String) : String :=
  match p key with
  | some (.str s) => s
  | _ => defaultValue

/-- Source `putBool`. -/
def putBool (p : Preferences) (key : String) (b : Bool) : Preferences :=
  fun k => if k = key then some (.bool b) else p k

/-- Source `putString`. -/
def putString (p : Preferences) (key : String) (s : String) : Preferences :=
  fun k => if k = key then some (.str s) else p k

/-- An empty store. -/
def empty : Preferences := fun _ => none

end Preferences

/-- Source `CRGB`. -/
structure CRGB where
  r : Nat
  g : Nat
  b : Nat
  deriving DecidableEq, Repr

/-- Source `CRGB::Black`. -/
def CRGB.Black : CRGB := ⟨0, 0, 0⟩

/-- The state of a `DynamicPattern` object.  `_patterns[6]` is a function on
the six indices; `_start_time` is a `uint32_t`. -/
structure DynamicPattern (F : Type) where
  patterns : Fin 6 → Pattern
  current_slot : Int
  current_duration : F
  active : Bool
  start_time : Nat
  prefs : Preferences

/-- The array index of `_patterns[slot]`.  Every access of the source is
guarded to `1 ≤ slot ≤ 5`, where the index is `slot` itself. -/
def slotIndex (slot : Int) : Fin 6 := ⟨slot.toNat % 6, Nat.mod_lt _ (by decide)⟩

/-- The key prefix `"p" + String(slot) + "_"`. -/
def keyPrefix (slot : Int) : String := "p" ++ toString slot ++ "_"

section Controller

variable {F : Type} (ops : FloatOps F)

/-- A freshly constructed `DynamicPattern` over a given store. -/
def DynamicPattern.init (prefs : Preferences) : DynamicPattern F where
  patterns := fun _ => {}
  current_slot := 0
  current_duration := ops.zero
  active := false
  start_time := 0
  prefs := prefs

/-- Source `_saveToNVS`. -/
def saveToNVS (dp : DynamicPattern F) (slot : Int) : DynamicPattern F :=
  let p := dp.patterns (slotIndex slot)
  let prefs := dp.prefs.putBool (keyPrefix slot ++ "valid") p.valid
  let prefs := prefs.putString (keyPrefix slot ++ "name") p.name
  let prefs := prefs.putString (keyPrefix slot ++ "hue") p.hue_expr
  let prefs := prefs.putString (keyPrefix slot ++ "sat") p.sat_expr
  let prefs := prefs.putString (keyPrefix slot ++ "val") p.val_expr
  { dp with prefs := prefs }

/-- Source `savePattern`: the returned flag and the state after the call. -/
def savePattern (dp : DynamicPattern F) (slot : Int) (name hue sat val : String) :
    Bool × DynamicPattern F :=
  if slot < 1 ∨ slot > 5 then (false, dp)
  else
    let p : Pattern :=
      { valid := true, name := name, hue_expr := hue, sat_expr := sat, val_expr := val }
    let dp := { dp with patterns := Function.update dp.patterns (slotIndex slot) p }
    (true, saveToNVS dp slot)

/-- Source `getPattern`: `none` is the null pointer. -/
def getPattern (dp : DynamicPattern F) (slot : Int) : Option Pattern :=
  if slot ≥ 1 ∧ slot ≤ 5 then some (dp.patterns (slotIndex slot)) else none

/-- Source `stop`. -/
def stop (dp : DynamicPattern F) : DynamicPattern F :=
  { dp with active := false, current_slot := 0 }

/-- Source `isActive`. -/
def isActive (dp : DynamicPattern F) : Bool := dp.active

/-- Source `executePattern`; `millis` is the value `millis()` returns during the
call. -/
def executePattern (dp : DynamicPattern F) (slot : Int) (duration_sec : F) (millis : Nat) :
    Bool × DynamicPattern F :=
  if slot = 0 then (true, stop dp)
  else if slot < 1 ∨ slot > 6 then (false, dp)
  else if slot ≠ 6 ∧ (dp.patterns (slotIndex slot)).valid = false then (false, dp)
  else
    (true, { dp with
      current_slot := slot
      current_duration := duration_sec
      active := true
      start_time := millis % 2 ^ 32 })

/-- The `for (int i = 0; i < 6; i++)` loop of `cycleNextSlot` with `iters`
iterations left; falling out of the loop reaches the final `stop()`. -/
def cycleLoop (dp : DynamicPattern F) (millis : Nat) : Nat → Int → DynamicPattern F
  | 0, _ => stop dp
  | iters + 1, next =>
    let next := if next + 1 > 5 then 0 else next + 1
    if next = 0 then stop dp
    else if (dp.patterns (slotIndex next)).valid then
      (executePattern dp next ops.zero millis).2
    else cycleLoop dp millis iters next

/-- Source `cycleNextSlot`. -/
def cycleNextSlot (dp : DynamicPattern F) (millis : Nat) : DynamicPattern F :=
  let start := if dp.current_slot = 0 then 0 else dp.current_slot
  cycleLoop ops dp millis 6 start

/-- Writing `leds[i] = f i` for `i = 0 .. NUM_LEDS - 1`. -/
def writeLeds (f : Nat → CRGB) (leds : List CRGB) : List CRGB :=
  (List.range NUM_LEDS).foldl (fun l i => l.set i (f i)) leds

/-- The Arduino macro `constrain(amt, low, high)`. -/
def constrain (amt low high : F) : F :=
  if ops.lt amt low then low else if ops.lt high amt then high else amt

/-- The hue normalization of `update`:
`h = fmod(h, 2 * PI); if (h < 0) h += 2 * PI;`. -/
def normalizeHue (h : F) : F :=
  let h := ops.fmod h ops.twoPi
  if ops.lt h ops.zero then ops.add h ops.twoPi else h

/-- The hue byte of `update`: `(uint8_t)((h / (2 * PI)) * 255)`. -/
def hueByte (h : F) : Nat := ops.toUInt8 (ops.mul (ops.div h ops.twoPi) ops.c255)

/-- The colour `update` computes for pixel `i` of pattern `p` at time `t`;
`hsv2rgb` is the FastLED conversion from `CHSV`. -/
def pixelColor (hsv2rgb : Nat → Nat → Nat → CRGB) (port : List Char → F)
    (p : Pattern) (t : F) (i : Nat) : CRGB :=
  let theta := ops.div (ops.mul ops.twoPi (ops.ofInt i)) (ops.ofInt NUM_LEDS)
  let ctx : EvalCtx F := { theta := theta, t := t, i := i, port := port }
  let h := (eval ops ctx p.hue_expr.toList).getD ops.zero
  let s := (eval ops ctx p.sat_expr.toList).getD ops.zero
  let v := (eval ops ctx p.val_expr.toList).getD ops.zero
  let h := normalizeHue ops h
  let s := constrain ops s ops.zero ops.one
  let v := constrain ops (ops.fabs v) ops.zero ops.one
  let hue_byte := hueByte ops h
  let sat_byte := ops.toUInt8 (ops.mul s ops.c255)
  let val_byte := ops.toUInt8 (ops.mul v ops.c255)
  hsv2rgb hue_byte sat_byte val_byte

/-- The elapsed time `(now - _start_time) / 1000.0f` of `update`, in seconds;
the subtraction is that of `uint32_t`. -/
def elapsedSec (start_time now : Nat) : F :=
  ops.div (ops.ofInt (((now + 2 ^ 32 - start_time) % 2 ^ 32 : Nat) : Int)) ops.thousand

/-- Source `update(leds, now)`: the state and the pixel buffer after the call. -/
def update (hsv2rgb : Nat → Nat → Nat → CRGB) (port : List Char → F)
    (dp : DynamicPattern F) (leds : List CRGB) (now : Nat) :
    DynamicPattern F × List CRGB :=
  if dp.active = false ∨ dp.current_slot = 0 then (dp, leds)
  else
    let elapsed := elapsedSec ops dp.start_time now
    if ops.lt ops.zero dp.current_duration = true ∧
        ops.le dp.current_duration elapsed = true then (stop dp, leds)
    else if dp.current_slot = 6 then (dp, writeLeds (fun _ => CRGB.Black) leds)
    else
      let p := dp.patterns (slotIndex dp.current_slot)
      (dp, writeLeds (pixelColor ops hsv2rgb port p elapsed) leds)

/-- One iteration of the loop of `_loadFromNVS`, for slot `i`. -/
def loadSlot (dp : DynamicPattern F) (i : Int) : DynamicPattern F :=
  if dp.prefs.isKey (keyPrefix i ++ "valid") then
    let p : Pattern :=
      { valid := dp.prefs.getBool (keyPrefix i ++ "valid"),
        name := dp.prefs.getString (keyPrefix i ++ "name") ("Pattern " ++ toString i),
        hue_expr := dp.prefs.getString (keyPrefix i ++ "hue") "0",
        sat_expr := dp.prefs.getString (keyPrefix i ++ "sat") "1",
        val_expr := dp.prefs.getString (keyPrefix i ++ "val") "0.5" }
    { dp with patterns := Function.update dp.patterns (slotIndex i) p }
  else dp

/-- Source `_loadFromNVS`: the loop `for (int i = 1; i <= 5; i++)`. -/
def loadFromNVS (dp : DynamicPattern F) : DynamicPattern F :=
  [1, 2, 3, 4, 5].foldl loadSlot dp

/-- Source `begin`: `_prefs.begin("patterns", false)` opens the store, then
`_loadFromNVS()`. -/
def begin (dp : DynamicPattern F) : DynamicPattern F := loadFromNVS dp

/-- The test of `update` for an elapsed duration:
`_current_duration > 0 && elapsed >= _current_duration`. -/
def expired (duration : F) (start_time now : Nat) : Prop :=
  ops.lt ops.zero duration = true ∧ ops.le duration (elapsedSec ops start_time now) = true

end Controller

/-- A store in which no slot is valid, stopped, over an empty key-value store,
in exact arithmetic. -/
def dpEmpty : DynamicPattern Val := DynamicPattern.init exactOps Preferences.empty

/-- A store whose valid slots are exactly 1, 3 and 5, stopped. -/
def dp135 : DynamicPattern Val :=
  { dpEmpty with
    patterns := fun k => { valid := decide (k.val = 1 ∨ k.val = 3 ∨ k.val = 5) } }

/-- A buffer of twelve white pixels. -/
def ledsWhite : List CRGB := List.replicate 12 ⟨255, 255, 255⟩

/-- A stand-in for the FastLED conversion from `CHSV`. -/
def hsvGray (_h _s v : Nat) : CRGB := ⟨v, v, v⟩

/-! ## Arithmetic formulas -/

/-- Arithmetic formulas over number tokens. -/
inductive AExp where
  | lit (text : List Char)
  | add (l r : AExp)
  | sub (l r : AExp)
  | mul (l r : AExp)
  | div (l r : AExp)
  deriving DecidableEq, Repr

/-- A token `_parseNumber` scans as a whole: digits and points, not empty. -/
def isNumberToken (text : List Char) : Bool := !text.isEmpty && text.all isNumChar

/-- A non-negative decimal literal: digits with at most one point and at
least one digit. -/
def isDecimalLiteral (text : List Char) : Bool :=
  text.all isNumChar && text.any isdigit && decide (text.count '.' ≤ 1)

/-- Parenthesize when asked to. -/
def wrap (b : Bool) (s : List Char) : List Char := if b then '(' :: (s ++ [')']) else s

namespace AExp

/-- The text of a formula under the usual conventions.  Level 0 is a sum,
level 1 an operand of a sum (a product), level 2 an operand of a product;
a formula is parenthesized exactly where its operator binds weaker than its
place requires, and operators of equal strength group to the left. -/
def render : Nat → AExp → List Char
  | _, lit text => text
  | lvl, add l r => wrap (decide (0 < lvl)) (render 0 l ++ '+' :: render 1 r)
  | lvl, sub l r => wrap (decide (0 < lvl)) (render 0 l ++ '-' :: render 1 r)
  | lvl, mul l r => wrap (decide (1 < lvl)) (render 1 l ++ '*' :: render 2 r)
  | lvl, div l r => wrap (decide (1 < lvl)) (render 1 l ++ '/' :: render 2 r)

/-- The value of a formula: its literals read by `atof`, its operators
applied to the values of their operands. -/
def value {F : Type} (ops : FloatOps F) : AExp → F
  | lit text => ops.atof text
  | add l r => ops.add (value ops l) (value ops r)
  | sub l r => ops.sub (value ops l) (value ops r)
  | mul l r => ops.mul (value ops l) (value ops r)
  | div l r => ops.div (value ops l) (value ops r)

/-- The value with the two provisions of the source: a literal is read from
its first 31 characters, and a quotient with a zero divisor is 0. -/
def codeValue {F : Type} (ops : FloatOps F) : AExp → F
  | lit text => ops.atof (text.take 31)
  | add l r => ops.add (codeValue ops l) (codeValue ops r)
  | sub l r => ops.sub (codeValue ops l) (codeValue ops r)
  | mul l r => ops.mul (codeValue ops l) (codeValue ops r)
  | div l r =>
    if ops.ne0 (codeValue ops r) then ops.div (codeValue ops l) (codeValue ops r)
    else ops.zero

/-- Every literal of the formula satisfies `p`. -/
def allLiterals (p : List Char → Bool) : AExp → Bool
  | lit text => p text
  | add l r => allLiterals p l && allLiterals p r
  | sub l r => allLiterals p l && allLiterals p r
  | mul l r => allLiterals p l && allLiterals p r
  | div l r => allLiterals p l && allLiterals p r

/-- No divisor of the formula has the value zero. -/
def noZeroDivisor {F : Type} (ops : FloatOps F) : AExp → Bool
  | lit _ => true
  | add l r => noZeroDivisor ops l && noZeroDivisor ops r
  | sub l r => noZeroDivisor ops l && noZeroDivisor ops r
  | mul l r => noZeroDivisor ops l && noZeroDivisor ops r
  | div l r => noZeroDivisor ops l && noZeroDivisor ops r && ops.ne0 (value ops r)

/-- The formula `2+3*4`. -/
def ex234 : AExp := add (lit "2".toList) (mul (lit "3".toList) (lit "4".toList))

/-- The formula `(2+3)*4`. -/
def ex234p : AExp := mul (add (lit "2".toList) (lit "3".toList)) (lit "4".toList)

/-- The formula `10000000000000000000000000000000+3*4`, whose first literal
has 32 digits. -/
def exLong : AExp :=
  add (lit "10000000000000000000000000000000".toList) (mul (lit "3".toList) (lit "4".toList))

end AExp

/-- An identifier: a letter or underscore followed by letters, digits and
underscores. -/
def isIdentifier (name : List Char) : Bool :=
  match name with
  | [] => false
  | c :: _ => (isalpha c || c == '_') && name.all isIdentChar

/-- A literal the 32 byte buffer holds whole: a decimal literal of at most 31
characters. -/
def isShortLiteral (text : List Char) : Bool :=
  isDecimalLiteral text && decide (text.length ≤ 31)

/-! ## Parse judgements -/

section Judgements

variable {F : Type} (ops : FloatOps F) (ctx : EvalCtx F) (expr : List Char)

/-- A parse call returned with the cursor moved forward and inside the text. -/
def Returns (call : Option (F × Nat)) (expr : List Char) (pos : Nat) : Prop :=
  ∃ v p, call = some (v, p) ∧ pos ≤ p ∧ p ≤ expr.length

/-- With enough budget `_parseFactor` at `pos` yields `v` and stops at `p`. -/
def FactorAt (pos : Nat) (v : F) (p : Nat) : Prop :=
  ∃ N, ∀ n, N ≤ n → parseFactor ops ctx expr n pos = some (v, p)

/-- The call `_parseTerm` at `pos` reaches its loop at `p` with the product `v`:
whatever the loop returns from there, `_parseTerm` returns. -/
def TermAt (pos : Nat) (v : F) (p : Nat) : Prop :=
  ∀ k r, termLoop ops ctx expr k v p = some r →
    ∃ N, ∀ n, N ≤ n → parseTerm ops ctx expr n pos = some r

/-- The call `_parseExpression` at `pos` reaches its loop at `p` with the sum `v`. -/
def ExprAt (pos : Nat) (v : F) (p : Nat) : Prop :=
  ∀ k r, expressionLoop ops ctx expr k v p = some r →
    ∃ N, ∀ n, N ≤ n → parseExpression ops ctx expr n pos = some r

/-- With enough budget `_parseComparison` at `pos` yields `v` and stops at `p`. -/
def CmpAt (pos : Nat) (v : F) (p : Nat) : Prop :=
  ∃ N, ∀ n, N ≤ n → parseComparison ops ctx expr n pos = some (v, p)

/-- With enough budget `_parseLogicalOr` at `pos` yields `v` and stops at `p`. -/
def OrAt (pos : Nat) (v : F) (p : Nat) : Prop :=
  ∃ N, ∀ n, N ≤ n → parseLogicalOr ops ctx expr n pos = some (v, p)

/-- A character after which a product cannot go on: no part of a number, no
space, no multiplicative operator. -/
def termStop (c : Char) : Bool :=
  !isNumChar c && !isspace c && c != '*' && c != '/' && c != '%'

/-- The text is read by `_parseFactor` as one operand of value `v`, wherever it
stands, provided no digit or point follows it. -/
def FactorText (text : List Char) (v : F) : Prop :=
  ∀ (expr : List Char) (pos : Nat) (rest : List Char), expr.drop pos = text ++ rest →
    isNumChar (rest.headD NUL) = false →
    FactorAt ops ctx expr pos v (pos + text.length)

/-- The text is read by `_parseTerm` as a product of value `v`, up to the
continuation of its loop. -/
def TermText (text : List Char) (v : F) : Prop :=
  ∀ (expr : List Char) (pos : Nat) (rest : List Char), expr.drop pos = text ++ rest →
    isNumChar (rest.headD NUL) = false →
    TermAt ops ctx expr pos v (pos + text.length)

/-- The text is read by `_parseExpression` as a sum of value `v`, up to the
continuation of its loop. -/
def ExprText (text : List Char) (v : F) : Prop :=
  ∀ (expr : List Char) (pos : Nat) (rest : List Char), expr.drop pos = text ++ rest →
    termStop (rest.headD NUL) = true →
    ExprAt ops ctx expr pos v (pos + text.length)

end Judgements

/-! ## Binary operators -/

/-- The thirteen binary operators of the formula language. -/
inductive BinOp where
  | mul | div | mod | add | sub | lt | gt | le | ge | eq | ne | and | or
  deriving DecidableEq, Repr

namespace BinOp

/-- The text of an operator. -/
def text : BinOp → List Char
  | mul => "*".toList
  | div => "/".toList
  | mod => "%".toList
  | add => "+".toList
  | sub => "-".toList
  | lt => "<".toList
  | gt => ">".toList
  | le => "<=".toList
  | ge => ">=".toList
  | eq => "==".toList
  | ne => "!=".toList
  | and => "&&".toList
  | or => "||".toList

/-- The value of one application `l op r`: the arithmetic operators with a
quotient by zero being 0, the comparisons and logical operators giving 1 or 0,
equality within the epsilon. -/
def apply {F : Type} (ops : FloatOps F) : BinOp → F → F → F
  | mul, l, r => ops.mul l r
  | div, l, r => if ops.ne0 r then ops.div l r else ops.zero
  | mod, l, r => ops.fmod l r
  | add, l, r => ops.add l r
  | sub, l, r => ops.sub l r
  | lt, l, r => boolVal ops (ops.lt l r)
  | gt, l, r => boolVal ops (ops.lt r l)
  | le, l, r => boolVal ops (ops.le l r)
  | ge, l, r => boolVal ops (ops.le r l)
  | eq, l, r => boolVal ops (ops.lt (ops.fabs (ops.sub l r)) ops.eps)
  | ne, l, r => boolVal ops (ops.le ops.eps (ops.fabs (ops.sub l r)))
  | and, l, r => boolVal ops (ops.ne0 l && ops.ne0 r)
  | or, l, r => boolVal ops (ops.ne0 l || ops.ne0 r)

/-- The relational and equality operators, read by `_parseComparison`. -/
def isComparison : BinOp → Bool
  | lt | gt | le | ge | eq | ne => true
  | _ => false

end BinOp

section Judgements2

variable {F : Type} (ops : FloatOps F) (ctx : EvalCtx F) (expr : List Char)

/-- The call `_parseLogicalAnd` at `pos` reaches its loop at `p` with the
value `v`. -/
def AndAt (pos : Nat) (v : F) (p : Nat) : Prop :=
  ∀ k r, logicalAndLoop ops ctx expr k v p = some r →
    ∃ N, ∀ n, N ≤ n → parseLogicalAnd ops ctx expr n pos = some r

/-- The call `_parseLogicalOr` at `pos` reaches its loop at `p` with the
value `v`. -/
def OrLoopAt (pos : Nat) (v : F) (p : Nat) : Prop :=
  ∀ k r, logicalOrLoop ops ctx expr k v p = some r →
    ∃ N, ∀ n, N ≤ n → parseLogicalOr ops ctx expr n pos = some r

/-- A character after which a comparison cannot go on: a `termStop` that is
no additive and no comparison operator. -/
def cmpStop (c : Char) : Bool :=
  termStop c && c != '+' && c != '-' && c != '<' && c != '>' && c != '=' && c != '!'

/-- The text is read by `_parseComparison` as one operand of value `v`,
wherever it stands before a `cmpStop` character. -/
def CmpText (text : List Char) (v : F) : Prop :=
  ∀ (expr : List Char) (pos : Nat) (rest : List Char), expr.drop pos = text ++ rest →
    cmpStop (rest.headD NUL) = true →
    CmpAt ops ctx expr pos v (pos + text.length)

/-- The text is read by `_parseLogicalAnd` as a conjunction of value `v`, up
to the continuation of its loop. -/
def AndText (text : List Char) (v : F) : Prop :=
  ∀ (expr : List Char) (pos : Nat) (rest : List Char), expr.drop pos = text ++ rest →
    cmpStop (rest.headD NUL) = true →
    AndAt ops ctx expr pos v (pos + text.length)

/-- The text is read by `_parseLogicalOr` as a disjunction of value `v`, up to
the continuation of its loop. -/
def OrText (text : List Char) (v : F) : Prop :=
  ∀ (expr : List Char) (pos : Nat) (rest : List Char), expr.drop pos = text ++ rest →
    cmpStop (rest.headD NUL) = true → rest.headD NUL ≠ '&' →
    OrLoopAt ops ctx expr pos v (pos + text.length)

end Judgements2

/-! ## The eye controller (`eye_controller.h`): blink state machine -/

/-- The value of an integer stored in an unsigned type of `w` bits. -/
def wrapU (w : Nat) (x : Int) : Nat := (x % 2 ^ w).toNat

/-- The value of an integer stored in a signed type of `w` bits. -/
def wrapS (w : Nat) (x : Int) : Int :=
  if x % 2 ^ w < 2 ^ (w - 1) then x % 2 ^ w else x % 2 ^ w - 2 ^ w

/-- Source `EyeController::Mood`. -/
inductive Mood where
  | Neutral | Annoyed | Angry
  deriving DecidableEq, Repr

/-- Source `EyeController::BlinkPhase`. -/
inductive BlinkPhase where
  | Idle | Closing | Hold | Opening
  deriving DecidableEq, Repr

/-- The successor of a phase in the cycle Idle, Closing, Hold, Opening, Idle. -/
def BlinkPhase.next : BlinkPhase → BlinkPhase
  | Idle => Closing
  | Closing => Hold
  | Hold => Opening
  | Opening => Idle

/-- Source `EyeController::Config` with its default values. -/
structure Config where
  baseBlinkMs : Nat := 10000
  jitterMs : Nat := 2000
  closeMs : Nat := 140
  holdMs : Nat := 80
  openMs : Nat := 160
  baseBrightness : Nat := 100
  tickMs : Nat := 16
  eyelidSweep : Bool := true
  featherLEDs : Nat := 2
  doubleBlinkPct : Nat := 20
  doubleBlinkGapMin : Nat := 200
  doubleBlinkGapMax : Nat := 300
  topIndex : Nat := 3
  deriving DecidableEq, Repr

/-- The Arduino `random(min, max)` at its three call sites of the blink logic:
the double blink draw, the gap draw and the jitter draw. -/
structure Random where
  pct : Int → Int → Int
  gap : Int → Int → Int
  jitter : Int → Int → Int

/-- The render call a blink step makes: `_renderOpen()` or
`_renderByPhase(scale)`. -/
inductive LidRender where
  | renderOpen
  | renderByPhase (scale : Nat)
  deriving DecidableEq, Repr

/-- What one call of `EyeController::update` reads from the board: `millis()`,
`digitalRead(BUTTON_PIN)` (HIGH is `true`), and the value `millis()` returns
inside `executePattern` when the button cycles the slot. -/
structure TickInput where
  now : Nat
  btnState : Bool
  millisExec : Nat

/-- The state of the `EyeController` object. -/
structure EyeController (F : Type) where
  cfg : Config
  dynamicPattern : DynamicPattern F
  inited : Bool
  powerOn : Bool
  mood : Mood
  color : CRGB
  phase : BlinkPhase
  phaseStart : Nat
  nextDue : Nat
  pendingDouble : Bool
  lastBtnState : Bool
  btnPressTime : Nat
  longPressTriggered : Bool

namespace EyeController

variable {F : Type}

/-- Source `_startPhase`. -/
def startPhase (ec : EyeController F) (p : BlinkPhase) (now : Nat) : EyeController F :=
  { ec with phase := p, phaseStart := now }

/-- Source `_withJitter`. -/
def withJitter (rnd : Random) (base jitter : Nat) : Nat :=
  if jitter = 0 then base
  else
    let half : Int := wrapS 16 (jitter / 2 : Nat)
    let r : Int := wrapS 16 (rnd.jitter (-half) (half + 1))
    let v : Int := wrapS 32 (wrapS 32 base + r)
    let v := if v < 50 then 50 else v
    wrapU 32 v

/-- Source `_scheduleNextBlink`. -/
def scheduleNextBlink (rnd : Random) (ec : EyeController F) (now : Nat) (immediate : Bool) :
    EyeController F :=
  let base := if immediate then ec.cfg.baseBlinkMs
    else withJitter rnd ec.cfg.baseBlinkMs ec.cfg.jitterMs
  { ec with nextDue := wrapU 32 (now + base) }

/-- Source `_phaseDone`: `(int32_t)(now - (start + dur)) >= 0`. -/
def phaseDone (now start dur : Nat) : Bool :=
  decide (0 ≤ wrapS 32 ((now : Int) - wrapU 32 (start + dur)))

/-- Source `_progressScale`. -/
def progressScale (now start dur : Nat) (closing : Bool) : Nat :=
  if dur = 0 then (if closing then 0 else 255)
  else
    let elapsed := wrapU 32 ((now : Int) - start)
    if elapsed ≥ dur then (if closing then 0 else 255)
    else
      let t := wrapU 32 (elapsed * 255) / dur
      if closing then wrapU 8 (255 - (t : Int)) else wrapU 8 t

/-- The `switch (_phase)` of `update`: the blink logic run when no dynamic
pattern is active.  It returns the state and the render call made, if any. -/
def blinkStep (rnd : Random) (ec : EyeController F) (now : Nat) :
    EyeController F × Option LidRender :=
  match ec.phase with
  | .Idle =>
    if 0 ≤ wrapS 32 ((now : Int) - ec.nextDue) then (startPhase ec .Closing now, none)
    else (ec, some .renderOpen)
  | .Closing =>
    let scale := progressScale now ec.phaseStart ec.cfg.closeMs true
    if phaseDone now ec.phaseStart ec.cfg.closeMs then
      (startPhase ec .Hold now, some (.renderByPhase scale))
    else (ec, some (.renderByPhase scale))
  | .Hold =>
    if phaseDone now ec.phaseStart ec.cfg.holdMs then
      (startPhase ec .Opening now, some (.renderByPhase 0))
    else (ec, some (.renderByPhase 0))
  | .Opening =>
    let scale := progressScale now ec.phaseStart ec.cfg.openMs false
    if phaseDone now ec.phaseStart ec.cfg.openMs then
      let ec := { ec with phase := .Idle }
      if ec.pendingDouble = false ∧ ec.cfg.doubleBlinkPct > 0 ∧
          wrapU 8 (rnd.pct 0 100) < ec.cfg.doubleBlinkPct then
        let gap := wrapU 16 (ec.cfg.doubleBlinkGapMin +
          wrapU 16 (rnd.gap 0
            (max 0 ((ec.cfg.doubleBlinkGapMax : Int) - ec.cfg.doubleBlinkGapMin + 1))))
        ({ ec with pendingDouble := true, nextDue := wrapU 32 (now + gap) },
          some (.renderByPhase scale))
      else
        (scheduleNextBlink rnd { ec with pendingDouble := false } now false,
          some (.renderByPhase scale))
    else (ec, some (.renderByPhase scale))

end EyeController

section EyeUpdate

variable {F : Type} (ops : FloatOps F)

/-- The button polling of `EyeController::update`: the state and the pixel
buffer after it (`FastLED.clear(true)` blackens the buffer when the long press
switches the power off). -/
def buttonStep (ec : EyeController F) (leds : List CRGB) (inp : TickInput) :
    EyeController F × List CRGB :=
  let now := inp.now
  let ec : EyeController F :=
    if inp.btnState = false ∧ ec.lastBtnState = true then
      { ec with btnPressTime := now, longPressTriggered := false }
    else ec
  let r : EyeController F × List CRGB :=
    if inp.btnState = false then
      if ec.longPressTriggered = false ∧ wrapU 32 ((now : Int) - ec.btnPressTime) > 1000 then
        let ec := { ec with longPressTriggered := true, powerOn := !ec.powerOn }
        if ec.powerOn then (ec, leds)
        else ({ ec with dynamicPattern := stop ec.dynamicPattern },
          leds.map (fun _ => CRGB.Black))
      else (ec, leds)
    else (ec, leds)
  let ec := r.1
  let ec : EyeController F :=
    if inp.btnState = true ∧ ec.lastBtnState = false then
      if ec.longPressTriggered = false ∧ wrapU 32 ((now : Int) - ec.btnPressTime) > 50 then
        if ec.powerOn then
          { ec with dynamicPattern := cycleNextSlot ops ec.dynamicPattern inp.millisExec }
        else ec
      else ec
    else ec
  ({ ec with lastBtnState := inp.btnState }, r.2)

/-- Source `EyeController::update`: the state, the pixel buffer as written by
the button logic and the dynamic pattern, and the lid render call of the blink
logic when it ran. -/
def EyeController.update (hsv2rgb : Nat → Nat → Nat → CRGB) (port : List Char → F)
    (rnd : Random) (ec : EyeController F) (leds : List CRGB) (inp : TickInput) :
    EyeController F × List CRGB × Option LidRender :=
  if ec.inited = false then (ec, leds, none)
  else
    let r := buttonStep ops ec leds inp
    let ec := r.1
    let leds := r.2
    if ec.powerOn = false then (ec, leds, none)
    else if isActive ec.dynamicPattern then
      let u := VibeLed.update ops hsv2rgb port ec.dynamicPattern leds inp.now
      ({ ec with dynamicPattern := u.1 }, u.2, none)
    else
      let b := EyeController.blinkStep rnd ec inp.now
      (b.1, leds, b.2)

/-- The call `EyeController::instance().dynamicPattern.executePattern(slot,
duration)` made by the control surface. -/
def EyeController.executePattern (ec : EyeController F) (slot : Int) (duration_sec : F)
    (millis : Nat) : Bool × EyeController F :=
  let r := VibeLed.executePattern ec.dynamicPattern slot duration_sec millis
  (r.1, { ec with dynamicPattern := r.2 })

/-- The phases a controller goes through over a sequence of `update` calls,
the starting phase first. -/
def phaseTrace (hsv2rgb : Nat → Nat → Nat → CRGB) (port : List Char → F) (rnd : Random)
    (ec : EyeController F) (leds : List CRGB) : List TickInput → List BlinkPhase
  | [] => [ec.phase]
  | inp :: rest =>
    let r := EyeController.update ops hsv2rgb port rnd ec leds inp
    ec.phase :: phaseTrace hsv2rgb port rnd r.1 r.2.1 rest

end EyeUpdate

/-- A controller after construction and `begin` over the empty store, in exact
arithmetic, with the default configuration. -/
def ecInit : EyeController Val where
  cfg := {}
  dynamicPattern := dpEmpty
  inited := true
  powerOn := true
  mood := .Neutral
  color := ⟨0, 255, 0⟩
  phase := .Idle
  phaseStart := 0
  nextDue := 0
  pendingDouble := false
  lastBtnState := true
  btnPressTime := 0
  longPressTriggered := false

/-- The controller `ecInit` in the middle of closing the lids. -/
def ecClosing : EyeController Val := { ecInit with phase := .Closing, phaseStart := 100 }

/-- A random source that always returns its lower bound. -/
def rndLow : Random := ⟨fun lo _ => lo, fun lo _ => lo, fun lo _ => lo⟩


/-! ## The eye controller: contracts of the board -/

/-- The contract of the Arduino `random(min, max)`: a value from `min` up to
`max - 1` whenever `min < max`. -/
def Random.InRange (rnd : Random) : Prop :=
  ∀ lo hi : Int, lo < hi →
    (lo ≤ rnd.pct lo hi ∧ rnd.pct lo hi < hi) ∧
    (lo ≤ rnd.gap lo hi ∧ rnd.gap lo hi < hi) ∧
    (lo ≤ rnd.jitter lo hi ∧ rnd.jitter lo hi < hi)

/-- The fields of `Config` hold values of their C types: `uint16_t` for the
times, `uint8_t` for brightness, feather, percentage and top index. -/
def Config.InRange (cfg : Config) : Prop :=
  cfg.baseBlinkMs < 2 ^ 16 ∧ cfg.jitterMs < 2 ^ 16 ∧ cfg.closeMs < 2 ^ 16 ∧
  cfg.holdMs < 2 ^ 16 ∧ cfg.openMs < 2 ^ 16 ∧ cfg.baseBrightness < 2 ^ 8 ∧
  cfg.tickMs < 2 ^ 16 ∧ cfg.featherLEDs < 2 ^ 8 ∧ cfg.doubleBlinkPct < 2 ^ 8 ∧
  cfg.doubleBlinkGapMin < 2 ^ 16 ∧ cfg.doubleBlinkGapMax < 2 ^ 16 ∧ cfg.topIndex < 2 ^ 8

/-- A random source that always returns its upper bound minus one. -/
def rndHigh : Random := ⟨fun _ hi => hi - 1, fun _ hi => hi - 1, fun _ hi => hi - 1⟩

/-- The controller `ecInit` configured with a base interval of 10 ms and no
jitter. -/
def ecFast : EyeController Val :=
  { ecInit with cfg := { baseBlinkMs := 10, jitterMs := 0 } }

section LidRendering

variable {F : Type} (ops : FloatOps F)

/-- The lit factor `_renderBothLids` computes for a pixel of height `h` from
the open band `low`..`high` and the feather width. -/
def litFactor (low high feather h : F) : F :=
  if ops.le (ops.add low feather) h && ops.le h (ops.sub high feather) then ops.one
  else if ops.lt ops.zero feather then
    let lit := ops.zero
    let lit :=
      if ops.lt low h && ops.lt h (ops.add low feather) then
        let t := ops.div (ops.sub h low) feather
        let t := if ops.lt t ops.zero then ops.zero else t
        let t := if ops.lt ops.one t then ops.one else t
        t
      else lit
    let lit :=
      if ops.lt h high && ops.lt (ops.sub high feather) h then
        let t := ops.div (ops.sub high h) feather
        let t := if ops.lt t ops.zero then ops.zero else t
        let t := if ops.lt ops.one t then ops.one else t
        ops.fmax lit t
      else lit
    lit
  else ops.zero

/-- The lower edge of the open band: `(1.0f - openRatio) * 0.5f`. -/
def lidLow (openRatio : F) : F :=
  ops.mul (ops.sub ops.one openRatio) (ops.atof "0.5".toList)

/-- The upper edge of the open band: `1.0f - low`. -/
def lidHigh (openRatio : F) : F := ops.sub ops.one (lidLow ops openRatio)

/-- The feather width: `featherLEDs / NUM_LEDS`, or 0 without feather LEDs. -/
def lidFeather (cfg : Config) : F :=
  if cfg.featherLEDs > 0 then ops.div (ops.ofInt cfg.featherLEDs) (ops.ofInt NUM_LEDS)
  else ops.zero

/-- The height `(cosf(theta) + 1.0f) * 0.5f` of pixel `i`, with `theta` the
angle of the pixel from the top pixel. -/
def pixelHeight (cfg : Config) (i : Nat) : F :=
  let di : Int := wrapS 16 (wrapS 16 i - wrapS 16 cfg.topIndex)
  let di : Int := wrapS 16 (Int.tmod di (wrapS 16 NUM_LEDS))
  let di : Int := if di < 0 then wrapS 16 (di + NUM_LEDS) else di
  let theta := ops.mul ops.twoPi (ops.div (ops.ofInt di) (ops.ofInt NUM_LEDS))
  ops.mul (ops.add (ops.cos theta) ops.one) (ops.atof "0.5".toList)

/-- Source `_renderBothLids`: the pixel buffer it writes; `nscale8_video` is the
FastLED scaling of a colour by a byte. -/
def renderBothLids (nscale8_video : CRGB → Nat → CRGB) (cfg : Config) (color : CRGB)
    (openRatio : F) : List CRGB :=
  let low := lidLow ops openRatio
  let high := lidHigh ops openRatio
  let feather := lidFeather ops cfg
  (List.range NUM_LEDS).map (fun i =>
    let h := pixelHeight ops cfg i
    let lit := litFactor ops low high feather h
    nscale8_video color (ops.toUInt8 (ops.mul lit ops.c255)))

/-- Source `_renderOpen`. -/
def renderOpen (nscale8_video : CRGB → Nat → CRGB) (cfg : Config) (color : CRGB) :
    List CRGB :=
  renderBothLids ops nscale8_video cfg color ops.one

/-- Source `_renderByPhase`. -/
def renderByPhase (nscale8_video : CRGB → Nat → CRGB) (cfg : Config) (color : CRGB)
    (scale : Nat) : List CRGB :=
  if cfg.eyelidSweep = false then List.replicate NUM_LEDS (nscale8_video color scale)
  else renderBothLids ops nscale8_video cfg color (ops.div (ops.ofInt scale) ops.c255)

/-- The pixel buffer written by a render call of the blink logic. -/
def LidRender.pixels (nscale8_video : CRGB → Nat → CRGB) (cfg : Config) (color : CRGB) :
    LidRender → List CRGB
  | .renderOpen => VibeLed.renderOpen ops nscale8_video cfg color
  | .renderByPhase scale => VibeLed.renderByPhase ops nscale8_video cfg color scale

end LidRendering

/-- The FastLED `scale8_video`: `(i * scale) >> 8`, plus one when both are not
zero. -/
def scale8_video (i scale : Nat) : Nat :=
  i * scale / 256 + (if i ≠ 0 ∧ scale ≠ 0 then 1 else 0)

/-- The FastLED `CRGB::nscale8_video`. -/
def nscale8_video (c : CRGB) (scale : Nat) : CRGB :=
  ⟨scale8_video c.r scale, scale8_video c.g scale, scale8_video c.b scale⟩

/-! ## Single precision arithmetic -/

/-- Values of IEEE 754 arithmetic: a finite number, an infinity or
not-a-number.  The two zeros are not told apart. -/
inductive Fl where
  | fin (q : ℚ)
  | pinf
  | ninf
  | nan
  deriving DecidableEq, Repr

namespace Fl

/-- The power `2^e` for an integer exponent. -/
def pow2 (e : Int) : ℚ :=
  if 0 ≤ e then ((2 ^ e.toNat : Nat) : ℚ) else 1 / ((2 ^ (-e).toNat : Nat) : ℚ)

/-- The number of halvings that take `n` below 2, within `fuel` steps. -/
def halvings : Nat → Nat → Nat
  | 0, _ => 0
  | fuel + 1, n => if n < 2 then 0 else halvings fuel (n / 2) + 1

/-- The exponent `k` with `2^k <= n < 2^(k+1)` of a positive natural number. -/
def natLog2 (n : Nat) : Nat := halvings n n

/-- The exponent `e` with `2^e <= q < 2^(e+1)` of a positive rational. -/
def ilog2 (q : ℚ) : Int :=
  let e : Int := (natLog2 q.num.toNat : Int) - (natLog2 q.den : Int)
  if q < pow2 e then e - 1 else e

/-- The nearest integer, a tie going to the even one. -/
def nearestEven (q : ℚ) : Int :=
  let f := Rat.floor q
  let r := q - f
  if r < 1 / 2 then f else if 1 / 2 < r then f + 1 else if f % 2 = 0 then f else f + 1

/-- Rounding to the nearest value of a binary format with `p` significant
bits, least normal exponent `emin` and overflow threshold `2^emax1`: ties to
even, gradual underflow, overflow to infinity. -/
def roundBin (p : Nat) (emin emax1 : Int) (q : ℚ) : Fl :=
  if q = 0 then fin 0
  else
    let a := |q|
    let e := max (ilog2 a) emin
    let ulp := pow2 (e - ((p : Int) - 1))
    let r := (nearestEven (a / ulp) : ℚ) * ulp
    if pow2 emax1 ≤ r then (if 0 < q then pinf else ninf)
    else fin (if 0 < q then r else -r)

/-- Rounding to `float` (binary32). -/
def round32 (q : ℚ) : Fl := roundBin 24 (-126) 128 q

/-- Rounding to `double` (binary64). -/
def round64 (q : ℚ) : Fl := roundBin 53 (-1022) 1024 q

/-- The sign of a value: 1, 0 or -1; 0 for not-a-number. -/
def sgn : Fl → Int
  | fin q => if 0 < q then 1 else if q < 0 then -1 else 0
  | pinf => 1
  | ninf => -1
  | nan => 0

/-- Negation. -/
def negF : Fl → Fl
  | fin q => fin (-q)
  | pinf => ninf
  | ninf => pinf
  | nan => nan

/-- Addition: rounded on finite numbers; opposite infinities give
not-a-number. -/
def addF : Fl → Fl → Fl
  | fin a, fin b => round32 (a + b)
  | nan, _ => nan
  | _, nan => nan
  | pinf, ninf => nan
  | ninf, pinf => nan
  | pinf, _ => pinf
  | _, pinf => pinf
  | ninf, _ => ninf
  | _, ninf => ninf

/-- Multiplication: rounded on finite numbers; zero times infinity gives
not-a-number. -/
def mulF : Fl → Fl → Fl
  | fin a, fin b => round32 (a * b)
  | nan, _ => nan
  | _, nan => nan
  | x, y =>
    if sgn x * sgn y = 0 then nan else if 0 < sgn x * sgn y then pinf else ninf

/-- Division: rounded on finite numbers; a zero divisor gives an infinity, or
not-a-number for `0 / 0`. -/
def divF : Fl → Fl → Fl
  | fin a, fin b =>
    if b = 0 then (if a = 0 then nan else if 0 < a then pinf else ninf)
    else round32 (a / b)
  | nan, _ => nan
  | _, nan => nan
  | fin _, _ => fin 0
  | x, fin b => if 0 < sgn x * (if b < 0 then -1 else 1) then pinf else ninf
  | _, _ => nan

/-- C `fmod`: exact on finite numbers, with the sign of the dividend; a zero
divisor or an infinite dividend gives not-a-number, an infinite divisor the
dividend. -/
def fmodF : Fl → Fl → Fl
  | fin a, fin b => if b = 0 then nan else fin (a - b * (Val.truncQ (a / b) : ℚ))
  | nan, _ => nan
  | _, nan => nan
  | fin a, _ => fin a
  | _, _ => nan

/-- The comparison `a < b`; false with not-a-number. -/
def ltF : Fl → Fl → Bool
  | fin a, fin b => decide (a < b)
  | nan, _ => false
  | _, nan => false
  | ninf, ninf => false
  | ninf, _ => true
  | pinf, _ => false
  | _, pinf => true
  | _, _ => false

/-- The comparison `a <= b`; false with not-a-number. -/
def leF : Fl → Fl → Bool
  | fin a, fin b => decide (a ≤ b)
  | nan, _ => false
  | _, nan => false
  | ninf, _ => true
  | _, pinf => true
  | _, _ => false

/-- Lift a function that is exact on finite numbers and keeps the others. -/
def mapFin (f : ℚ → ℚ) : Fl → Fl
  | fin q => fin (f q)
  | x => x

/-- The absolute value. -/
def fabsF : Fl → Fl
  | fin q => fin |q|
  | nan => nan
  | _ => pinf

/-- Conversion `(uint8_t)x` of an in-range value. -/
def toUInt8F : Fl → Nat
  | fin q => (Val.truncQ q).toNat % 256
  | _ => 0

/-- C `atof` returned as `float`: the decimal value rounded to `double`, then
to `float`. -/
def atofF (buf : List Char) : Fl :=
  match Val.atofV buf with
  | .num q =>
    match round64 q with
    | fin d => round32 d
    | x => x
  | .nan => nan

end Fl

/-- The functions of the C math library that are not determined by IEEE 754,
taken as given. -/
structure Libm where
  sin : Fl → Fl
  cos : Fl → Fl
  tan : Fl → Fl
  sqrt : Fl → Fl
  pow : Fl → Fl → Fl

/-- Single precision arithmetic: every operation on finite numbers is rounded
to the nearest `float`, with infinities and not-a-number as in IEEE 754. -/
def f32Ops (lib : Libm) : FloatOps Fl where
  zero := .fin 0
  one := .fin 1
  eps := Fl.round32 (1 / 10000)
  pi := .fin (13176795 / 4194304)
  twoPi := .fin (13176795 / 2097152)
  thousand := .fin 1000
  c255 := .fin 255
  add := Fl.addF
  sub := fun a b => Fl.addF a (Fl.negF b)
  mul := Fl.mulF
  div := Fl.divF
  neg := Fl.negF
  fmod := Fl.fmodF
  fabs := Fl.fabsF
  ne0 := fun v => match v with
    | .fin q => decide (q ≠ 0)
    | _ => true
  lt := Fl.ltF
  le := Fl.leF
  isnan := fun v => match v with
    | .nan => true
    | _ => false
  ofInt := fun z => Fl.round32 z
  toUInt8 := Fl.toUInt8F
  atof := Fl.atofF
  fmax := fun a b => if Fl.ltF a b then b else a
  fmin := fun a b => if Fl.ltF b a then b else a
  pow := lib.pow
  sin := lib.sin
  cos := lib.cos
  tan := lib.tan
  sqrt := lib.sqrt
  floor := Fl.mapFin (fun a => (Rat.floor a : ℚ))
  ceil := Fl.mapFin (fun a => (-Rat.floor (-a) : ℚ))

/-- A math library for evaluations that call none of its functions: every
function returns not-a-number. -/
def libmNone : Libm := ⟨fun _ => .nan, fun _ => .nan, fun _ => .nan, fun _ => .nan,
  fun _ _ => .nan⟩

/-- A single precision context whose resolver knows no variable. -/
def ctxF0 : EvalCtx Fl where
  theta := .fin 0
  t := .fin 0
  i := 0
  port := fun _ => .nan

/-- A stand-in for the FastLED conversion from `CHSV` that keeps the three
bytes. -/
def hsvRaw (h s v : Nat) : CRGB := ⟨h, s, v⟩

/-- A pattern whose hue formula is slightly negative. -/
def patTinyNegative : Pattern :=
  { valid := true, name := "tiny", hue_expr := "0-0.00000001", sat_expr := "1",
    val_expr := "0.5" }

/-- The controller `ecInit` with pattern slot 5 saved and running, the button
held down since 0 ms. -/
def ecPattern5 : EyeController Val :=
  { ecInit with
    dynamicPattern := (executePattern (savePattern dpEmpty 5 "p" "0" "1" "0.5").2 5
      (Val.num 0) 0).2
    lastBtnState := false }

section CompletionTrace

variable {F : Type} (ops : FloatOps F)

end CompletionTrace
/-! # Theorems -/

/-! ## The cursor and the text -/

theorem peek_eq_headD (expr : List Char) (pos : Nat) :
    peek expr pos = (expr.drop pos).headD NUL := by
  induction expr generalizing pos with
  | nil => simp [peek]
  | cons c cs ih =>
    cases pos with
    | zero => simp [peek]
    | succ k => simp [peek]

theorem peek_of_drop {expr : List Char} {pos : Nat} {c : Char} {rest : List Char}
    (h : expr.drop pos = c :: rest) : peek expr pos = c := by
  rw [peek_eq_headD, h]; rfl

theorem peek_of_drop_nil {expr : List Char} {pos : Nat}
    (h : expr.drop pos = []) : peek expr pos = NUL := by
  rw [peek_eq_headD, h]; rfl

theorem drop_succ_of_drop {expr : List Char} {pos : Nat} {c : Char} {rest : List Char}
    (h : expr.drop pos = c :: rest) : expr.drop (pos + 1) = rest := by
  have : expr.drop (pos + 1) = (expr.drop pos).drop 1 := by
    rw [List.drop_drop]
  rw [this, h]; rfl

theorem drop_add_of_drop {expr : List Char} {pos : Nat} (a : List Char) {rest : List Char}
    (h : expr.drop pos = a ++ rest) : expr.drop (pos + a.length) = rest := by
  have : expr.drop (pos + a.length) = (expr.drop pos).drop a.length := by
    rw [List.drop_drop, Nat.add_comm]
  rw [this, h, List.drop_left]

theorem lt_length_of_peek {expr : List Char} {pos : Nat} (h : peek expr pos ≠ NUL) :
    pos < expr.length := by
  by_contra hlt
  apply h
  rw [peek_eq_headD, List.drop_eq_nil_of_le (by omega)]; rfl

theorem scanWhile_ge (p : Char → Bool) (l : List Char) (pos : Nat) :
    pos ≤ scanWhile p l pos := by
  induction l generalizing pos with
  | nil => simp [scanWhile]
  | cons c cs ih =>
    rw [scanWhile]; split
    · exact Nat.le_trans (Nat.le_succ pos) (ih (pos + 1))
    · exact Nat.le_refl pos

theorem scanWhile_le (p : Char → Bool) (l : List Char) (pos : Nat) :
    scanWhile p l pos ≤ pos + l.length := by
  induction l generalizing pos with
  | nil => simp [scanWhile]
  | cons c cs ih =>
    rw [scanWhile]; split
    · have := ih (pos + 1); simp only [List.length_cons]; omega
    · omega

theorem scanWhile_drop_le (p : Char → Bool) (expr : List Char) (pos : Nat)
    (h : pos ≤ expr.length) : scanWhile p (expr.drop pos) pos ≤ expr.length := by
  have := scanWhile_le p (expr.drop pos) pos
  rw [List.length_drop] at this; omega

theorem skipWhitespace_ge (expr : List Char) (pos : Nat) :
    pos ≤ skipWhitespace expr pos := scanWhile_ge _ _ _

theorem skipWhitespace_le (expr : List Char) (pos : Nat) (h : pos ≤ expr.length) :
    skipWhitespace expr pos ≤ expr.length := scanWhile_drop_le _ _ _ h

/-- Scanning a run of characters satisfying `p` followed by a stop. -/
theorem scanWhile_append (p : Char → Bool) (a rest : List Char) (pos : Nat)
    (ha : ∀ c ∈ a, p c = true) (hr : p (rest.headD NUL) = false) :
    scanWhile p (a ++ rest) pos = pos + a.length := by
  induction a generalizing pos with
  | nil =>
    cases rest with
    | nil => simp [scanWhile]
    | cons c cs =>
      simp only [List.headD_cons] at hr
      simp [scanWhile, hr]
  | cons c cs ih =>
    have hc : p c = true := ha c (List.mem_cons_self _ _)
    have hih := ih (pos + 1) (fun x hx => ha x (List.mem_cons_of_mem _ hx))
    simp only [List.cons_append, scanWhile, hc, if_true, List.length_cons]
    show scanWhile p (cs ++ rest) (pos + 1) = pos + (cs.length + 1)
    rw [hih]; omega

/-- No whitespace is skipped at a character that is not a space. -/
theorem skipWhitespace_eq_self {expr : List Char} {pos : Nat}
    (h : isspace (peek expr pos) = false) : skipWhitespace expr pos = pos := by
  rw [peek_eq_headD] at h
  have := scanWhile_append isspace [] (expr.drop pos) pos (by simp) h
  simpa [skipWhitespace] using this

theorem copyBuffer_of_drop {expr : List Char} {pos : Nat} (a : List Char) {rest : List Char}
    (h : expr.drop pos = a ++ rest) :
    copyBuffer expr pos (pos + a.length) = a.take 31 := by
  unfold copyBuffer
  rw [h, Nat.add_sub_cancel_left, List.take_append_eq_append_take]
  have : min 31 a.length - a.length = 0 := by omega
  rw [this, List.take_zero, List.append_nil]
  rw [List.take_eq_take]
  simp


/-! ## Budget -/
section
variable {F : Type} (ops : FloatOps F) (ctx : EvalCtx F) (expr : List Char)

/-- The twelve parse functions keep their result when given one more unit of budget. -/
theorem parse_mono_succ (n : Nat) :
    (∀ pos r, parseLogicalOr ops ctx expr n pos = some r →
      parseLogicalOr ops ctx expr (n + 1) pos = some r) ∧
    (∀ v pos r, logicalOrLoop ops ctx expr n v pos = some r →
      logicalOrLoop ops ctx expr (n + 1) v pos = some r) ∧
    (∀ pos r, parseLogicalAnd ops ctx expr n pos = some r →
      parseLogicalAnd ops ctx expr (n + 1) pos = some r) ∧
    (∀ v pos r, logicalAndLoop ops ctx expr n v pos = some r →
      logicalAndLoop ops ctx expr (n + 1) v pos = some r) ∧
    (∀ pos r, parseComparison ops ctx expr n pos = some r →
      parseComparison ops ctx expr (n + 1) pos = some r) ∧
    (∀ pos r, parseExpression ops ctx expr n pos = some r →
      parseExpression ops ctx expr (n + 1) pos = some r) ∧
    (∀ v pos r, expressionLoop ops ctx expr n v pos = some r →
      expressionLoop ops ctx expr (n + 1) v pos = some r) ∧
    (∀ pos r, parseTerm ops ctx expr n pos = some r →
      parseTerm ops ctx expr (n + 1) pos = some r) ∧
    (∀ v pos r, termLoop ops ctx expr n v pos = some r →
      termLoop ops ctx expr (n + 1) v pos = some r) ∧
    (∀ pos r, parseFactor ops ctx expr n pos = some r →
      parseFactor ops ctx expr (n + 1) pos = some r) ∧
    (∀ pos r, parseUnary ops ctx expr n pos = some r →
      parseUnary ops ctx expr (n + 1) pos = some r) ∧
    (∀ pos r, parseIdentifier ops ctx expr n pos = some r →
      parseIdentifier ops ctx expr (n + 1) pos = some r) := by
  induction n with
  | zero =>
    refine ⟨?_, ?_, ?_, ?_, ?_, ?_, ?_, ?_, ?_, ?_, ?_, ?_⟩ <;> intros <;>
      simp_all [parseLogicalOr, logicalOrLoop, parseLogicalAnd, logicalAndLoop,
        parseComparison, parseExpression, expressionLoop, parseTerm, termLoop,
        parseFactor, parseUnary, parseIdentifier]
  | succ n ih =>
    obtain ⟨iOr, iOrL, iAnd, iAndL, iCmp, iExp, iExpL, iTerm, iTermL, iFac, iUn, iId⟩ := ih
    refine ⟨?_, ?_, ?_, ?_, ?_, ?_, ?_, ?_, ?_, ?_, ?_, ?_⟩
    · intro pos r h
      rw [parseLogicalOr] at h ⊢
      cases hA : parseLogicalAnd ops ctx expr n (skipWhitespace expr pos) with
      | none => simp [hA] at h
      | some vp =>
        rw [hA] at h
        rw [iAnd _ _ hA]
        exact iOrL _ _ _ h
    · intro v pos r h
      rw [logicalOrLoop] at h ⊢
      try dsimp only at h ⊢
      split_ifs at h ⊢ with hc
      · cases hA : parseLogicalAnd ops ctx expr n (skipWhitespace expr pos + 2) with
        | none => simp [hA] at h
        | some vp =>
          rw [hA] at h
          rw [iAnd _ _ hA]
          exact iOrL _ _ _ h
      · exact h
    · intro pos r h
      rw [parseLogicalAnd] at h ⊢
      cases hA : parseComparison ops ctx expr n (skipWhitespace expr pos) with
      | none => simp [hA] at h
      | some vp =>
        rw [hA] at h
        rw [iCmp _ _ hA]
        exact iAndL _ _ _ h
    · intro v pos r h
      rw [logicalAndLoop] at h ⊢
      try dsimp only at h ⊢
      split_ifs at h ⊢ with hc
      · cases hA : parseComparison ops ctx expr n (skipWhitespace expr pos + 2) with
        | none => simp [hA] at h
        | some vp =>
          rw [hA] at h
          rw [iCmp _ _ hA]
          exact iAndL _ _ _ h
      · exact h
    · intro pos r h
      rw [parseComparison] at h ⊢
      cases hA : parseExpression ops ctx expr n (skipWhitespace expr pos) with
      | none => simp [hA] at h
      | some vp =>
        obtain ⟨v, p⟩ := vp
        rw [hA] at h
        rw [iExp _ _ hA]
        try dsimp only at h ⊢
        split_ifs at h ⊢ with h1 h2 h3
        · cases hB : parseExpression ops ctx expr n (skipWhitespace expr p + 1 + 1) with
          | none => simp [hB] at h
          | some wq =>
            rw [hB] at h
            rw [iExp _ _ hB]
            exact h
        · cases hB : parseExpression ops ctx expr n (skipWhitespace expr p + 1) with
          | none => simp [hB] at h
          | some wq =>
            rw [hB] at h
            rw [iExp _ _ hB]
            exact h
        · exact h
        · exact h
    · intro pos r h
      rw [parseExpression] at h ⊢
      cases hA : parseTerm ops ctx expr n (skipWhitespace expr pos) with
      | none => simp [hA] at h
      | some vp =>
        rw [hA] at h
        rw [iTerm _ _ hA]
        exact iExpL _ _ _ h
    · intro v pos r h
      rw [expressionLoop] at h ⊢
      try dsimp only at h ⊢
      by_cases hc : peek expr (skipWhitespace expr pos) = '+' ∨
          peek expr (skipWhitespace expr pos) = '-'
      · rw [if_pos hc] at h ⊢
        cases hA : parseTerm ops ctx expr n (skipWhitespace expr pos + 1) with
        | none => simp [hA] at h
        | some vp =>
          rw [hA] at h
          rw [iTerm _ _ hA]
          exact iExpL _ _ _ h
      · rw [if_neg hc] at h ⊢
        exact h
    · intro pos r h
      rw [parseTerm] at h ⊢
      cases hA : parseFactor ops ctx expr n (skipWhitespace expr pos) with
      | none => simp [hA] at h
      | some vp =>
        rw [hA] at h
        rw [iFac _ _ hA]
        exact iTermL _ _ _ h
    · intro v pos r h
      rw [termLoop] at h ⊢
      try dsimp only at h ⊢
      split_ifs at h ⊢ with hc
      · cases hA : parseFactor ops ctx expr n (skipWhitespace expr pos + 1) with
        | none => simp [hA] at h
        | some vp =>
          rw [hA] at h
          rw [iFac _ _ hA]
          exact iTermL _ _ _ h
      · exact h
    · intro pos r h
      rw [parseFactor] at h ⊢
      try dsimp only at h ⊢
      split_ifs at h ⊢ with h1 h2
      · cases hA : parseFactor ops ctx expr n
            (skipWhitespace expr (skipWhitespace expr pos + 1)) with
        | none => simp [hA] at h
        | some vp =>
          rw [hA] at h
          rw [iFac _ _ hA]
          exact h
      · exact iUn _ _ h
      · exact iUn _ _ h
    · intro pos r h
      rw [parseUnary] at h ⊢
      try dsimp only at h ⊢
      split_ifs at h ⊢ with h1 h2 h3 h4
      · cases hA : parseUnary ops ctx expr n (skipWhitespace expr pos + 1) with
        | none => simp [hA] at h
        | some vp =>
          rw [hA] at h
          rw [iUn _ _ hA]
          exact h
      · cases hA : parseLogicalOr ops ctx expr n (skipWhitespace expr pos + 1) with
        | none => simp [hA] at h
        | some vp =>
          rw [hA] at h
          rw [iOr _ _ hA]
          exact h
      · exact h
      · exact iId _ _ h
      · exact h
    · intro pos r h
      rw [parseIdentifier] at h ⊢
      try dsimp only at h ⊢
      split_ifs at h ⊢ with h1
      · cases hA : parseLogicalOr ops ctx expr n
            (skipWhitespace expr (scanWhile isIdentChar (List.drop pos expr) pos) + 1) with
        | none => simp [hA] at h
        | some vp =>
          obtain ⟨v, p⟩ := vp
          rw [hA] at h
          rw [iOr _ _ hA]
          try dsimp only at h ⊢
          by_cases h2 : peek expr (skipWhitespace expr p) = ','
          · rw [if_pos h2] at h ⊢
            cases hB : parseLogicalOr ops ctx expr n (skipWhitespace expr p + 1) with
            | none => simp [hB] at h
            | some wq =>
              rw [hB] at h
              rw [iOr _ _ hB]
              exact h
          · rw [if_neg h2] at h ⊢
            exact h
      · exact h
end
section
variable {F : Type} (ops : FloatOps F) (ctx : EvalCtx F) (expr : List Char)

theorem peek_lt_of_eq {expr : List Char} {pos : Nat} {c : Char}
    (h : peek expr pos = c) (hc : c ≠ NUL) : pos < expr.length :=
  lt_length_of_peek (by rw [h]; exact hc)

/-- Every parse function returns when its budget covers its rank plus sixteen
units per character left of the text. -/
theorem parse_total (n : Nat) :
    (∀ pos, pos ≤ expr.length → 12 + 16 * (expr.length - pos) ≤ n →
      Returns (parseLogicalOr ops ctx expr n pos) expr pos) ∧
    (∀ v pos, pos ≤ expr.length → 11 + 16 * (expr.length - pos) ≤ n →
      Returns (logicalOrLoop ops ctx expr n v pos) expr pos) ∧
    (∀ pos, pos ≤ expr.length → 10 + 16 * (expr.length - pos) ≤ n →
      Returns (parseLogicalAnd ops ctx expr n pos) expr pos) ∧
    (∀ v pos, pos ≤ expr.length → 9 + 16 * (expr.length - pos) ≤ n →
      Returns (logicalAndLoop ops ctx expr n v pos) expr pos) ∧
    (∀ pos, pos ≤ expr.length → 8 + 16 * (expr.length - pos) ≤ n →
      Returns (parseComparison ops ctx expr n pos) expr pos) ∧
    (∀ pos, pos ≤ expr.length → 7 + 16 * (expr.length - pos) ≤ n →
      Returns (parseExpression ops ctx expr n pos) expr pos) ∧
    (∀ v pos, pos ≤ expr.length → 6 + 16 * (expr.length - pos) ≤ n →
      Returns (expressionLoop ops ctx expr n v pos) expr pos) ∧
    (∀ pos, pos ≤ expr.length → 5 + 16 * (expr.length - pos) ≤ n →
      Returns (parseTerm ops ctx expr n pos) expr pos) ∧
    (∀ v pos, pos ≤ expr.length → 4 + 16 * (expr.length - pos) ≤ n →
      Returns (termLoop ops ctx expr n v pos) expr pos) ∧
    (∀ pos, pos ≤ expr.length → 3 + 16 * (expr.length - pos) ≤ n →
      Returns (parseFactor ops ctx expr n pos) expr pos) ∧
    (∀ pos, pos ≤ expr.length → 2 + 16 * (expr.length - pos) ≤ n →
      Returns (parseUnary ops ctx expr n pos) expr pos) ∧
    (∀ pos, pos ≤ expr.length → 1 + 16 * (expr.length - pos) ≤ n →
      Returns (parseIdentifier ops ctx expr n pos) expr pos) := by
  induction n with
  | zero =>
    refine ⟨?_, ?_, ?_, ?_, ?_, ?_, ?_, ?_, ?_, ?_, ?_, ?_⟩ <;> intros <;> omega
  | succ n ih =>
    obtain ⟨iOr, iOrL, iAnd, iAndL, iCmp, iExp, iExpL, iTerm, iTermL, iFac, iUn, iId⟩ := ih
    refine ⟨?_, ?_, ?_, ?_, ?_, ?_, ?_, ?_, ?_, ?_, ?_, ?_⟩
    · intro pos hpos hfuel
      have s1 := skipWhitespace_ge expr pos
      have s2 := skipWhitespace_le expr pos hpos
      obtain ⟨v, p, hA, hp1, hp2⟩ := iAnd (skipWhitespace expr pos) s2 (by omega)
      obtain ⟨w, q, hB, hq1, hq2⟩ := iOrL v p hp2 (by omega)
      refine ⟨w, q, ?_, by omega, hq2⟩
      rw [parseLogicalOr, hA]; exact hB
    · intro v pos hpos hfuel
      have s1 := skipWhitespace_ge expr pos
      have s2 := skipWhitespace_le expr pos hpos
      rw [logicalOrLoop]
      by_cases hc : peek expr (skipWhitespace expr pos) = '|' ∧
          peek expr (skipWhitespace expr pos + 1) = '|'
      · rw [if_pos hc]
        have l1 := peek_lt_of_eq hc.2 (by decide)
        obtain ⟨w, p, hA, hp1, hp2⟩ := iAnd (skipWhitespace expr pos + 2) (by omega) (by omega)
        obtain ⟨x, q, hB, hq1, hq2⟩ :=
          iOrL (boolVal ops (ops.ne0 v || ops.ne0 w)) p hp2 (by omega)
        refine ⟨x, q, ?_, by omega, hq2⟩
        rw [hA]; exact hB
      · rw [if_neg hc]
        exact ⟨v, _, rfl, s1, s2⟩
    · intro pos hpos hfuel
      have s1 := skipWhitespace_ge expr pos
      have s2 := skipWhitespace_le expr pos hpos
      obtain ⟨v, p, hA, hp1, hp2⟩ := iCmp (skipWhitespace expr pos) s2 (by omega)
      obtain ⟨w, q, hB, hq1, hq2⟩ := iAndL v p hp2 (by omega)
      refine ⟨w, q, ?_, by omega, hq2⟩
      rw [parseLogicalAnd, hA]; exact hB
    · intro v pos hpos hfuel
      have s1 := skipWhitespace_ge expr pos
      have s2 := skipWhitespace_le expr pos hpos
      rw [logicalAndLoop]
      by_cases hc : peek expr (skipWhitespace expr pos) = '&' ∧
          peek expr (skipWhitespace expr pos + 1) = '&'
      · rw [if_pos hc]
        have l1 := peek_lt_of_eq hc.2 (by decide)
        obtain ⟨w, p, hA, hp1, hp2⟩ := iCmp (skipWhitespace expr pos + 2) (by omega) (by omega)
        obtain ⟨x, q, hB, hq1, hq2⟩ :=
          iAndL (boolVal ops (ops.ne0 v && ops.ne0 w)) p hp2 (by omega)
        refine ⟨x, q, ?_, by omega, hq2⟩
        rw [hA]; exact hB
      · rw [if_neg hc]
        exact ⟨v, _, rfl, s1, s2⟩
    · intro pos hpos hfuel
      have s1 := skipWhitespace_ge expr pos
      have s2 := skipWhitespace_le expr pos hpos
      obtain ⟨v, p, hA, hp1, hp2⟩ := iExp (skipWhitespace expr pos) s2 (by omega)
      have t1 := skipWhitespace_ge expr p
      have t2 := skipWhitespace_le expr p hp2
      rw [parseComparison, hA]
      try dsimp only
      by_cases h1 : peek expr (skipWhitespace expr p) = '<' ∨
          peek expr (skipWhitespace expr p) = '>' ∨
          peek expr (skipWhitespace expr p) = '=' ∨ peek expr (skipWhitespace expr p) = '!'
      · rw [if_pos h1]
        have l1 : skipWhitespace expr p < expr.length := by
          rcases h1 with h | h | h | h <;> exact peek_lt_of_eq h (by decide)
        split_ifs with h2 h3
        · have l2 : skipWhitespace expr p + 1 < expr.length := by
            rcases h2 with h | h | h | h <;> exact peek_lt_of_eq h.2 (by decide)
          obtain ⟨w, q, hB, hq1, hq2⟩ :=
            iExp (skipWhitespace expr p + 1 + 1) (by omega) (by omega)
          rw [hB]
          try dsimp only
          cases compare2 ops (peek expr (skipWhitespace expr p)) v w with
          | none => exact ⟨v, q, rfl, by omega, hq2⟩
          | some x => exact ⟨x, q, rfl, by omega, hq2⟩
        · obtain ⟨w, q, hB, hq1, hq2⟩ :=
            iExp (skipWhitespace expr p + 1) (by omega) (by omega)
          rw [hB]
          try dsimp only
          cases compare1 ops (peek expr (skipWhitespace expr p)) v w with
          | none => exact ⟨v, q, rfl, by omega, hq2⟩
          | some x => exact ⟨x, q, rfl, by omega, hq2⟩
        · exact ⟨v, _, rfl, by omega, by omega⟩
      · rw [if_neg h1]
        exact ⟨v, _, rfl, by omega, t2⟩
    · intro pos hpos hfuel
      have s1 := skipWhitespace_ge expr pos
      have s2 := skipWhitespace_le expr pos hpos
      obtain ⟨v, p, hA, hp1, hp2⟩ := iTerm (skipWhitespace expr pos) s2 (by omega)
      obtain ⟨w, q, hB, hq1, hq2⟩ := iExpL v p hp2 (by omega)
      refine ⟨w, q, ?_, by omega, hq2⟩
      rw [parseExpression, hA]; exact hB
    · intro v pos hpos hfuel
      have s1 := skipWhitespace_ge expr pos
      have s2 := skipWhitespace_le expr pos hpos
      rw [expressionLoop]
      try dsimp only
      by_cases hc : peek expr (skipWhitespace expr pos) = '+' ∨
          peek expr (skipWhitespace expr pos) = '-'
      · rw [if_pos hc]
        have l1 : skipWhitespace expr pos < expr.length := by
          rcases hc with h | h <;> exact peek_lt_of_eq h (by decide)
        obtain ⟨w, p, hA, hp1, hp2⟩ := iTerm (skipWhitespace expr pos + 1) (by omega) (by omega)
        rw [hA]
        try dsimp only
        obtain ⟨x, q, hB, hq1, hq2⟩ :=
          iExpL (if peek expr (skipWhitespace expr pos) = '+' then ops.add v w
            else ops.sub v w) p hp2 (by omega)
        exact ⟨x, q, hB, by omega, hq2⟩
      · rw [if_neg hc]
        exact ⟨v, _, rfl, s1, s2⟩
    · intro pos hpos hfuel
      have s1 := skipWhitespace_ge expr pos
      have s2 := skipWhitespace_le expr pos hpos
      obtain ⟨v, p, hA, hp1, hp2⟩ := iFac (skipWhitespace expr pos) s2 (by omega)
      obtain ⟨w, q, hB, hq1, hq2⟩ := iTermL v p hp2 (by omega)
      refine ⟨w, q, ?_, by omega, hq2⟩
      rw [parseTerm, hA]; exact hB
    · intro v pos hpos hfuel
      have s1 := skipWhitespace_ge expr pos
      have s2 := skipWhitespace_le expr pos hpos
      rw [termLoop]
      try dsimp only
      by_cases hc : peek expr (skipWhitespace expr pos) = '*' ∨
          peek expr (skipWhitespace expr pos) = '/' ∨
          peek expr (skipWhitespace expr pos) = '%'
      · rw [if_pos hc]
        have l1 : skipWhitespace expr pos < expr.length := by
          rcases hc with h | h | h <;> exact peek_lt_of_eq h (by decide)
        obtain ⟨w, p, hA, hp1, hp2⟩ := iFac (skipWhitespace expr pos + 1) (by omega) (by omega)
        rw [hA]
        try dsimp only
        obtain ⟨x, q, hB, hq1, hq2⟩ :=
          iTermL (applyTermOp ops (peek expr (skipWhitespace expr pos)) v w) p hp2 (by omega)
        exact ⟨x, q, hB, by omega, hq2⟩
      · rw [if_neg hc]
        exact ⟨v, _, rfl, s1, s2⟩
    · intro pos hpos hfuel
      have s1 := skipWhitespace_ge expr pos
      have s2 := skipWhitespace_le expr pos hpos
      rw [parseFactor]
      try dsimp only
      by_cases h1 : peek expr (skipWhitespace expr pos) = '!'
      · rw [if_pos h1]
        have l1 := peek_lt_of_eq h1 (by decide)
        have t1 := skipWhitespace_ge expr (skipWhitespace expr pos + 1)
        have t2 := skipWhitespace_le expr (skipWhitespace expr pos + 1) (by omega)
        by_cases h2 : peek expr (skipWhitespace expr (skipWhitespace expr pos + 1)) ≠ '='
        · rw [if_pos h2]
          obtain ⟨w, p, hA, hp1, hp2⟩ :=
            iFac (skipWhitespace expr (skipWhitespace expr pos + 1)) t2 (by omega)
          rw [hA]
          exact ⟨_, p, rfl, by omega, hp2⟩
        · rw [if_neg h2]
          obtain ⟨w, p, hA, hp1, hp2⟩ :=
            iUn (skipWhitespace expr (skipWhitespace expr pos + 1) - 1) (by omega) (by omega)
          exact ⟨w, p, hA, by omega, hp2⟩
      · rw [if_neg h1]
        obtain ⟨w, p, hA, hp1, hp2⟩ := iUn (skipWhitespace expr pos) s2 (by omega)
        exact ⟨w, p, hA, by omega, hp2⟩
    · intro pos hpos hfuel
      have s1 := skipWhitespace_ge expr pos
      have s2 := skipWhitespace_le expr pos hpos
      rw [parseUnary]
      try dsimp only
      by_cases h1 : peek expr (skipWhitespace expr pos) = '-'
      · rw [if_pos h1]
        have l1 := peek_lt_of_eq h1 (by decide)
        obtain ⟨w, p, hA, hp1, hp2⟩ := iUn (skipWhitespace expr pos + 1) (by omega) (by omega)
        rw [hA]
        exact ⟨_, p, rfl, by omega, hp2⟩
      · rw [if_neg h1]
        by_cases h2 : peek expr (skipWhitespace expr pos) = '('
        · rw [if_pos h2]
          have l1 := peek_lt_of_eq h2 (by decide)
          obtain ⟨w, p, hA, hp1, hp2⟩ :=
            iOr (skipWhitespace expr pos + 1) (by omega) (by omega)
          rw [hA]
          try dsimp only
          have t1 := skipWhitespace_ge expr p
          have t2 := skipWhitespace_le expr p hp2
          refine ⟨w, _, rfl, ?_, ?_⟩
          · split_ifs <;> omega
          · split_ifs with h3
            · have := peek_lt_of_eq h3 (by decide)
              omega
            · exact t2
        · rw [if_neg h2]
          by_cases h3 : isdigit (peek expr (skipWhitespace expr pos)) = true ∨
              peek expr (skipWhitespace expr pos) = '.'
          · rw [if_pos h3]
            exact ⟨_, _, rfl, Nat.le_trans s1 (scanWhile_ge _ _ _),
              scanWhile_drop_le _ _ _ s2⟩
          · rw [if_neg h3]
            by_cases h4 : isalpha (peek expr (skipWhitespace expr pos)) = true ∨
                peek expr (skipWhitespace expr pos) = '_'
            · rw [if_pos h4]
              obtain ⟨w, p, hA, hp1, hp2⟩ := iId (skipWhitespace expr pos) s2 (by omega)
              exact ⟨w, p, hA, by omega, hp2⟩
            · rw [if_neg h4]
              exact ⟨_, _, rfl, s1, s2⟩
    · intro pos hpos hfuel
      have c1 := scanWhile_ge isIdentChar (expr.drop pos) pos
      have c2 := scanWhile_drop_le isIdentChar expr pos hpos
      have s1 := skipWhitespace_ge expr (scanWhile isIdentChar (expr.drop pos) pos)
      have s2 := skipWhitespace_le expr (scanWhile isIdentChar (expr.drop pos) pos) c2
      rw [parseIdentifier]
      try dsimp only
      by_cases h1 : peek expr
          (skipWhitespace expr (scanWhile isIdentChar (expr.drop pos) pos)) = '('
      · rw [if_pos h1]
        have l1 := peek_lt_of_eq h1 (by decide)
        obtain ⟨v, p, hA, hp1, hp2⟩ :=
          iOr (skipWhitespace expr (scanWhile isIdentChar (expr.drop pos) pos) + 1)
            (by omega) (by omega)
        rw [hA]
        try dsimp only
        have t1 := skipWhitespace_ge expr p
        have t2 := skipWhitespace_le expr p hp2
        by_cases h2 : peek expr (skipWhitespace expr p) = ','
        · rw [if_pos h2]
          have l2 := peek_lt_of_eq h2 (by decide)
          obtain ⟨w, q, hB, hq1, hq2⟩ :=
            iOr (skipWhitespace expr p + 1) (by omega) (by omega)
          rw [hB]
          try dsimp only
          have u1 := skipWhitespace_ge expr q
          have u2 := skipWhitespace_le expr q hq2
          refine ⟨_, _, rfl, ?_, ?_⟩
          · split_ifs <;> omega
          · split_ifs with h3
            · have := peek_lt_of_eq h3 (by decide)
              omega
            · exact u2
        · rw [if_neg h2]
          refine ⟨_, _, rfl, ?_, ?_⟩
          · split_ifs <;> omega
          · split_ifs with h3
            · have := peek_lt_of_eq h3 (by decide)
              omega
            · exact t2
      · rw [if_neg h1]
        exact ⟨_, _, rfl, by omega, s2⟩
end

/-! ## Consequences for `eval` -/

section
variable {F : Type} (ops : FloatOps F) (ctx : EvalCtx F) (expr : List Char)

theorem mono_of_succ {α β : Type} (f : Nat → α → Option β)
    (hs : ∀ n a r, f n a = some r → f (n + 1) a = some r) :
    ∀ {n m : Nat} {a : α} {r : β}, n ≤ m → f n a = some r → f m a = some r := by
  intro n m a r hle h
  induction hle with
  | refl => exact h
  | step _ ih => exact hs _ _ _ ih

theorem parseLogicalOr_mono {n m pos : Nat} {r : F × Nat} (hle : n ≤ m)
    (h : parseLogicalOr ops ctx expr n pos = some r) :
    parseLogicalOr ops ctx expr m pos = some r :=
  mono_of_succ (fun n pos => parseLogicalOr ops ctx expr n pos)
    (fun n => (parse_mono_succ ops ctx expr n).1) hle h

theorem parseExpression_mono {n m pos : Nat} {r : F × Nat} (hle : n ≤ m)
    (h : parseExpression ops ctx expr n pos = some r) :
    parseExpression ops ctx expr m pos = some r :=
  mono_of_succ (fun n pos => parseExpression ops ctx expr n pos)
    (fun n => (parse_mono_succ ops ctx expr n).2.2.2.2.2.1) hle h

theorem expressionLoop_mono {n m pos : Nat} {v : F} {r : F × Nat} (hle : n ≤ m)
    (h : expressionLoop ops ctx expr n v pos = some r) :
    expressionLoop ops ctx expr m v pos = some r :=
  mono_of_succ (fun n (a : F × Nat) => expressionLoop ops ctx expr n a.1 a.2)
    (fun n a => (parse_mono_succ ops ctx expr n).2.2.2.2.2.2.1 a.1 a.2)
    (a := (v, pos)) hle h

theorem parseTerm_mono {n m pos : Nat} {r : F × Nat} (hle : n ≤ m)
    (h : parseTerm ops ctx expr n pos = some r) :
    parseTerm ops ctx expr m pos = some r :=
  mono_of_succ (fun n pos => parseTerm ops ctx expr n pos)
    (fun n => (parse_mono_succ ops ctx expr n).2.2.2.2.2.2.2.1) hle h

theorem termLoop_mono {n m pos : Nat} {v : F} {r : F × Nat} (hle : n ≤ m)
    (h : termLoop ops ctx expr n v pos = some r) :
    termLoop ops ctx expr m v pos = some r :=
  mono_of_succ (fun n (a : F × Nat) => termLoop ops ctx expr n a.1 a.2)
    (fun n a => (parse_mono_succ ops ctx expr n).2.2.2.2.2.2.2.2.1 a.1 a.2)
    (a := (v, pos)) hle h

/-- The budget of `eval` is never exhausted. -/
theorem eval_returns :
    Returns (parseLogicalOr ops ctx expr (evalFuel expr.length) 0) expr 0 :=
  (parse_total ops ctx expr (evalFuel expr.length)).1 0 (Nat.zero_le _)
    (by unfold evalFuel; omega)

/-- A result of `_parseLogicalOr` under any budget is the result of `eval`. -/
theorem eval_eq_of_parse {n : Nat} {v : F} {p : Nat}
    (h : parseLogicalOr ops ctx expr n 0 = some (v, p)) :
    eval ops ctx expr = some v := by
  obtain ⟨w, q, hw, _, _⟩ := eval_returns ops ctx expr
  have h1 := parseLogicalOr_mono ops ctx expr (Nat.le_max_left n (evalFuel expr.length)) h
  have h2 := parseLogicalOr_mono ops ctx expr (Nat.le_max_right n (evalFuel expr.length)) hw
  rw [h1] at h2
  have hvw : v = w := by
    have := Option.some.inj h2
    exact congrArg Prod.fst this
  unfold eval
  rw [hw, hvw]; rfl

theorem eval_of_orAt {v : F} {p : Nat} (h : OrAt ops ctx expr 0 v p) :
    eval ops ctx expr = some v := by
  obtain ⟨N, hN⟩ := h
  exact eval_eq_of_parse ops ctx expr (hN N (Nat.le_refl N))

/-! ## Whitespace is absorbed by every parse function -/

theorem isspace_peek_skipWhitespace (pos : Nat) :
    isspace (peek expr (skipWhitespace expr pos)) = false := by
  have key : ∀ (l : List Char) (pos : Nat), expr.drop pos = l →
      isspace (peek expr (scanWhile isspace l pos)) = false := by
    intro l
    induction l with
    | nil =>
      intro pos h
      rw [scanWhile, peek_of_drop_nil h]; decide
    | cons c cs ih =>
      intro pos h
      rw [scanWhile]
      split
      · exact ih (pos + 1) (drop_succ_of_drop h)
      · rw [peek_of_drop h]; simpa using ‹¬isspace c = true›
  exact key _ pos rfl

theorem skipWhitespace_idem (pos : Nat) :
    skipWhitespace expr (skipWhitespace expr pos) = skipWhitespace expr pos :=
  skipWhitespace_eq_self (isspace_peek_skipWhitespace expr pos)

theorem parseFactor_skip (n pos : Nat) :
    parseFactor ops ctx expr n (skipWhitespace expr pos) = parseFactor ops ctx expr n pos := by
  cases n with
  | zero => simp [parseFactor]
  | succ n => rw [parseFactor, parseFactor, skipWhitespace_idem]

theorem parseTerm_skip (n pos : Nat) :
    parseTerm ops ctx expr n (skipWhitespace expr pos) = parseTerm ops ctx expr n pos := by
  cases n with
  | zero => simp [parseTerm]
  | succ n => rw [parseTerm, parseTerm, skipWhitespace_idem]

theorem parseExpression_skip (n pos : Nat) :
    parseExpression ops ctx expr n (skipWhitespace expr pos) =
      parseExpression ops ctx expr n pos := by
  cases n with
  | zero => simp [parseExpression]
  | succ n => rw [parseExpression, parseExpression, skipWhitespace_idem]

theorem parseComparison_skip (n pos : Nat) :
    parseComparison ops ctx expr n (skipWhitespace expr pos) =
      parseComparison ops ctx expr n pos := by
  cases n with
  | zero => simp [parseComparison]
  | succ n => rw [parseComparison, parseComparison, skipWhitespace_idem]

theorem parseLogicalAnd_skip (n pos : Nat) :
    parseLogicalAnd ops ctx expr n (skipWhitespace expr pos) =
      parseLogicalAnd ops ctx expr n pos := by
  cases n with
  | zero => simp [parseLogicalAnd]
  | succ n => rw [parseLogicalAnd, parseLogicalAnd, skipWhitespace_idem]

end

/-! ## Character facts -/

theorem isNumChar_cases {c : Char} (h : isNumChar c = true) :
    isdigit c = true ∨ c = '.' := by
  simpa [isNumChar] using h

theorem isdigit_toNat {c : Char} (h : isdigit c = true) : 48 ≤ c.toNat ∧ c.toNat ≤ 57 := by
  simpa [isdigit] using h

theorem isNumChar_not_space {c : Char} (h : isNumChar c = true) : isspace c = false := by
  rcases isNumChar_cases h with hd | hd
  · have := isdigit_toNat hd
    simp only [isspace, Bool.or_eq_false_iff, beq_eq_false_iff_ne, Bool.and_eq_false_iff,
      decide_eq_false_iff_not]
    omega
  · subst hd; decide

theorem isNumChar_ne {c d : Char} (h : isNumChar c = true) (hd : isNumChar d = false) :
    c ≠ d := by
  intro hcd; rw [hcd, hd] at h; cases h

/-! ## Building blocks of a parse -/

section
variable {F : Type} (ops : FloatOps F) (ctx : EvalCtx F) (expr : List Char)

/-- The call `_parseUnary` on a number token followed by a character that ends it. -/
theorem parseUnary_number {pos : Nat} {text rest : List Char}
    (h : expr.drop pos = text ++ rest) (hne : text ≠ [])
    (hall : ∀ c ∈ text, isNumChar c = true) (hstop : isNumChar (rest.headD NUL) = false)
    (n : Nat) :
    parseUnary ops ctx expr (n + 1) pos = some (ops.atof (text.take 31), pos + text.length) := by
  obtain ⟨c, cs, rfl⟩ := List.exists_cons_of_ne_nil hne
  have hc : isNumChar c = true := hall c (List.mem_cons_self _ _)
  have hpeek : peek expr pos = c := peek_of_drop (by simpa using h)
  have hskip : skipWhitespace expr pos = pos :=
    skipWhitespace_eq_self (by rw [hpeek]; exact isNumChar_not_space hc)
  have h1 : c ≠ '-' := isNumChar_ne hc (by decide)
  have h2 : c ≠ '(' := isNumChar_ne hc (by decide)
  have h3 : isdigit c = true ∨ c = '.' := isNumChar_cases hc
  rw [parseUnary]
  simp only [hskip, hpeek, h1, h2, h3, if_false, if_true]
  have hscan : scanWhile isNumChar (List.drop pos expr) pos = pos + (c :: cs).length := by
    rw [h]; exact scanWhile_append isNumChar _ rest pos hall hstop
  simp only [parseNumber, hscan, copyBuffer_of_drop _ h]

theorem factorAt_number {pos : Nat} {text rest : List Char}
    (h : expr.drop pos = text ++ rest) (hne : text ≠ [])
    (hall : ∀ c ∈ text, isNumChar c = true) (hstop : isNumChar (rest.headD NUL) = false) :
    FactorAt ops ctx expr pos (ops.atof (text.take 31)) (pos + text.length) := by
  refine ⟨2, fun n hn => ?_⟩
  obtain ⟨m, rfl⟩ : ∃ m, n = m + 2 := ⟨n - 2, by omega⟩
  obtain ⟨c, cs, rfl⟩ := List.exists_cons_of_ne_nil hne
  have hc : isNumChar c = true := hall c (List.mem_cons_self _ _)
  have hpeek : peek expr pos = c := peek_of_drop (by simpa using h)
  have hskip : skipWhitespace expr pos = pos :=
    skipWhitespace_eq_self (by rw [hpeek]; exact isNumChar_not_space hc)
  have h1 : c ≠ '!' := isNumChar_ne hc (by decide)
  rw [parseFactor]
  simp only [hskip, hpeek, h1, if_false]
  exact parseUnary_number ops ctx expr h (List.cons_ne_nil _ _) hall hstop m

theorem termLoop_stop {p : Nat} (hsp : isspace (peek expr p) = false)
    (h1 : peek expr p ≠ '*') (h2 : peek expr p ≠ '/') (h3 : peek expr p ≠ '%')
    (k : Nat) (v : F) : termLoop ops ctx expr (k + 1) v p = some (v, p) := by
  rw [termLoop]
  simp only [skipWhitespace_eq_self hsp, h1, h2, h3, or_self, if_false]

theorem expressionLoop_stop {p : Nat} (hsp : isspace (peek expr p) = false)
    (h1 : peek expr p ≠ '+') (h2 : peek expr p ≠ '-')
    (k : Nat) (v : F) : expressionLoop ops ctx expr (k + 1) v p = some (v, p) := by
  rw [expressionLoop]
  simp only [skipWhitespace_eq_self hsp, h1, h2, or_self, if_false]

theorem termAt_of_factorAt {pos p : Nat} {v : F} (h : FactorAt ops ctx expr pos v p) :
    TermAt ops ctx expr pos v p := by
  intro k r hk
  obtain ⟨N, hN⟩ := h
  refine ⟨max N k + 1, fun n hn => ?_⟩
  obtain ⟨m, rfl⟩ : ∃ m, n = m + 1 := ⟨n - 1, by omega⟩
  rw [parseTerm, parseFactor_skip, hN m (by omega)]
  exact termLoop_mono ops ctx expr (by omega) hk

/-- One more factor: the loop of `_parseTerm` reads an operator and its right
operand. -/
theorem termAt_step {pos p1 p2 : Nat} {vl vr : F} {op : Char}
    (hl : TermAt ops ctx expr pos vl p1) (hsp : isspace (peek expr p1) = false)
    (hop : peek expr p1 = op) (hop3 : op = '*' ∨ op = '/' ∨ op = '%')
    (hr : FactorAt ops ctx expr (p1 + 1) vr p2) :
    TermAt ops ctx expr pos (applyTermOp ops op vl vr) p2 := by
  intro k r hk
  obtain ⟨N, hN⟩ := hr
  apply hl (max N k + 1) r
  rw [termLoop]
  simp only [skipWhitespace_eq_self hsp, hop, hop3, if_true]
  rw [hN _ (Nat.le_max_left N k)]
  exact termLoop_mono ops ctx expr (Nat.le_max_right N k) hk

theorem exprAt_of_termAt {pos p : Nat} {v : F} (h : TermAt ops ctx expr pos v p)
    (hsp : isspace (peek expr p) = false)
    (h1 : peek expr p ≠ '*') (h2 : peek expr p ≠ '/') (h3 : peek expr p ≠ '%') :
    ExprAt ops ctx expr pos v p := by
  intro k r hk
  obtain ⟨N, hN⟩ := h 1 (v, p) (termLoop_stop ops ctx expr hsp h1 h2 h3 0 v)
  refine ⟨max N k + 1, fun n hn => ?_⟩
  obtain ⟨m, rfl⟩ : ∃ m, n = m + 1 := ⟨n - 1, by omega⟩
  rw [parseExpression, parseTerm_skip, hN m (by omega)]
  exact expressionLoop_mono ops ctx expr (by omega) hk

/-- One more term: the loop of `_parseExpression` reads `+` or `-` and its
right operand. -/
theorem exprAt_step {pos p1 p2 : Nat} {vl vr : F} {op : Char}
    (hl : ExprAt ops ctx expr pos vl p1) (hsp : isspace (peek expr p1) = false)
    (hop : peek expr p1 = op) (hop2 : op = '+' ∨ op = '-')
    (hr : TermAt ops ctx expr (p1 + 1) vr p2)
    (hsp2 : isspace (peek expr p2) = false)
    (h1 : peek expr p2 ≠ '*') (h2 : peek expr p2 ≠ '/') (h3 : peek expr p2 ≠ '%') :
    ExprAt ops ctx expr pos (if op = '+' then ops.add vl vr else ops.sub vl vr) p2 := by
  intro k r hk
  obtain ⟨N, hN⟩ := hr 1 (vr, p2) (termLoop_stop ops ctx expr hsp2 h1 h2 h3 0 vr)
  apply hl (max N k + 1) r
  rw [expressionLoop]
  simp only [skipWhitespace_eq_self hsp, hop, hop2, if_true]
  rw [hN _ (Nat.le_max_left N k)]
  exact expressionLoop_mono ops ctx expr (Nat.le_max_right N k) hk

/-- A sum followed by `)` or by the end of the text is a whole
`_parseLogicalOr` operand. -/
theorem orAt_of_exprAt {pos p : Nat} {v : F} (h : ExprAt ops ctx expr pos v p)
    (hend : peek expr p = NUL ∨ peek expr p = ')') :
    OrAt ops ctx expr pos v p := by
  have hsp : isspace (peek expr p) = false := by
    rcases hend with h | h <;> rw [h] <;> decide
  have hne : ∀ c : Char, c ≠ NUL → c ≠ ')' → peek expr p ≠ c := by
    intro c h1 h2 hc
    rcases hend with h | h
    · exact h1 (hc ▸ h)
    · exact h2 (hc ▸ h)
  obtain ⟨N, hN⟩ := h 1 (v, p)
    (expressionLoop_stop ops ctx expr hsp (hne _ (by decide) (by decide))
      (hne _ (by decide) (by decide)) 0 v)
  have hskip := skipWhitespace_eq_self hsp
  refine ⟨N + 5, fun n hn => ?_⟩
  obtain ⟨m, rfl⟩ : ∃ m, n = m + 5 := ⟨n - 5, by omega⟩
  have hcmp : parseComparison ops ctx expr (m + 3) pos = some (v, p) := by
    rw [parseComparison, parseExpression_skip, parseExpression_mono ops ctx expr (by omega)
      (hN N (Nat.le_refl N))]
    simp only [hskip, hne '<' (by decide) (by decide), hne '>' (by decide) (by decide),
      hne '=' (by decide) (by decide), hne '!' (by decide) (by decide), or_self, if_false]
  have hand : parseLogicalAnd ops ctx expr (m + 4) pos = some (v, p) := by
    rw [parseLogicalAnd, parseComparison_skip, hcmp]
    show logicalAndLoop ops ctx expr (m + 2 + 1) v p = some (v, p)
    rw [logicalAndLoop]
    simp only [hskip, hne '&' (by decide) (by decide), false_and, if_false]
  rw [parseLogicalOr, parseLogicalAnd_skip, hand]
  show logicalOrLoop ops ctx expr (m + 3 + 1) v p = some (v, p)
  rw [logicalOrLoop]
  simp only [hskip, hne '|' (by decide) (by decide), false_and, if_false]

/-- A parenthesized operand. -/
theorem factorAt_paren {pos p : Nat} {v : F} (hopen : peek expr pos = '(')
    (h : OrAt ops ctx expr (pos + 1) v p) (hclose : peek expr p = ')') :
    FactorAt ops ctx expr pos v (p + 1) := by
  obtain ⟨N, hN⟩ := h
  have hskip : skipWhitespace expr pos = pos :=
    skipWhitespace_eq_self (by rw [hopen]; decide)
  have hskip2 : skipWhitespace expr p = p :=
    skipWhitespace_eq_self (by rw [hclose]; decide)
  refine ⟨N + 2, fun n hn => ?_⟩
  obtain ⟨m, rfl⟩ : ∃ m, n = m + 2 := ⟨n - 2, by omega⟩
  rw [parseFactor]
  simp only [hskip, hopen, show ('(' : Char) ≠ '!' by decide, if_false]
  rw [parseUnary]
  simp only [hskip, hopen, show ('(' : Char) ≠ '-' by decide, if_false, if_true]
  rw [hN m (by omega)]
  simp only [hskip2, hclose, if_true]

end


/-! ## Texts as operands -/

section
variable {F : Type} (ops : FloatOps F) (ctx : EvalCtx F)

theorem termStop_iff {c : Char} (h : termStop c = true) :
    isNumChar c = false ∧ isspace c = false ∧ c ≠ '*' ∧ c ≠ '/' ∧ c ≠ '%' := by
  simpa [termStop, and_assoc] using h

theorem factorText_number {text : List Char} (h : isNumberToken text = true) :
    FactorText ops ctx text (ops.atof (text.take 31)) := by
  intro expr pos rest hd hstop
  have h' : text ≠ [] ∧ ∀ c ∈ text, isNumChar c = true := by
    simpa [isNumberToken] using h
  exact factorAt_number ops ctx expr hd h'.1 h'.2 hstop

theorem termText_of_factorText {text : List Char} {v : F}
    (h : FactorText ops ctx text v) : TermText ops ctx text v :=
  fun expr pos rest hd hstop => termAt_of_factorAt ops ctx expr (h expr pos rest hd hstop)

theorem exprText_of_termText {text : List Char} {v : F}
    (h : TermText ops ctx text v) : ExprText ops ctx text v := by
  intro expr pos rest hd hstop
  obtain ⟨s1, s2, s3, s4, s5⟩ := termStop_iff hstop
  have hp : peek expr (pos + text.length) = rest.headD NUL := by
    rw [peek_eq_headD, drop_add_of_drop text hd]
  exact exprAt_of_termAt ops ctx expr (h expr pos rest hd s1) (by rw [hp]; exact s2)
    (by rw [hp]; exact s3) (by rw [hp]; exact s4) (by rw [hp]; exact s5)

/-- The text `X op Y` is a product when `X` is a product, `Y` an operand and `op`
multiplicative. -/
theorem termText_step {x y : List Char} {vl vr : F} (op : Char)
    (hx : TermText ops ctx x vl) (hy : FactorText ops ctx y vr)
    (hop : op = '*' ∨ op = '/' ∨ op = '%') :
    TermText ops ctx (x ++ op :: y) (applyTermOp ops op vl vr) := by
  intro expr pos rest hd hstop
  have hd1 : expr.drop pos = x ++ (op :: (y ++ rest)) := by simpa using hd
  have hopn : isNumChar op = false := by rcases hop with h | h | h <;> subst h <;> decide
  have hops : isspace op = false := by rcases hop with h | h | h <;> subst h <;> decide
  have d1 := drop_add_of_drop x hd1
  have d2 := drop_succ_of_drop d1
  have hl := hx expr pos (op :: (y ++ rest)) hd1 (by simpa using hopn)
  have hr := hy expr (pos + x.length + 1) rest d2 hstop
  have := termAt_step ops ctx expr hl (by rw [peek_of_drop d1]; exact hops)
    (peek_of_drop d1) hop hr
  have hlen : pos + (x ++ op :: y).length = pos + x.length + 1 + y.length := by
    simp only [List.length_append, List.length_cons]; omega
  rw [hlen]; exact this

/-- The text `X op Y` is a sum when `X` is a sum, `Y` a product and `op` additive. -/
theorem exprText_step {x y : List Char} {vl vr : F} (op : Char)
    (hx : ExprText ops ctx x vl) (hy : TermText ops ctx y vr)
    (hop : op = '+' ∨ op = '-') :
    ExprText ops ctx (x ++ op :: y)
      (if op = '+' then ops.add vl vr else ops.sub vl vr) := by
  intro expr pos rest hd hstop
  obtain ⟨s1, s2, s3, s4, s5⟩ := termStop_iff hstop
  have hd1 : expr.drop pos = x ++ (op :: (y ++ rest)) := by simpa using hd
  have hopt : termStop op = true := by rcases hop with h | h <;> subst h <;> decide
  have hops : isspace op = false := by rcases hop with h | h <;> subst h <;> decide
  have d1 := drop_add_of_drop x hd1
  have d2 := drop_succ_of_drop d1
  have d3 := drop_add_of_drop y d2
  have hp : peek expr (pos + x.length + 1 + y.length) = rest.headD NUL := by
    rw [peek_eq_headD, d3]
  have hl := hx expr pos (op :: (y ++ rest)) hd1 (by simpa using hopt)
  have hr := hy expr (pos + x.length + 1) rest d2 s1
  have := exprAt_step ops ctx expr hl (by rw [peek_of_drop d1]; exact hops)
    (peek_of_drop d1) hop hr (by rw [hp]; exact s2)
    (by rw [hp]; exact s3) (by rw [hp]; exact s4) (by rw [hp]; exact s5)
  have hlen : pos + (x ++ op :: y).length = pos + x.length + 1 + y.length := by
    simp only [List.length_append, List.length_cons]; omega
  rw [hlen]; exact this

/-- A parenthesized sum is an operand. -/
theorem factorText_paren {x : List Char} {v : F} (hx : ExprText ops ctx x v) :
    FactorText ops ctx ('(' :: (x ++ [')'])) v := by
  intro expr pos rest hd _
  have hd0 : expr.drop pos = '(' :: (x ++ (')' :: rest)) := by simpa using hd
  have d1 := drop_succ_of_drop hd0
  have d2 := drop_add_of_drop x d1
  have he := hx expr (pos + 1) (')' :: rest) d1 rfl
  have hor := orAt_of_exprAt ops ctx expr he (Or.inr (peek_of_drop d2))
  have := factorAt_paren ops ctx expr (peek_of_drop hd0) hor (peek_of_drop d2)
  have hlen : pos + ('(' :: (x ++ [')'])).length = pos + 1 + x.length + 1 := by
    simp only [List.length_append, List.length_cons, List.length_nil]; omega
  rw [hlen]; exact this

/-- A text that is a sum evaluates to the value of the sum. -/
theorem eval_of_exprText {x : List Char} {v : F} (hx : ExprText ops ctx x v) :
    eval ops ctx x = some v := by
  have he := hx x 0 [] (by simp) rfl
  have hp : peek x (0 + x.length) = NUL := by
    have hd : x.drop 0 = x ++ [] := by simp
    rw [peek_eq_headD, drop_add_of_drop x hd]; rfl
  exact eval_of_orAt ops ctx x (orAt_of_exprAt ops ctx x he (Or.inl hp))

/-- Every formula, rendered for any of the three places, is read as an operand
of that place with the value the source computes. -/
theorem render_parses (e : AExp) (hlit : e.allLiterals isNumberToken = true) :
    FactorText ops ctx (e.render 2) (e.codeValue ops) ∧
    TermText ops ctx (e.render 1) (e.codeValue ops) ∧
    ExprText ops ctx (e.render 0) (e.codeValue ops) := by
  induction e with
  | lit text =>
    have hF : FactorText ops ctx text (ops.atof (text.take 31)) :=
      factorText_number ops ctx (by simpa [AExp.allLiterals] using hlit)
    exact ⟨hF, termText_of_factorText ops ctx hF,
      exprText_of_termText ops ctx (termText_of_factorText ops ctx hF)⟩
  | add l r ihl ihr =>
    have hl : l.allLiterals isNumberToken = true ∧ r.allLiterals isNumberToken = true := by
      simpa [AExp.allLiterals] using hlit
    have hE : ExprText ops ctx (l.render 0 ++ '+' :: r.render 1)
        (ops.add (l.codeValue ops) (r.codeValue ops)) := by
      simpa using exprText_step ops ctx '+' (ihl hl.1).2.2 (ihr hl.2).2.1 (Or.inl rfl)
    have hF := factorText_paren ops ctx hE
    exact ⟨by simpa [AExp.render, wrap, AExp.codeValue] using hF,
      by simpa [AExp.render, wrap, AExp.codeValue] using termText_of_factorText ops ctx hF,
      by simpa [AExp.render, wrap, AExp.codeValue] using hE⟩
  | sub l r ihl ihr =>
    have hl : l.allLiterals isNumberToken = true ∧ r.allLiterals isNumberToken = true := by
      simpa [AExp.allLiterals] using hlit
    have hE : ExprText ops ctx (l.render 0 ++ '-' :: r.render 1)
        (ops.sub (l.codeValue ops) (r.codeValue ops)) := by
      simpa using exprText_step ops ctx '-' (ihl hl.1).2.2 (ihr hl.2).2.1 (Or.inr rfl)
    have hF := factorText_paren ops ctx hE
    exact ⟨by simpa [AExp.render, wrap, AExp.codeValue] using hF,
      by simpa [AExp.render, wrap, AExp.codeValue] using termText_of_factorText ops ctx hF,
      by simpa [AExp.render, wrap, AExp.codeValue] using hE⟩
  | mul l r ihl ihr =>
    have hl : l.allLiterals isNumberToken = true ∧ r.allLiterals isNumberToken = true := by
      simpa [AExp.allLiterals] using hlit
    have hT : TermText ops ctx (l.render 1 ++ '*' :: r.render 2)
        (ops.mul (l.codeValue ops) (r.codeValue ops)) := by
      simpa [applyTermOp] using
        termText_step ops ctx '*' (ihl hl.1).2.1 (ihr hl.2).1 (Or.inl rfl)
    have hE := exprText_of_termText ops ctx hT
    have hF := factorText_paren ops ctx hE
    exact ⟨by simpa [AExp.render, wrap, AExp.codeValue] using hF,
      by simpa [AExp.render, wrap, AExp.codeValue] using hT,
      by simpa [AExp.render, wrap, AExp.codeValue] using hE⟩
  | div l r ihl ihr =>
    have hl : l.allLiterals isNumberToken = true ∧ r.allLiterals isNumberToken = true := by
      simpa [AExp.allLiterals] using hlit
    have hT : TermText ops ctx (l.render 1 ++ '/' :: r.render 2)
        (if ops.ne0 (r.codeValue ops) = true then
          ops.div (l.codeValue ops) (r.codeValue ops) else ops.zero) := by
      simpa [applyTermOp] using
        termText_step ops ctx '/' (ihl hl.1).2.1 (ihr hl.2).1 (Or.inr (Or.inl rfl))
    have hE := exprText_of_termText ops ctx hT
    have hF := factorText_paren ops ctx hE
    exact ⟨by simpa [AExp.render, wrap, AExp.codeValue] using hF,
      by simpa [AExp.render, wrap, AExp.codeValue] using hT,
      by simpa [AExp.render, wrap, AExp.codeValue] using hE⟩

end


/-! ## C1: arithmetic formulas -/

section
variable {F : Type} (ops : FloatOps F) (ctx : EvalCtx F)

theorem isNumberToken_of_decimal {text : List Char} (h : isDecimalLiteral text = true) :
    isNumberToken text = true := by
  simp only [isDecimalLiteral, Bool.and_eq_true, decide_eq_true_eq] at h
  obtain ⟨⟨h1, h2⟩, _⟩ := h
  have hne : text ≠ [] := by
    rintro rfl
    simp at h2
  simp [isNumberToken, hne, h1]

theorem allLiterals_mono {p q : List Char → Bool} (hpq : ∀ t, p t = true → q t = true)
    (e : AExp) (h : e.allLiterals p = true) : e.allLiterals q = true := by
  induction e with
  | lit text => exact hpq _ (by simpa [AExp.allLiterals] using h)
  | add l r ihl ihr | sub l r ihl ihr | mul l r ihl ihr | div l r ihl ihr =>
    simp only [AExp.allLiterals, Bool.and_eq_true] at h ⊢
    exact ⟨ihl h.1, ihr h.2⟩

/-- With literals that fit the buffer and no zero divisor, the source's value
of a formula is its value. -/
theorem codeValue_eq_value (e : AExp)
    (hlen : e.allLiterals (fun t => decide (t.length ≤ 31)) = true)
    (hdiv : e.noZeroDivisor ops = true) : e.codeValue ops = e.value ops := by
  induction e with
  | lit text =>
    have : text.length ≤ 31 := by simpa [AExp.allLiterals] using hlen
    simp [AExp.codeValue, AExp.value, List.take_of_length_le this]
  | add l r ihl ihr | sub l r ihl ihr | mul l r ihl ihr =>
    simp only [AExp.allLiterals, AExp.noZeroDivisor, Bool.and_eq_true] at hlen hdiv
    simp [AExp.codeValue, AExp.value, ihl hlen.1 hdiv.1, ihr hlen.2 hdiv.2]
  | div l r ihl ihr =>
    simp only [AExp.allLiterals, AExp.noZeroDivisor, Bool.and_eq_true] at hlen hdiv
    simp [AExp.codeValue, AExp.value, ihl hlen.1 hdiv.1.1, ihr hlen.2 hdiv.1.2, hdiv.2]

/-- The evaluator returns the source's value of every rendered formula. -/
theorem eval_render (e : AExp) (hlit : e.allLiterals isNumberToken = true) :
    eval ops ctx (e.render 0) = some (e.codeValue ops) :=
  eval_of_exprText ops ctx (render_parses ops ctx e hlit).2.2

end

/-- C1 (amended): for every arithmetic formula built from decimal literals of
at most 31 characters with `+ - * /` and parentheses, no divisor of which is
zero, `eval` returns the value of the formula under standard precedence. -/
theorem C1_eval_arithmetic {F : Type} (ops : FloatOps F) (ctx : EvalCtx F) (e : AExp)
    (hlit : e.allLiterals isShortLiteral = true) (hdiv : e.noZeroDivisor ops = true) :
    eval ops ctx (e.render 0) = some (e.value ops) := by
  have h1 : e.allLiterals isNumberToken = true :=
    allLiterals_mono (fun t ht => isNumberToken_of_decimal
      (by simp only [isShortLiteral, Bool.and_eq_true] at ht; exact ht.1)) e hlit
  have h2 : e.allLiterals (fun t => decide (t.length ≤ 31)) = true :=
    allLiterals_mono (fun t ht => by
      simp only [isShortLiteral, Bool.and_eq_true] at ht; exact ht.2) e hlit
  rw [eval_render ops ctx e h1, codeValue_eq_value ops e h2 hdiv]

/-- C1 at `2+3*4` and `(2+3)*4`: the values are 14 and 20. -/
theorem C1_eval_arithmetic_witness :
    AExp.ex234.allLiterals isShortLiteral = true ∧
    AExp.ex234.noZeroDivisor exactOps = true ∧
    eval exactOps ctx0 "2+3*4".toList = some (AExp.ex234.value exactOps) ∧
    AExp.ex234.value exactOps = Val.num 14 ∧
    eval exactOps ctx0 "(2+3)*4".toList = some (AExp.ex234p.value exactOps) ∧
    AExp.ex234p.value exactOps = Val.num 20 :=
  ⟨by decide, by decide, C1_eval_arithmetic exactOps ctx0 AExp.ex234 (by decide) (by decide),
    by decide!, C1_eval_arithmetic exactOps ctx0 AExp.ex234p (by decide) (by decide),
    by decide!⟩

/-- C1 as stated fails for a literal of 32 digits: only its first 31
characters are read, so `10000000000000000000000000000000+3*4` evaluates to
`10^30 + 12`, not to `10^31 + 12`. -/
theorem C1_counterexample :
    AExp.exLong.allLiterals isDecimalLiteral = true ∧
    AExp.exLong.noZeroDivisor exactOps = true ∧
    AExp.exLong.render 0 = "10000000000000000000000000000000+3*4".toList ∧
    AExp.exLong.value exactOps = Val.num (10 ^ 31 + 12) ∧
    eval exactOps ctx0 (AExp.exLong.render 0) = some (Val.num (10 ^ 30 + 12)) ∧
    eval exactOps ctx0 (AExp.exLong.render 0) ≠ some (AExp.exLong.value exactOps) := by
  refine ⟨by decide, by decide, by decide, by decide!, by decide!, by decide!⟩


/-! ## C2: comparisons with `=` as second character -/

section
variable {F : Type} (ops : FloatOps F) (ctx : EvalCtx F) (expr : List Char)

/-- A comparison followed by `)` or by the end of the text is a whole
`_parseLogicalOr` operand. -/
theorem orAt_of_cmpAt {pos p : Nat} {v : F} (h : CmpAt ops ctx expr pos v p)
    (hend : peek expr p = NUL ∨ peek expr p = ')') :
    OrAt ops ctx expr pos v p := by
  have hsp : isspace (peek expr p) = false := by
    rcases hend with h | h <;> rw [h] <;> decide
  have hne : ∀ c : Char, c ≠ NUL → c ≠ ')' → peek expr p ≠ c := by
    intro c h1 h2 hc
    rcases hend with h | h
    · exact h1 (hc ▸ h)
    · exact h2 (hc ▸ h)
  obtain ⟨N, hN⟩ := h
  have hskip := skipWhitespace_eq_self hsp
  refine ⟨N + 3, fun n hn => ?_⟩
  obtain ⟨m, rfl⟩ : ∃ m, n = m + 3 := ⟨n - 3, by omega⟩
  have hand : parseLogicalAnd ops ctx expr (m + 2) pos = some (v, p) := by
    rw [parseLogicalAnd, parseComparison_skip, hN (m + 1) (by omega)]
    show logicalAndLoop ops ctx expr (m + 1) v p = some (v, p)
    rw [logicalAndLoop]
    simp only [hskip, hne '&' (by decide) (by decide), false_and, if_false]
  rw [parseLogicalOr, parseLogicalAnd_skip, hand]
  show logicalOrLoop ops ctx expr (m + 1 + 1) v p = some (v, p)
  rw [logicalOrLoop]
  simp only [hskip, hne '|' (by decide) (by decide), false_and, if_false]

/-- Two sums around `<=`, `>=`, `==` or `!=`. -/
theorem cmpAt_two {pos p1 p2 : Nat} {vl vr v : F} {op1 : Char}
    (hl : ExprAt ops ctx expr pos vl p1) (hop1 : peek expr p1 = op1)
    (hop : op1 = '<' ∨ op1 = '>' ∨ op1 = '=' ∨ op1 = '!')
    (hop2 : peek expr (p1 + 1) = '=')
    (hr : ExprAt ops ctx expr (p1 + 2) vr p2)
    (hend : peek expr p2 = NUL ∨ peek expr p2 = ')')
    (hv : compare2 ops op1 vl vr = some v) :
    CmpAt ops ctx expr pos v p2 := by
  have hsp1 : isspace (peek expr p1) = false := by
    rw [hop1]; rcases hop with h | h | h | h <;> subst h <;> decide
  have hplus : peek expr p1 ≠ '+' := by
    rw [hop1]; rcases hop with h | h | h | h <;> subst h <;> decide
  have hminus : peek expr p1 ≠ '-' := by
    rw [hop1]; rcases hop with h | h | h | h <;> subst h <;> decide
  have hsp2 : isspace (peek expr p2) = false := by
    rcases hend with h | h <;> rw [h] <;> decide
  have hplus2 : peek expr p2 ≠ '+' := by
    rcases hend with h | h <;> rw [h] <;> decide
  have hminus2 : peek expr p2 ≠ '-' := by
    rcases hend with h | h <;> rw [h] <;> decide
  obtain ⟨N1, hN1⟩ := hl 1 (vl, p1) (expressionLoop_stop ops ctx expr hsp1 hplus hminus 0 vl)
  obtain ⟨N2, hN2⟩ := hr 1 (vr, p2) (expressionLoop_stop ops ctx expr hsp2 hplus2 hminus2 0 vr)
  refine ⟨max N1 N2 + 1, fun n hn => ?_⟩
  obtain ⟨m, rfl⟩ : ∃ m, n = m + 1 := ⟨n - 1, by omega⟩
  have htwo : (op1 = '<' ∧ peek expr (p1 + 1) = '=') ∨ (op1 = '>' ∧ peek expr (p1 + 1) = '=') ∨
      (op1 = '=' ∧ peek expr (p1 + 1) = '=') ∨ (op1 = '!' ∧ peek expr (p1 + 1) = '=') := by
    rcases hop with h | h | h | h
    · exact Or.inl ⟨h, hop2⟩
    · exact Or.inr (Or.inl ⟨h, hop2⟩)
    · exact Or.inr (Or.inr (Or.inl ⟨h, hop2⟩))
    · exact Or.inr (Or.inr (Or.inr ⟨h, hop2⟩))
  rw [parseComparison, parseExpression_skip, hN1 m (by omega)]
  simp only [skipWhitespace_eq_self hsp1, hop1, hop, htwo, if_true]
  rw [hN2 m (by omega)]
  simp only [hv]

/-- The value of `X op= Y` for sums `X` and `Y`. -/
theorem eval_compare_two {x y : List Char} {vl vr v : F} (op1 : Char)
    (hx : ExprText ops ctx x vl) (hy : ExprText ops ctx y vr)
    (hop : op1 = '<' ∨ op1 = '>' ∨ op1 = '=' ∨ op1 = '!')
    (hv : compare2 ops op1 vl vr = some v) :
    eval ops ctx (x ++ op1 :: '=' :: y) = some v := by
  have hd0 : (x ++ op1 :: '=' :: y).drop 0 = x ++ (op1 :: '=' :: (y ++ [])) := by simp
  have hstop : termStop ((op1 :: '=' :: (y ++ [])).headD NUL) = true := by
    rcases hop with h | h | h | h <;> subst h <;> rfl
  have hl := hx _ 0 _ hd0 hstop
  have d1 := drop_add_of_drop x hd0
  have d2 := drop_succ_of_drop d1
  have d3 := drop_succ_of_drop d2
  have d4 := drop_add_of_drop y d3
  have hr := hy _ (0 + x.length + 1 + 1) [] d3 rfl
  have hend : peek (x ++ op1 :: '=' :: y) (0 + x.length + 1 + 1 + y.length) = NUL :=
    peek_of_drop_nil d4
  exact eval_of_orAt ops ctx _ (orAt_of_cmpAt ops ctx _
    (cmpAt_two ops ctx _ hl (peek_of_drop d1) hop (peek_of_drop d2) hr (Or.inl hend) hv)
    (Or.inl hend))

theorem exprText_literal {text : List Char} (h : isShortLiteral text = true) :
    ExprText ops ctx text (ops.atof text) := by
  simp only [isShortLiteral, Bool.and_eq_true, decide_eq_true_eq] at h
  have := exprText_of_termText ops ctx (termText_of_factorText ops ctx
    (factorText_number ops ctx (isNumberToken_of_decimal h.1)))
  rwa [List.take_of_length_le h.2] at this

end

theorem atofV_num (text : List Char) : ∃ q : ℚ, Val.atofV text = Val.num q := by
  unfold Val.atofV
  dsimp only
  split <;> exact ⟨_, rfl⟩

/-- C2 (amended): for decimal literals `a` and `b` of at most 31 characters,
`a==b` evaluates to 1 if `|a - b| < 0.0001` and to 0 otherwise, and `a!=b` to
1 if `|a - b| >= 0.0001` and to 0 otherwise, in every float arithmetic; in
exact arithmetic `a!=b` is `1 - (a==b)`. -/
theorem C2_epsilon_equality (a b : List Char)
    (ha : isShortLiteral a = true) (hb : isShortLiteral b = true) :
    (∀ (F : Type) (ops : FloatOps F) (ctx : EvalCtx F),
      eval ops ctx (a ++ "==".toList ++ b) =
        some (boolVal ops (ops.lt (ops.fabs (ops.sub (ops.atof a) (ops.atof b))) ops.eps)) ∧
      eval ops ctx (a ++ "!=".toList ++ b) =
        some (boolVal ops (ops.le ops.eps (ops.fabs (ops.sub (ops.atof a) (ops.atof b)))))) ∧
    (∀ ctx : EvalCtx Val, ∃ qa qb : ℚ,
      exactOps.atof a = Val.num qa ∧ exactOps.atof b = Val.num qb ∧
      eval exactOps ctx (a ++ "==".toList ++ b) =
        some (Val.num (if |qa - qb| < 1 / 10000 then 1 else 0)) ∧
      eval exactOps ctx (a ++ "!=".toList ++ b) =
        some (Val.num (1 - (if |qa - qb| < 1 / 10000 then 1 else 0)))) := by
  have gen : ∀ (F : Type) (ops : FloatOps F) (ctx : EvalCtx F),
      eval ops ctx (a ++ "==".toList ++ b) =
        some (boolVal ops (ops.lt (ops.fabs (ops.sub (ops.atof a) (ops.atof b))) ops.eps)) ∧
      eval ops ctx (a ++ "!=".toList ++ b) =
        some (boolVal ops (ops.le ops.eps (ops.fabs (ops.sub (ops.atof a) (ops.atof b))))) := by
    intro F ops ctx
    constructor
    · have := eval_compare_two ops ctx '=' (exprText_literal ops ctx ha)
        (exprText_literal ops ctx hb) (Or.inr (Or.inr (Or.inl rfl))) rfl
      simpa using this
    · have := eval_compare_two ops ctx '!' (exprText_literal ops ctx ha)
        (exprText_literal ops ctx hb) (Or.inr (Or.inr (Or.inr rfl))) rfl
      simpa using this
  refine ⟨gen, fun ctx => ?_⟩
  obtain ⟨qa, hqa⟩ := atofV_num a
  obtain ⟨qb, hqb⟩ := atofV_num b
  have hqa' : exactOps.atof a = Val.num qa := hqa
  have hqb' : exactOps.atof b = Val.num qb := hqb
  refine ⟨qa, qb, hqa', hqb', ?_, ?_⟩
  · rw [(gen Val exactOps ctx).1, hqa', hqb']
    simp only [boolVal, exactOps, Val.lift2, Val.lift1, Val.liftRel, decide_eq_true_eq]
    split_ifs <;> rfl
  · rw [(gen Val exactOps ctx).2, hqa', hqb']
    simp only [boolVal, exactOps, Val.lift2, Val.lift1, Val.liftRel, decide_eq_true_eq]
    split_ifs with h1 h2 h2
    · exact absurd h1 (not_le.mpr h2)
    · norm_num
    · norm_num
    · exact absurd (not_lt.mp h2) h1

/-- C2 at `1.00001==1`, which is 1, and at `1.1==1`, which is 0. -/
theorem C2_epsilon_equality_witness :
    isShortLiteral "1.00001".toList = true ∧ isShortLiteral "1.1".toList = true ∧
    isShortLiteral "1".toList = true ∧
    eval exactOps ctx0 "1.00001==1".toList = some (boolVal exactOps (exactOps.lt
      (exactOps.fabs (exactOps.sub (exactOps.atof "1.00001".toList)
        (exactOps.atof "1".toList))) exactOps.eps)) ∧
    eval exactOps ctx0 "1.00001==1".toList = some (Val.num 1) ∧
    eval exactOps ctx0 "1.1==1".toList = some (boolVal exactOps (exactOps.lt
      (exactOps.fabs (exactOps.sub (exactOps.atof "1.1".toList)
        (exactOps.atof "1".toList))) exactOps.eps)) ∧
    eval exactOps ctx0 "1.1==1".toList = some (Val.num 0) ∧
    eval exactOps ctx0 "1.1!=1".toList = some (Val.num 1) :=
  ⟨by decide, by decide, by decide,
    ((C2_epsilon_equality "1.00001".toList "1".toList (by decide) (by decide)).1
      Val exactOps ctx0).1,
    by decide!,
    ((C2_epsilon_equality "1.1".toList "1".toList (by decide) (by decide)).1
      Val exactOps ctx0).1,
    by decide!, by decide!⟩

/-- C2 as stated fails for a literal of 32 digits: `10^31 == 10^30` evaluates
to 1 although the two numbers differ by more than 0.0001, because the first
literal is read from its first 31 digits. -/
theorem C2_counterexample :
    isDecimalLiteral "10000000000000000000000000000000".toList = true ∧
    isDecimalLiteral "1000000000000000000000000000000".toList = true ∧
    exactOps.atof "10000000000000000000000000000000".toList = Val.num (10 ^ 31) ∧
    exactOps.atof "1000000000000000000000000000000".toList = Val.num (10 ^ 30) ∧
    ¬ (|(10 : ℚ) ^ 31 - 10 ^ 30| < 1 / 10000) ∧
    eval exactOps ctx0
      "10000000000000000000000000000000==1000000000000000000000000000000".toList =
        some (Val.num 1) ∧
    eval exactOps ctx0
      "10000000000000000000000000000000!=1000000000000000000000000000000".toList =
        some (Val.num 0) := by
  refine ⟨by decide, by decide, by decide!, by decide!, by norm_num, by decide!, by decide!⟩


/-! ## C3 and C4: division and modulo by zero -/

/-- C3: for every arithmetic formula `x`, the text of `x/0` evaluates to 0,
whatever the value of `x`; and for a divisor `d` whose value is not zero the
text of `x/d` evaluates to the quotient of the two values.  The literal `0`
is assumed to read as a float equal to zero. -/
theorem C3_division_by_zero {F : Type} (ops : FloatOps F) (ctx : EvalCtx F) (x : AExp)
    (hx : x.allLiterals isNumberToken = true)
    (hzero : ops.ne0 (ops.atof "0".toList) = false) :
    (AExp.div x (AExp.lit "0".toList)).render 0 = x.render 1 ++ "/0".toList ∧
    eval ops ctx (x.render 1 ++ "/0".toList) = some ops.zero ∧
    ∀ (d : AExp) (vx vd : F), d.allLiterals isNumberToken = true →
      eval ops ctx (x.render 0) = some vx → eval ops ctx (d.render 0) = some vd →
      ops.ne0 vd = true →
      eval ops ctx ((AExp.div x d).render 0) = some (ops.div vx vd) := by
  have hr : (AExp.div x (AExp.lit "0".toList)).render 0 = x.render 1 ++ "/0".toList := by
    simp [AExp.render, wrap]
  refine ⟨hr, ?_, ?_⟩
  · have hz : (AExp.lit "0".toList).allLiterals isNumberToken = true := by decide
    have hall : (AExp.div x (AExp.lit "0".toList)).allLiterals isNumberToken = true := by
      simp only [AExp.allLiterals, Bool.and_eq_true] at hz ⊢
      exact ⟨hx, hz⟩
    have hne : ops.ne0 ((AExp.lit "0".toList).codeValue ops) = false := hzero
    rw [← hr, eval_render ops ctx _ hall]
    simp only [AExp.codeValue] at hne ⊢
    rw [hne]; rfl
  · intro d vx vd hd hvx hvd hne
    rw [eval_render ops ctx x hx] at hvx
    rw [eval_render ops ctx d hd] at hvd
    have h1 : x.codeValue ops = vx := Option.some.inj hvx
    have h2 : d.codeValue ops = vd := Option.some.inj hvd
    rw [eval_render ops ctx _ (by simpa [AExp.allLiterals] using And.intro hx hd)]
    simp [AExp.codeValue, h1, h2, hne]

/-- C3 at `5/0`, `(1+2)/0` and `6/3`. -/
theorem C3_division_by_zero_witness :
    (AExp.lit "5".toList).allLiterals isNumberToken = true ∧
    exactOps.ne0 (exactOps.atof "0".toList) = false ∧
    eval exactOps ctx0 "5/0".toList = some (Val.num 0) ∧
    eval exactOps ctx0 "(1+2)/0".toList = some (Val.num 0) ∧
    eval exactOps ctx0 "6/3".toList = some (Val.num 2) :=
  ⟨by decide, by decide!,
    (C3_division_by_zero exactOps ctx0 (AExp.lit "5".toList) (by decide) (by decide!)).2.1,
    by decide!, by decide!⟩

/-- C4, the code at the failing input: `x%0` evaluates to `fmod(x, 0)`
unguarded, in every float arithmetic; with C's `fmod` that is not-a-number,
for the operator `5%0` and for the function form `mod(5,0)` alike. -/
theorem C4_modulo_by_zero_unguarded :
    (∀ (F : Type) (ops : FloatOps F) (ctx : EvalCtx F) (x : AExp),
      x.allLiterals isNumberToken = true →
      eval ops ctx (x.render 1 ++ "%0".toList) =
        some (ops.fmod (x.codeValue ops) (ops.atof "0".toList))) ∧
    eval exactOps ctx0 "5%0".toList = some Val.nan ∧
    eval exactOps ctx0 "mod(5,0)".toList = some Val.nan ∧
    eval exactOps ctx0 "5/0".toList = some (Val.num 0) := by
  refine ⟨?_, by decide!, by decide!, by decide!⟩
  intro F ops ctx x hx
  have hz : isNumberToken "0".toList = true := by decide
  have hT := termText_step ops ctx '%' (render_parses ops ctx x hx).2.1
    (factorText_number ops ctx hz) (Or.inr (Or.inr rfl))
  have := eval_of_exprText ops ctx (exprText_of_termText ops ctx hT)
  simpa [applyTermOp] using this


/-! ## C5: identifiers -/

theorem identStart_facts {c : Char} (h : (isalpha c || c == '_') = true) :
    isspace c = false ∧ c ≠ '!' ∧ c ≠ '-' ∧ c ≠ '(' ∧ isdigit c = false ∧ c ≠ '.' := by
  have key : ∀ d : Char, (isalpha d || d == '_') = false → c ≠ d := by
    intro d hd hcd; rw [hcd, hd] at h; cases h
  refine ⟨?_, key _ (by decide), key _ (by decide), key _ (by decide), ?_, key _ (by decide)⟩
  · simp only [isalpha, Bool.or_eq_true, Bool.and_eq_true, decide_eq_true_eq,
      beq_iff_eq] at h
    rcases h with (h | h) | h
    · simp only [isspace, Bool.or_eq_false_iff, beq_eq_false_iff_ne, Bool.and_eq_false_iff,
        decide_eq_false_iff_not]
      omega
    · simp only [isspace, Bool.or_eq_false_iff, beq_eq_false_iff_ne, Bool.and_eq_false_iff,
        decide_eq_false_iff_not]
      omega
    · subst h; decide
  · simp only [isalpha, Bool.or_eq_true, Bool.and_eq_true, decide_eq_true_eq,
      beq_iff_eq] at h
    rcases h with (h | h) | h
    · simp only [isdigit, Bool.and_eq_false_iff, decide_eq_false_iff_not]
      omega
    · simp only [isdigit, Bool.and_eq_false_iff, decide_eq_false_iff_not]
      omega
    · subst h; decide

section
variable {F : Type} (ops : FloatOps F) (ctx : EvalCtx F) (expr : List Char)

/-- An identifier that is not followed by `(` is a variable: `_parseFactor`
yields what `lookupVariable` gives for the buffer. -/
theorem factorAt_variable {pos : Nat} {name rest : List Char}
    (h : expr.drop pos = name ++ rest) (hid : isIdentifier name = true)
    (hstop : isIdentChar (rest.headD NUL) = false)
    (hsp : isspace (rest.headD NUL) = false) (hcall : rest.headD NUL ≠ '(') :
    FactorAt ops ctx expr pos (lookupVariable ops ctx (name.take 31)) (pos + name.length) := by
  obtain ⟨c, cs, rfl⟩ : ∃ c cs, name = c :: cs := by
    cases name with
    | nil => simp [isIdentifier] at hid
    | cons c cs => exact ⟨c, cs, rfl⟩
  have hid' : (isalpha c || c == '_') = true ∧ ∀ x ∈ c :: cs, isIdentChar x = true := by
    simpa [isIdentifier] using hid
  obtain ⟨f1, f2, f3, f4, f5, f6⟩ := identStart_facts hid'.1
  have hstart : isalpha c = true ∨ c = '_' := by simpa using hid'.1
  have hpeek : peek expr pos = c := peek_of_drop (by simpa using h)
  have hskip : skipWhitespace expr pos = pos :=
    skipWhitespace_eq_self (by rw [hpeek]; exact f1)
  have hscan : scanWhile isIdentChar (List.drop pos expr) pos = pos + (c :: cs).length := by
    rw [h]; exact scanWhile_append isIdentChar _ rest pos hid'.2 hstop
  have hend : peek expr (pos + (c :: cs).length) = rest.headD NUL := by
    rw [peek_eq_headD, drop_add_of_drop _ h]
  have hskip2 : skipWhitespace expr (pos + (c :: cs).length) = pos + (c :: cs).length :=
    skipWhitespace_eq_self (by rw [hend]; exact hsp)
  refine ⟨3, fun n hn => ?_⟩
  obtain ⟨m, rfl⟩ : ∃ m, n = m + 3 := ⟨n - 3, by omega⟩
  rw [parseFactor]
  simp only [hskip, hpeek, f2, if_false]
  rw [parseUnary]
  simp only [hskip, hpeek, f3, f4, f5, f6, hstart, if_false, if_true, Bool.false_eq_true,
    or_self]
  rw [parseIdentifier]
  simp only [hscan, hskip2, hend, hcall, if_false, copyBuffer_of_drop _ h]

/-- A formula that is a single identifier evaluates to its variable. -/
theorem eval_variable {name : List Char} (hid : isIdentifier name = true) :
    eval ops ctx name = some (lookupVariable ops ctx (name.take 31)) := by
  have hd : name.drop 0 = name ++ [] := by simp
  have hF := factorAt_variable ops ctx name hd hid (by decide) (by decide) (by decide)
  have hp : peek name (0 + name.length) = NUL := peek_of_drop_nil (drop_add_of_drop name hd)
  have hT := termAt_of_factorAt ops ctx name hF
  have hE := exprAt_of_termAt ops ctx name hT (by rw [hp]; decide) (by rw [hp]; decide)
    (by rw [hp]; decide) (by rw [hp]; decide)
  exact eval_of_orAt ops ctx name (orAt_of_exprAt ops ctx name hE (Or.inl hp))

end

/-- C5: a formula that is one identifier of at most 31 characters, other than
`theta`, `t`, `i` and `pi`, evaluates to the resolver's value for that name
when it is a number and to 0 when the resolver returns not-a-number. -/
theorem C5_unknown_identifier {F : Type} (ops : FloatOps F) (ctx : EvalCtx F)
    (name : List Char) (hid : isIdentifier name = true) (hlen : name.length ≤ 31)
    (h1 : name ≠ "theta".toList) (h2 : name ≠ "t".toList)
    (h3 : name ≠ "i".toList) (h4 : name ≠ "pi".toList) :
    eval ops ctx name =
      some (if ops.isnan (ctx.port name) = true then ops.zero else ctx.port name) := by
  rw [eval_variable ops ctx hid, List.take_of_length_le hlen]
  unfold lookupVariable
  simp only [h1, h2, h3, h4, if_false]
  cases ops.isnan (ctx.port name) <;> simp

/-- C5 at `unknown_var` with a resolver that knows no name: the value is 0. -/
theorem C5_unknown_identifier_witness :
    isIdentifier "unknown_var".toList = true ∧ "unknown_var".toList.length ≤ 31 ∧
    ctx0.port "unknown_var".toList = Val.nan ∧
    eval exactOps ctx0 "unknown_var".toList = some (Val.num 0) :=
  ⟨by decide, by decide, rfl,
    C5_unknown_identifier exactOps ctx0 "unknown_var".toList (by decide) (by decide)
      (by decide) (by decide) (by decide) (by decide)⟩


/-! ## C6 and C7: the pattern store -/

/-- C6: `savePattern` returns false if and only if `slot < 1` or `slot > 5`
(so for slot 0 and slot 6), and when it returns false the whole state (stored
patterns, key-value store, animation state) is unchanged. -/
theorem C6_savePattern_fails_iff {F : Type} (dp : DynamicPattern F) (slot : Int)
    (name hue sat val : String) :
    ((savePattern dp slot name hue sat val).1 = false ↔ (slot < 1 ∨ slot > 5)) ∧
    ((savePattern dp slot name hue sat val).1 = false →
      (savePattern dp slot name hue sat val).2 = dp) ∧
    (savePattern dp 0 name hue sat val).1 = false ∧
    (savePattern dp 6 name hue sat val).1 = false := by
  refine ⟨?_, ?_, ?_, ?_⟩
  · unfold savePattern
    by_cases h : slot < 1 ∨ slot > 5
    · simp [h]
    · simp [h]
  · unfold savePattern
    by_cases h : slot < 1 ∨ slot > 5
    · simp [h]
    · simp [h]
  · simp [savePattern]
  · simp [savePattern]

/-- C7: for a slot in 1..5, `getPattern` after `savePattern` returns a valid
pattern holding exactly the four saved strings; for every slot outside 1..5
`getPattern` returns null, in every state. -/
theorem C7_save_get_roundtrip {F : Type} (dp : DynamicPattern F) (slot : Int)
    (name hue sat val : String) (hslot : 1 ≤ slot ∧ slot ≤ 5) :
    getPattern (savePattern dp slot name hue sat val).2 slot =
      some { valid := true, name := name, hue_expr := hue, sat_expr := sat, val_expr := val } ∧
    ∀ (st : DynamicPattern F) (s : Int), (s < 1 ∨ s > 5) → getPattern st s = none := by
  constructor
  · have h1 : ¬ (slot < 1 ∨ slot > 5) := by omega
    have h2 : slot ≥ 1 ∧ slot ≤ 5 := by omega
    simp [savePattern, getPattern, saveToNVS, h1, h2]
  · intro st s hs
    have : ¬ (s ≥ 1 ∧ s ≤ 5) := by omega
    simp [getPattern, this]

/-- C7 at slot 3. -/
theorem C7_save_get_roundtrip_witness :
    ((1 : Int) ≤ 3 ∧ (3 : Int) ≤ 5) ∧
    getPattern (savePattern dpEmpty 3 "wave" "theta+t" "1" "0.5").2 3 =
      some { valid := true, name := "wave", hue_expr := "theta+t", sat_expr := "1",
             val_expr := "0.5" } ∧
    getPattern (savePattern dpEmpty 3 "wave" "theta+t" "1" "0.5").2 0 = none ∧
    getPattern (savePattern dpEmpty 3 "wave" "theta+t" "1" "0.5").2 6 = none :=
  ⟨by decide,
    (C7_save_get_roundtrip dpEmpty 3 "wave" "theta+t" "1" "0.5" (by decide)).1,
    (C7_save_get_roundtrip dpEmpty 3 "wave" "theta+t" "1" "0.5" (by decide)).2 _ 0 (by decide),
    (C7_save_get_roundtrip dpEmpty 3 "wave" "theta+t" "1" "0.5" (by decide)).2 _ 6 (by decide)⟩


/-! ## C8, C9 and C10: the animation scheduler -/

theorem foldl_set_range (f : Nat → CRGB) :
    ∀ (n : Nat) (leds : List CRGB), n ≤ leds.length →
      (List.range n).foldl (fun l i => l.set i (f i)) leds =
        (List.range n).map f ++ leds.drop n := by
  intro n
  induction n with
  | zero => intro leds _; simp
  | succ n ih =>
    intro leds h
    rw [List.range_succ, List.foldl_append, ih leds (by omega)]
    simp only [List.foldl_cons, List.foldl_nil, List.map_append, List.map_cons, List.map_nil]
    have hlen : ((List.range n).map f).length = n := by simp
    rw [List.set_append_right _ _ (by omega), hlen, Nat.sub_self]
    have hd : leds.drop n = leds[n] :: leds.drop (n + 1) := List.drop_eq_getElem_cons (by omega)
    rw [hd, List.set_cons_zero]
    simp

/-- Writing every pixel of a buffer of `NUM_LEDS` pixels. -/
theorem writeLeds_eq (f : Nat → CRGB) (leds : List CRGB) (h : leds.length = NUM_LEDS) :
    writeLeds f leds = (List.range NUM_LEDS).map f := by
  unfold writeLeds
  rw [foldl_set_range f NUM_LEDS leds (by omega), List.drop_of_length_le (by omega)]
  simp

/-- C8 (amended): `executePattern(6, d)` succeeds and makes slot 6 the active
animation whatever the pattern store holds; the render step that follows sets
every pixel of the buffer to black when the duration has not elapsed at that
step (`d > 0` and `elapsed >= d` do not both hold), and otherwise stops the
engine and leaves the buffer as it is. -/
theorem C8_blackout {F : Type} (ops : FloatOps F) (hsv2rgb : Nat → Nat → Nat → CRGB)
    (port : List Char → F) (dp : DynamicPattern F) (d : F) (millis now : Nat)
    (leds : List CRGB) (hlen : leds.length = NUM_LEDS) :
    (executePattern dp 6 d millis).1 = true ∧
    (executePattern dp 6 d millis).2.active = true ∧
    (executePattern dp 6 d millis).2.current_slot = 6 ∧
    (¬ expired ops d (millis % 2 ^ 32) now →
      update ops hsv2rgb port (executePattern dp 6 d millis).2 leds now =
        ((executePattern dp 6 d millis).2, List.replicate NUM_LEDS CRGB.Black)) ∧
    (expired ops d (millis % 2 ^ 32) now →
      update ops hsv2rgb port (executePattern dp 6 d millis).2 leds now =
        (stop (executePattern dp 6 d millis).2, leds)) := by
  have hex : executePattern dp 6 d millis =
      (true, { dp with current_slot := 6, current_duration := d, active := true,
                       start_time := millis % 2 ^ 32 }) := by
    simp [executePattern]
  rw [hex]
  refine ⟨rfl, rfl, rfl, ?_, ?_⟩
  · intro hne
    unfold expired at hne
    unfold update
    simp only [Bool.true_eq_false, false_or, show ¬ ((6 : Int) = 0) by decide, if_false,
      hne, if_true]
    rw [writeLeds_eq _ _ hlen]
    simp [NUM_LEDS, List.range, List.range.loop, List.replicate]
  · intro he
    unfold expired at he
    unfold update
    simp only [Bool.true_eq_false, false_or, show ¬ ((6 : Int) = 0) by decide, if_false,
      he, and_self, if_true]

/-- C8 on an empty store with duration 0 (infinite), rendered 16 ms later. -/
theorem C8_blackout_witness :
    ledsWhite.length = NUM_LEDS ∧
    ¬ expired exactOps (Val.num 0) (0 % 2 ^ 32) 16 ∧
    (update exactOps hsvGray ctx0.port (executePattern dpEmpty 6 (Val.num 0) 0).2
      ledsWhite 16).2 = List.replicate NUM_LEDS CRGB.Black :=
  ⟨by decide, by unfold expired; decide!,
    congrArg Prod.snd ((C8_blackout exactOps hsvGray ctx0.port dpEmpty (Val.num 0) 0 16
      ledsWhite (by decide)).2.2.2.1 (by unfold expired; decide!))⟩

/-- C8 as stated fails when the duration has elapsed by the next render step:
after `executePattern(6, 0.001)` at time 0 the render at 16 ms stops the
engine and leaves the twelve white pixels white. -/
theorem C8_counterexample :
    (executePattern dpEmpty 6 (Val.num (1 / 1000)) 0).1 = true ∧
    (update exactOps hsvGray ctx0.port (executePattern dpEmpty 6 (Val.num (1 / 1000)) 0).2
      ledsWhite 16).2 = ledsWhite ∧
    (update exactOps hsvGray ctx0.port (executePattern dpEmpty 6 (Val.num (1 / 1000)) 0).2
      ledsWhite 16).1.active = false ∧
    (update exactOps hsvGray ctx0.port (executePattern dpEmpty 6 (Val.num (1 / 1000)) 0).2
      ledsWhite 16).2 ≠ List.replicate NUM_LEDS CRGB.Black := by
  refine ⟨by decide!, by decide!, by decide!, by decide!⟩


/-- C9: for a slot in 1..5 `executePattern` returns false if and only if the
slot's pattern is not valid; every slot below 0 or above 6 returns false; a
call that returns false leaves the whole state unchanged; a successful call
for a slot other than 0 sets the current slot to `slot`, the duration to `d`,
the start time to the current time, and makes the animation active. -/
theorem C9_executePattern_user_slot {F : Type} (dp : DynamicPattern F) (slot : Int) (d : F)
    (millis : Nat) :
    ((1 ≤ slot ∧ slot ≤ 5) →
      ((executePattern dp slot d millis).1 = false ↔
        (dp.patterns (slotIndex slot)).valid = false)) ∧
    ((slot < 0 ∨ slot > 6) → (executePattern dp slot d millis).1 = false) ∧
    ((executePattern dp slot d millis).1 = false → (executePattern dp slot d millis).2 = dp) ∧
    (slot ≠ 0 → (executePattern dp slot d millis).1 = true →
      (executePattern dp slot d millis).2 =
        { dp with current_slot := slot, current_duration := d, active := true,
                  start_time := millis % 2 ^ 32 }) := by
  refine ⟨?_, ?_, ?_, ?_⟩
  · intro h
    have h0 : slot ≠ 0 := by omega
    have h1 : ¬ (slot < 1 ∨ slot > 6) := by omega
    have h6 : slot ≠ 6 := by omega
    unfold executePattern
    simp only [h0, h1, h6, if_false, ne_eq, not_false_eq_true, true_and]
    cases (dp.patterns (slotIndex slot)).valid <;> simp
  · intro h
    have h0 : slot ≠ 0 := by omega
    have h1 : slot < 1 ∨ slot > 6 := by omega
    simp [executePattern, h0, h1]
  · unfold executePattern
    split_ifs <;> simp
  · intro h0
    unfold executePattern
    simp only [h0, if_false]
    split_ifs <;> simp

/-- C9 on the store with valid slots 1, 3 and 5: slot 3 starts, slot 2 fails. -/
theorem C9_executePattern_user_slot_witness :
    (executePattern dp135 3 (Val.num 2) 1000).1 = true ∧
    (executePattern dp135 3 (Val.num 2) 1000).2.current_slot = 3 ∧
    (executePattern dp135 3 (Val.num 2) 1000).2.start_time = 1000 ∧
    (executePattern dp135 3 (Val.num 2) 1000).2.active = true ∧
    (executePattern dp135 2 (Val.num 2) 1000).1 = false ∧
    (executePattern dp135 2 (Val.num 2) 1000).2 = dp135 :=
  ⟨by decide, by decide, by decide, by decide, by decide,
    (C9_executePattern_user_slot dp135 2 (Val.num 2) 1000).2.2.1 (by decide)⟩

section
variable {F : Type} (ops : FloatOps F)

theorem executePattern_valid (dp : DynamicPattern F) (s : Int) (d : F) (millis : Nat)
    (h1 : 1 ≤ s) (h2 : s ≤ 5) (hv : (dp.patterns (slotIndex s)).valid = true) :
    executePattern dp s d millis =
      (true, { dp with current_slot := s, current_duration := d, active := true,
                       start_time := millis % 2 ^ 32 }) := by
  have h0 : s ≠ 0 := by omega
  have hr : ¬ (s < 1 ∨ s > 6) := by omega
  unfold executePattern
  simp only [h0, hr, hv, if_false, Bool.true_eq_false, and_false]

/-- The loop of `cycleNextSlot` from `c` with enough iterations left: it
activates the least valid slot above `c`, or stops when there is none. -/
theorem cycleLoop_spec (dp : DynamicPattern F) (millis : Nat) :
    ∀ (k : Nat) (c : Int), 0 ≤ c → 6 ≤ c + k →
      (∀ s : Int, c < s → s ≤ 5 → (dp.patterns (slotIndex s)).valid = true →
        (∀ s' : Int, c < s' → s' < s → (dp.patterns (slotIndex s')).valid = false) →
        cycleLoop ops dp millis k c =
          { dp with current_slot := s, current_duration := ops.zero, active := true,
                    start_time := millis % 2 ^ 32 }) ∧
      ((∀ s : Int, c < s → s ≤ 5 → (dp.patterns (slotIndex s)).valid = false) →
        cycleLoop ops dp millis k c = stop dp) := by
  intro k
  induction k with
  | zero =>
    intro c h0 hk
    refine ⟨fun s h1 h2 _ _ => by omega, fun _ => rfl⟩
  | succ k ih =>
    intro c h0 hk
    by_cases hc : c + 1 > 5
    · refine ⟨fun s h1 h2 _ _ => by omega, fun _ => ?_⟩
      rw [cycleLoop]
      simp [hc]
    · have hne : c + 1 ≠ 0 := by omega
      have hrange : ¬ (c + 1 < 1 ∨ c + 1 > 6) := by omega
      obtain ⟨ih1, ih2⟩ := ih (c + 1) (by omega) (by omega)
      cases hv : (dp.patterns (slotIndex (c + 1))).valid with
      | true =>
        constructor
        · intro s h1 h2 hs hmin
          have hsc : s = c + 1 := by
            by_contra hne'
            have := hmin (c + 1) (by omega) (by omega)
            rw [hv] at this; cases this
          subst hsc
          rw [cycleLoop]
          simp only [hc, if_false, hne, hv, if_true]
          rw [executePattern_valid dp (c + 1) ops.zero millis (by omega) (by omega) hv]
        · intro hnone
          have := hnone (c + 1) (by omega) (by omega)
          rw [hv] at this; cases this
      | false =>
        constructor
        · intro s h1 h2 hs hmin
          have hsc : s ≠ c + 1 := by
            intro h; rw [h, hv] at hs; cases hs
          rw [cycleLoop]
          simp only [hc, if_false, hne, hv, Bool.false_eq_true]
          exact ih1 s (by omega) h2 hs (fun s' h3 h4 => hmin s' (by omega) h4)
        · intro hnone
          rw [cycleLoop]
          simp only [hc, if_false, hne, hv, Bool.false_eq_true]
          exact ih2 (fun s h1 h2 => hnone s (by omega) h2)

/-- The slot the loop of `cycleNextSlot` ends on is 0 or a valid slot in 1..5
above the slot it started from. -/
theorem cycleLoop_slot (dp : DynamicPattern F) (millis : Nat) :
    ∀ (k : Nat) (c : Int), 0 ≤ c →
      (cycleLoop ops dp millis k c).current_slot = 0 ∨
      (c < (cycleLoop ops dp millis k c).current_slot ∧
        (cycleLoop ops dp millis k c).current_slot ≤ 5 ∧
        (dp.patterns (slotIndex (cycleLoop ops dp millis k c).current_slot)).valid = true) := by
  intro k
  induction k with
  | zero => intro c _; exact Or.inl rfl
  | succ k ih =>
    intro c h0
    rw [cycleLoop]
    by_cases hc : c + 1 > 5
    · simp [hc, stop]
    · have hne : c + 1 ≠ 0 := by omega
      have hrange : ¬ (c + 1 < 1 ∨ c + 1 > 6) := by omega
      cases hv : (dp.patterns (slotIndex (c + 1))).valid with
      | true =>
        right
        simp only [hc, if_false, hne, hv, if_true]
        rw [executePattern_valid dp (c + 1) ops.zero millis (by omega) (by omega) hv]
        exact ⟨by show c < c + 1; omega, by show c + 1 ≤ 5; omega, hv⟩
      | false =>
        simp only [hc, if_false, hne, hv, Bool.false_eq_true]
        rcases ih (c + 1) (by omega) with h | ⟨h1, h2, h3⟩
        · exact Or.inl h
        · exact Or.inr ⟨by omega, h2, h3⟩

end

/-- C10: from a current slot `c` in 0..6, `cycleNextSlot` activates the
smallest valid slot `s` with `c < s <= 5`, with duration 0, or stops the
engine (slot 0, inactive) when there is no such slot; the slot it ends on is
never an invalid one. -/
theorem C10_cycleNextSlot {F : Type} (ops : FloatOps F) (dp : DynamicPattern F)
    (millis : Nat) (hc : 0 ≤ dp.current_slot ∧ dp.current_slot ≤ 6) :
    (∀ s : Int, dp.current_slot < s → s ≤ 5 → (dp.patterns (slotIndex s)).valid = true →
      (∀ s' : Int, dp.current_slot < s' → s' < s →
        (dp.patterns (slotIndex s')).valid = false) →
      cycleNextSlot ops dp millis =
        { dp with current_slot := s, current_duration := ops.zero, active := true,
                  start_time := millis % 2 ^ 32 }) ∧
    ((∀ s : Int, dp.current_slot < s → s ≤ 5 → (dp.patterns (slotIndex s)).valid = false) →
      cycleNextSlot ops dp millis = stop dp) ∧
    ((cycleNextSlot ops dp millis).current_slot = 0 ∨
      (dp.current_slot < (cycleNextSlot ops dp millis).current_slot ∧
        (cycleNextSlot ops dp millis).current_slot ≤ 5 ∧
        (dp.patterns (slotIndex (cycleNextSlot ops dp millis).current_slot)).valid = true)) := by
  have hstart : (if dp.current_slot = 0 then 0 else dp.current_slot) = dp.current_slot := by
    split_ifs with h
    · exact h.symm
    · rfl
  have hcyc : cycleNextSlot ops dp millis = cycleLoop ops dp millis 6 dp.current_slot := by
    unfold cycleNextSlot
    simp only [hstart]
  rw [hcyc]
  obtain ⟨h1, h2⟩ := cycleLoop_spec ops dp millis 6 dp.current_slot hc.1 (by omega)
  exact ⟨h1, h2, cycleLoop_slot ops dp millis 6 dp.current_slot hc.1⟩

/-- C10 on the store with valid slots exactly 1, 3 and 5: repeated calls from
stopped visit 1, 3, 5, stopped, 1. -/
theorem C10_cycleNextSlot_witness :
    (0 ≤ dp135.current_slot ∧ dp135.current_slot ≤ 6) ∧
    ((cycleNextSlot exactOps dp135 10).current_slot = 0 ∨
      (dp135.current_slot < (cycleNextSlot exactOps dp135 10).current_slot ∧
        (cycleNextSlot exactOps dp135 10).current_slot ≤ 5 ∧
        (dp135.patterns (slotIndex (cycleNextSlot exactOps dp135 10).current_slot)).valid
          = true)) ∧
    (cycleNextSlot exactOps dp135 10).current_slot = 1 ∧
    (cycleNextSlot exactOps (cycleNextSlot exactOps dp135 10) 20).current_slot = 3 ∧
    (cycleNextSlot exactOps (cycleNextSlot exactOps
      (cycleNextSlot exactOps dp135 10) 20) 30).current_slot = 5 ∧
    (cycleNextSlot exactOps (cycleNextSlot exactOps (cycleNextSlot exactOps
      (cycleNextSlot exactOps dp135 10) 20) 30) 40).current_slot = 0 ∧
    (cycleNextSlot exactOps (cycleNextSlot exactOps (cycleNextSlot exactOps
      (cycleNextSlot exactOps dp135 10) 20) 30) 40).active = false ∧
    (cycleNextSlot exactOps (cycleNextSlot exactOps (cycleNextSlot exactOps
      (cycleNextSlot exactOps (cycleNextSlot exactOps dp135 10) 20) 30) 40) 50).current_slot
        = 1 :=
  ⟨by decide, (C10_cycleNextSlot exactOps dp135 10 (by decide)).2.2,
    by decide, by decide, by decide, by decide, by decide, by decide⟩


/-! ## C11: duration expiry -/

theorem elapsedSec_exact (s now : Nat) :
    elapsedSec exactOps s now = Val.num ((((now + 2 ^ 32 - s) % 2 ^ 32 : Nat) : ℚ) / 1000) := by
  simp only [elapsedSec, exactOps, Val.divV]
  rw [if_neg (by norm_num)]
  congr 1

theorem expired_exact (d : ℚ) (s now : Nat) :
    expired exactOps (Val.num d) s now ↔
      0 < d ∧ d ≤ (((now + 2 ^ 32 - s) % 2 ^ 32 : Nat) : ℚ) / 1000 := by
  unfold expired
  rw [elapsedSec_exact]
  simp [exactOps, Val.liftRel]

/-- C11: for a running pattern (active, current slot not 0) the render step
stops the engine and writes no pixel if and only if the duration `d` is
positive and `((now - s) mod 2^32) / 1000 >= d`; otherwise the state is left as
it is, active on the same slot.  In exact arithmetic duration 0 never expires,
and with `d = 2` the render at `s + 2500` ms stops while no render at `s + k`
ms with `k < 2000` does. -/
theorem C11_duration_expiry :
    (∀ (F : Type) (ops : FloatOps F) (hsv2rgb : Nat → Nat → Nat → CRGB)
      (port : List Char → F) (dp : DynamicPattern F) (leds : List CRGB) (now : Nat),
      dp.active = true → dp.current_slot ≠ 0 →
      (expired ops dp.current_duration dp.start_time now →
        update ops hsv2rgb port dp leds now = (stop dp, leds)) ∧
      (¬ expired ops dp.current_duration dp.start_time now →
        (update ops hsv2rgb port dp leds now).1 = dp) ∧
      (((update ops hsv2rgb port dp leds now).1.active = false ∧
          (update ops hsv2rgb port dp leds now).1.current_slot = 0) ↔
        expired ops dp.current_duration dp.start_time now)) ∧
    (∀ s now : Nat, ¬ expired exactOps (Val.num 0) s now) ∧
    (∀ s k : Nat, s < 2 ^ 32 → k < 2000 →
      ¬ expired exactOps (Val.num 2) s ((s + k) % 2 ^ 32)) ∧
    (∀ s : Nat, s < 2 ^ 32 → expired exactOps (Val.num 2) s ((s + 2500) % 2 ^ 32)) := by
  refine ⟨?_, ?_, ?_, ?_⟩
  · intro F ops hsv2rgb port dp leds now hact hslot
    have hgate : ¬ (dp.active = false ∨ dp.current_slot = 0) := by
      rw [hact]; simp [hslot]
    have hexp : expired ops dp.current_duration dp.start_time now →
        update ops hsv2rgb port dp leds now = (stop dp, leds) := by
      intro he
      unfold expired at he
      unfold update
      simp only [hgate, if_false, he, and_self, if_true]
    have hnot : ¬ expired ops dp.current_duration dp.start_time now →
        (update ops hsv2rgb port dp leds now).1 = dp := by
      intro hne
      unfold expired at hne
      unfold update
      simp only [hgate, if_false, hne]
      split_ifs <;> rfl
    refine ⟨hexp, hnot, ?_⟩
    constructor
    · intro hst
      by_contra hne
      rw [hnot hne, hact] at hst
      exact Bool.noConfusion hst.1
    · intro he
      rw [hexp he]
      exact ⟨rfl, rfl⟩
  · intro s now h
    rw [expired_exact] at h
    exact lt_irrefl _ h.1
  · intro s k hs hk h
    rw [expired_exact] at h
    have hmod : ((s + k) % 2 ^ 32 + 2 ^ 32 - s) % 2 ^ 32 = k := by
      norm_num at hs ⊢
      omega
    rw [hmod] at h
    have h2 := h.2
    rw [le_div_iff₀ (by norm_num : (0 : ℚ) < 1000)] at h2
    have : (k : ℚ) < 2000 := by exact_mod_cast hk
    linarith
  · intro s hs
    rw [expired_exact]
    have hmod : ((s + 2500) % 2 ^ 32 + 2 ^ 32 - s) % 2 ^ 32 = 2500 := by
      norm_num at hs ⊢
      omega
    rw [hmod]
    norm_num

/-- C11 on a blackout started at 1000 ms with duration 2: the render at 3500 ms
stops, the render at 2999 ms does not. -/
theorem C11_duration_expiry_witness :
    (update exactOps hsvGray ctx0.port (executePattern dpEmpty 6 (Val.num 2) 1000).2
      ledsWhite 3500) = (stop (executePattern dpEmpty 6 (Val.num 2) 1000).2, ledsWhite) ∧
    (update exactOps hsvGray ctx0.port (executePattern dpEmpty 6 (Val.num 2) 1000).2
      ledsWhite 2999).1 = (executePattern dpEmpty 6 (Val.num 2) 1000).2 :=
  ⟨(C11_duration_expiry.1 Val exactOps hsvGray ctx0.port
      (executePattern dpEmpty 6 (Val.num 2) 1000).2 ledsWhite 3500 rfl (by decide)).1
      (by unfold expired; decide!),
    (C11_duration_expiry.1 Val exactOps hsvGray ctx0.port
      (executePattern dpEmpty 6 (Val.num 2) 1000).2 ledsWhite 2999 rfl (by decide)).2.1
      (by unfold expired; decide!)⟩

/-! ## C14: stopping is idempotent -/

/-- C14: in a state that is already stopped (inactive, current slot 0)
`executePattern(0, d)` returns success and leaves the whole state unchanged; in
every state two consecutive `executePattern(0, d)` calls leave the same state
as one. -/
theorem C14_stop_idempotent {F : Type} (dp : DynamicPattern F) (d d2 : F) (m m2 : Nat) :
    (dp.active = false → dp.current_slot = 0 →
      executePattern dp 0 d m = (true, dp)) ∧
    (executePattern dp 0 d m).1 = true ∧
    executePattern (executePattern dp 0 d m).2 0 d2 m2 = executePattern dp 0 d m := by
  refine ⟨?_, ?_, ?_⟩
  · intro h1 h2
    obtain ⟨pats, slot, dur, act, st, prefs⟩ := dp
    simp only at h1 h2
    subst h1; subst h2
    simp [executePattern, stop]
  · simp [executePattern]
  · simp [executePattern, stop]

/-- C14 on the empty, stopped store. -/
theorem C14_stop_idempotent_witness :
    dpEmpty.active = false ∧ dpEmpty.current_slot = 0 ∧
    executePattern dpEmpty 0 (Val.num 3) 7 = (true, dpEmpty) :=
  ⟨rfl, rfl, (C14_stop_idempotent dpEmpty (Val.num 3) (Val.num 3) 7 7).1 rfl rfl⟩


/-! ## C15 and C16: loading from the key-value store -/

section
variable {F : Type}

theorem loadSlot_prefs (dp : DynamicPattern F) (i : Int) : (loadSlot dp i).prefs = dp.prefs := by
  unfold loadSlot; split_ifs <;> rfl

theorem loadSlot_same (dp : DynamicPattern F) (i : Int) :
    (loadSlot dp i).patterns (slotIndex i) =
      if dp.prefs.isKey (keyPrefix i ++ "valid") = true then
        { valid := dp.prefs.getBool (keyPrefix i ++ "valid"),
          name := dp.prefs.getString (keyPrefix i ++ "name") ("Pattern " ++ toString i),
          hue_expr := dp.prefs.getString (keyPrefix i ++ "hue") "0",
          sat_expr := dp.prefs.getString (keyPrefix i ++ "sat") "1",
          val_expr := dp.prefs.getString (keyPrefix i ++ "val") "0.5" }
      else dp.patterns (slotIndex i) := by
  unfold loadSlot
  split_ifs <;> simp

theorem loadSlot_other (dp : DynamicPattern F) (i j : Int) (h : slotIndex j ≠ slotIndex i) :
    (loadSlot dp i).patterns (slotIndex j) = dp.patterns (slotIndex j) := by
  unfold loadSlot
  split_ifs
  · simp [Function.update_noteq h]
  · rfl

/-- The pattern `begin` leaves in slot `i`: read from the store when the
`valid` key of the slot is present, untouched otherwise. -/
theorem begin_pattern (dp : DynamicPattern F) (i : Int) (hi : 1 ≤ i ∧ i ≤ 5) :
    (begin dp).patterns (slotIndex i) =
      if dp.prefs.isKey (keyPrefix i ++ "valid") = true then
        { valid := dp.prefs.getBool (keyPrefix i ++ "valid"),
          name := dp.prefs.getString (keyPrefix i ++ "name") ("Pattern " ++ toString i),
          hue_expr := dp.prefs.getString (keyPrefix i ++ "hue") "0",
          sat_expr := dp.prefs.getString (keyPrefix i ++ "sat") "1",
          val_expr := dp.prefs.getString (keyPrefix i ++ "val") "0.5" }
      else dp.patterns (slotIndex i) := by
  obtain ⟨h1, h5⟩ := hi
  unfold begin loadFromNVS
  simp only [List.foldl_cons, List.foldl_nil]
  interval_cases i
  · rw [loadSlot_other _ 5 1 (by decide), loadSlot_other _ 4 1 (by decide),
      loadSlot_other _ 3 1 (by decide), loadSlot_other _ 2 1 (by decide), loadSlot_same]
  · rw [loadSlot_other _ 5 2 (by decide), loadSlot_other _ 4 2 (by decide),
      loadSlot_other _ 3 2 (by decide), loadSlot_same, loadSlot_prefs,
      loadSlot_other _ 1 2 (by decide)]
  · rw [loadSlot_other _ 5 3 (by decide), loadSlot_other _ 4 3 (by decide),
      loadSlot_same, loadSlot_prefs, loadSlot_prefs,
      loadSlot_other _ 2 3 (by decide), loadSlot_other _ 1 3 (by decide)]
  · rw [loadSlot_other _ 5 4 (by decide), loadSlot_same, loadSlot_prefs, loadSlot_prefs,
      loadSlot_prefs, loadSlot_other _ 3 4 (by decide), loadSlot_other _ 2 4 (by decide),
      loadSlot_other _ 1 4 (by decide)]
  · rw [loadSlot_same, loadSlot_prefs, loadSlot_prefs, loadSlot_prefs, loadSlot_prefs,
      loadSlot_other _ 4 5 (by decide), loadSlot_other _ 3 5 (by decide),
      loadSlot_other _ 2 5 (by decide), loadSlot_other _ 1 5 (by decide)]

theorem getString_absent (p : Preferences) (key dflt : String) (h : p key = none) :
    p.getString key dflt = dflt := by
  simp [Preferences.getString, h]

end

/-- C15 (amended): after `begin` on a fresh object over any store content,
every slot 1..5 whose `valid` key is present holds the neutral value for each
of hue, saturation and brightness whose key is absent ("0", "1", "0.5"); a slot
whose `valid` key is absent is left as constructed: invalid, with empty name
and formulas. -/
theorem C15_load_defaults {F : Type} (ops : FloatOps F) (prefs : Preferences) (i : Int)
    (hi : 1 ≤ i ∧ i ≤ 5) :
    (prefs.isKey (keyPrefix i ++ "valid") = true →
      (prefs (keyPrefix i ++ "hue") = none →
        ((begin (DynamicPattern.init ops prefs)).patterns (slotIndex i)).hue_expr = "0") ∧
      (prefs (keyPrefix i ++ "sat") = none →
        ((begin (DynamicPattern.init ops prefs)).patterns (slotIndex i)).sat_expr = "1") ∧
      (prefs (keyPrefix i ++ "val") = none →
        ((begin (DynamicPattern.init ops prefs)).patterns (slotIndex i)).val_expr = "0.5")) ∧
    (prefs.isKey (keyPrefix i ++ "valid") = false →
      (begin (DynamicPattern.init ops prefs)).patterns (slotIndex i) =
        { valid := false, name := "", hue_expr := "", sat_expr := "", val_expr := "" }) := by
  have hb := begin_pattern (DynamicPattern.init ops prefs) i hi
  have hp : (DynamicPattern.init ops prefs).prefs = prefs := rfl
  rw [hp] at hb
  constructor
  · intro hv
    rw [hb, if_pos hv]
    exact ⟨fun h => getString_absent _ _ _ h, fun h => getString_absent _ _ _ h,
      fun h => getString_absent _ _ _ h⟩
  · intro hv
    rw [hb, if_neg (by rw [hv]; decide)]
    rfl

/-- C15 on the empty store and on a store holding only the key `p2_valid`. -/
theorem C15_load_defaults_witness :
    (begin dpEmpty).patterns (slotIndex 1) =
      { valid := false, name := "", hue_expr := "", sat_expr := "", val_expr := "" } ∧
    ((begin (DynamicPattern.init exactOps
      (Preferences.empty.putBool "p2_valid" true))).patterns (slotIndex 2)).hue_expr = "0" :=
  ⟨(C15_load_defaults exactOps Preferences.empty 1 (by decide)).2 rfl,
    ((C15_load_defaults exactOps (Preferences.empty.putBool "p2_valid" true) 2
      (by decide)).1 (by decide)).1 (by decide)⟩

/-- C15 as stated fails on an empty store: no key of slot 1 is present, and
after `begin` the slot holds the empty formula for hue, saturation and
brightness, not "0", "1" and "0.5". -/
theorem C15_counterexample :
    Preferences.empty (keyPrefix 1 ++ "valid") = none ∧
    Preferences.empty (keyPrefix 1 ++ "hue") = none ∧
    ((begin dpEmpty).patterns (slotIndex 1)).valid = false ∧
    ((begin dpEmpty).patterns (slotIndex 1)).hue_expr = "" ∧
    ((begin dpEmpty).patterns (slotIndex 1)).sat_expr = "" ∧
    ((begin dpEmpty).patterns (slotIndex 1)).val_expr = "" ∧
    ((begin dpEmpty).patterns (slotIndex 1)).hue_expr ≠ "0" := by
  refine ⟨rfl, rfl, by decide, by decide, by decide, by decide, by decide⟩


theorem savePattern_prefs {F : Type} (dp : DynamicPattern F) (slot : Int)
    (name hue sat val : String) (h : 1 ≤ slot ∧ slot ≤ 5) :
    (savePattern dp slot name hue sat val).2.prefs =
      ((((dp.prefs.putBool (keyPrefix slot ++ "valid") true).putString
        (keyPrefix slot ++ "name") name).putString (keyPrefix slot ++ "hue") hue).putString
        (keyPrefix slot ++ "sat") sat).putString (keyPrefix slot ++ "val") val := by
  have h1 : ¬ (slot < 1 ∨ slot > 5) := by omega
  simp [savePattern, saveToNVS, h1]

theorem keyPrefix_values :
    keyPrefix 1 = "p1_" ∧ keyPrefix 2 = "p2_" ∧ keyPrefix 3 = "p3_" ∧
    keyPrefix 4 = "p4_" ∧ keyPrefix 5 = "p5_" := by decide

/-- C16: after a successful `savePattern(slot, name, hue, sat, val)`, a fresh
object running `begin` over the same key-value store holds in that slot a valid
pattern with exactly the saved strings, and every other slot whose `valid` key
was not in the store stays invalid; the five keys written are
`p<slot>_valid`, `p<slot>_name`, `p<slot>_hue`, `p<slot>_sat`, `p<slot>_val`,
and no other key is changed. -/
theorem C16_power_cycle {F : Type} (ops : FloatOps F) (dp : DynamicPattern F) (slot : Int)
    (name hue sat val : String) (hslot : 1 ≤ slot ∧ slot ≤ 5) :
    (savePattern dp slot name hue sat val).1 = true ∧
    (begin (DynamicPattern.init ops (savePattern dp slot name hue sat val).2.prefs)).patterns
        (slotIndex slot) =
      { valid := true, name := name, hue_expr := hue, sat_expr := sat, val_expr := val } ∧
    (∀ s : Int, 1 ≤ s ∧ s ≤ 5 → s ≠ slot →
      dp.prefs.isKey (keyPrefix s ++ "valid") = false →
      ((begin (DynamicPattern.init ops
        (savePattern dp slot name hue sat val).2.prefs)).patterns (slotIndex s)).valid = false) ∧
    (savePattern dp slot name hue sat val).2.prefs ("p" ++ toString slot ++ "_valid") =
      some (PrefValue.bool true) ∧
    (savePattern dp slot name hue sat val).2.prefs ("p" ++ toString slot ++ "_name") =
      some (PrefValue.str name) ∧
    (savePattern dp slot name hue sat val).2.prefs ("p" ++ toString slot ++ "_hue") =
      some (PrefValue.str hue) ∧
    (savePattern dp slot name hue sat val).2.prefs ("p" ++ toString slot ++ "_sat") =
      some (PrefValue.str sat) ∧
    (savePattern dp slot name hue sat val).2.prefs ("p" ++ toString slot ++ "_val") =
      some (PrefValue.str val) ∧
    (∀ k : String, k ≠ "p" ++ toString slot ++ "_valid" → k ≠ "p" ++ toString slot ++ "_name" →
      k ≠ "p" ++ toString slot ++ "_hue" → k ≠ "p" ++ toString slot ++ "_sat" →
      k ≠ "p" ++ toString slot ++ "_val" →
      (savePattern dp slot name hue sat val).2.prefs k = dp.prefs k) := by
  obtain ⟨k1, k2, k3, k4, k5⟩ := keyPrefix_values
  have hs1 : (savePattern dp slot name hue sat val).1 = true := by
    have h1 : ¬ (slot < 1 ∨ slot > 5) := by omega
    simp [savePattern, h1]
  have hinit : ∀ p : Preferences, (DynamicPattern.init ops p).prefs = p := fun _ => rfl
  refine ⟨hs1, ?_, ?_, ?_⟩
  · rw [begin_pattern _ slot hslot, hinit, savePattern_prefs dp slot name hue sat val hslot]
    obtain ⟨h1, h5⟩ := hslot
    interval_cases slot <;>
      simp [k1, k2, k3, k4, k5, Preferences.isKey, Preferences.getBool, Preferences.getString,
        Preferences.putBool, Preferences.putString]
  · intro s hs hne hkey
    rw [begin_pattern _ s hs, hinit, savePattern_prefs dp slot name hue sat val hslot]
    have hdef : ((DynamicPattern.init ops (((((dp.prefs.putBool (keyPrefix slot ++ "valid")
        true).putString (keyPrefix slot ++ "name") name).putString (keyPrefix slot ++ "hue")
        hue).putString (keyPrefix slot ++ "sat") sat).putString (keyPrefix slot ++ "val")
        val)).patterns (slotIndex s)).valid = false := rfl
    obtain ⟨h1, h5⟩ := hslot
    obtain ⟨g1, g5⟩ := hs
    have hkey' : dp.prefs (keyPrefix s ++ "valid") = none := by
      simpa [Preferences.isKey] using hkey
    interval_cases slot <;> interval_cases s <;>
      first
      | exact absurd rfl hne
      | (simp only [k1, k2, k3, k4, k5, String.reduceAppend] at hkey' ⊢
         simp [Preferences.isKey, Preferences.putBool, Preferences.putString, hkey',
           DynamicPattern.init])
  · have hkp : "p" ++ toString slot ++ "_" = keyPrefix slot := rfl
    have hsplit : ∀ suf : String, "p" ++ toString slot ++ ("_" ++ suf) =
        keyPrefix slot ++ suf := by
      intro suf
      rw [← hkp]
      simp only [String.append_assoc]
    have e1 : "p" ++ toString slot ++ "_valid" = keyPrefix slot ++ "valid" := hsplit "valid"
    have e2 : "p" ++ toString slot ++ "_name" = keyPrefix slot ++ "name" := hsplit "name"
    have e3 : "p" ++ toString slot ++ "_hue" = keyPrefix slot ++ "hue" := hsplit "hue"
    have e4 : "p" ++ toString slot ++ "_sat" = keyPrefix slot ++ "sat" := hsplit "sat"
    have e5 : "p" ++ toString slot ++ "_val" = keyPrefix slot ++ "val" := hsplit "val"
    rw [e1, e2, e3, e4, e5, savePattern_prefs dp slot name hue sat val hslot]
    obtain ⟨h1, h5⟩ := hslot
    refine ⟨?_, ?_, ?_, ?_, ?_, ?_⟩
    · interval_cases slot <;>
        simp [k1, k2, k3, k4, k5, Preferences.putBool, Preferences.putString]
    · interval_cases slot <;>
        simp [k1, k2, k3, k4, k5, Preferences.putBool, Preferences.putString]
    · interval_cases slot <;>
        simp [k1, k2, k3, k4, k5, Preferences.putBool, Preferences.putString]
    · interval_cases slot <;>
        simp [k1, k2, k3, k4, k5, Preferences.putBool, Preferences.putString]
    · simp [Preferences.putBool, Preferences.putString]
    · intro k n1 n2 n3 n4 n5
      simp [Preferences.putBool, Preferences.putString, n1, n2, n3, n4, n5]

/-- C16 at slot 3 over the empty store: the keys are `p3_valid` .. `p3_val`. -/
theorem C16_power_cycle_witness :
    ((1 : Int) ≤ 3 ∧ (3 : Int) ≤ 5) ∧
    (begin (DynamicPattern.init exactOps
      (savePattern dpEmpty 3 "wave" "theta+t" "1" "0.5").2.prefs)).patterns (slotIndex 3) =
      { valid := true, name := "wave", hue_expr := "theta+t", sat_expr := "1",
        val_expr := "0.5" } ∧
    (savePattern dpEmpty 3 "wave" "theta+t" "1" "0.5").2.prefs "p3_hue" =
      some (PrefValue.str "theta+t") :=
  ⟨by decide,
    (C16_power_cycle exactOps dpEmpty 3 "wave" "theta+t" "1" "0.5" (by decide)).2.1,
    (C16_power_cycle exactOps dpEmpty 3 "wave" "theta+t" "1" "0.5" (by decide)).2.2.2.2.2.1⟩


/-! ## C12 and C20: the blink phase -/

section
variable {F : Type} (ops : FloatOps F)

/-- The button logic does not touch the blink sub-state. -/
theorem buttonStep_blink (ec : EyeController F) (leds : List CRGB) (inp : TickInput) :
    (buttonStep ops ec leds inp).1.phase = ec.phase ∧
    (buttonStep ops ec leds inp).1.phaseStart = ec.phaseStart ∧
    (buttonStep ops ec leds inp).1.nextDue = ec.nextDue ∧
    (buttonStep ops ec leds inp).1.pendingDouble = ec.pendingDouble ∧
    (buttonStep ops ec leds inp).1.cfg = ec.cfg := by
  unfold buttonStep
  dsimp only
  split_ifs <;> exact ⟨rfl, rfl, rfl, rfl, rfl⟩

/-- One run of the blink logic keeps the phase or moves it to its successor. -/
theorem blinkStep_phase (rnd : Random) (ec : EyeController F) (now : Nat) :
    (EyeController.blinkStep rnd ec now).1.phase = ec.phase ∨
    (EyeController.blinkStep rnd ec now).1.phase = ec.phase.next := by
  unfold EyeController.blinkStep
  cases hp : ec.phase <;> dsimp only <;> split_ifs <;>
    simp [EyeController.startPhase, EyeController.scheduleNextBlink, BlinkPhase.next, hp]

/-- One call of `update` keeps the phase or moves it to its successor. -/
theorem update_phase (hsv2rgb : Nat → Nat → Nat → CRGB) (port : List Char → F)
    (rnd : Random) (ec : EyeController F) (leds : List CRGB) (inp : TickInput) :
    (EyeController.update ops hsv2rgb port rnd ec leds inp).1.phase = ec.phase ∨
    (EyeController.update ops hsv2rgb port rnd ec leds inp).1.phase = ec.phase.next := by
  have hb := (buttonStep_blink ops ec leds inp).1
  unfold EyeController.update
  dsimp only
  split_ifs
  · exact Or.inl rfl
  · exact Or.inl hb
  · exact Or.inl hb
  · have := blinkStep_phase rnd (buttonStep ops ec leds inp).1 inp.now
    rw [hb] at this
    exact this

end

/-- C12: one render step (`EyeController::update`, in blink mode or not) leaves
the blink phase unchanged or advances it to its immediate successor in the
cycle Idle, Closing, Hold, Opening, Idle; hence over any sequence of render
calls each phase in the trace is followed by itself or by its successor, a
phase left from Closing is Hold, and Closing is entered from Idle only. -/
theorem C12_blink_phase_cyclic {F : Type} (ops : FloatOps F)
    (hsv2rgb : Nat → Nat → Nat → CRGB) (port : List Char → F) (rnd : Random) :
    (∀ (ec : EyeController F) (leds : List CRGB) (inp : TickInput),
      (EyeController.update ops hsv2rgb port rnd ec leds inp).1.phase = ec.phase ∨
      (EyeController.update ops hsv2rgb port rnd ec leds inp).1.phase = ec.phase.next) ∧
    (∀ (ec : EyeController F) (leds : List CRGB) (inps : List TickInput),
      List.Chain' (fun a b => b = a ∨ b = BlinkPhase.next a)
        (phaseTrace ops hsv2rgb port rnd ec leds inps)) ∧
    (∀ (ec : EyeController F) (leds : List CRGB) (inp : TickInput),
      ec.phase = BlinkPhase.Closing →
      (EyeController.update ops hsv2rgb port rnd ec leds inp).1.phase ≠ BlinkPhase.Closing →
      (EyeController.update ops hsv2rgb port rnd ec leds inp).1.phase = BlinkPhase.Hold) ∧
    (∀ (ec : EyeController F) (leds : List CRGB) (inp : TickInput),
      ec.phase ≠ BlinkPhase.Closing →
      (EyeController.update ops hsv2rgb port rnd ec leds inp).1.phase = BlinkPhase.Closing →
      ec.phase = BlinkPhase.Idle) := by
  refine ⟨update_phase ops hsv2rgb port rnd, ?_, ?_, ?_⟩
  · intro ec leds inps
    induction inps generalizing ec leds with
    | nil => simp [phaseTrace]
    | cons inp rest ih =>
      rw [phaseTrace]
      have hrest := ih (EyeController.update ops hsv2rgb port rnd ec leds inp).1
        (EyeController.update ops hsv2rgb port rnd ec leds inp).2.1
      refine List.Chain'.cons' hrest ?_
      intro b hb
      have hhead : b = (EyeController.update ops hsv2rgb port rnd ec leds inp).1.phase := by
        cases rest with
        | nil => simpa [phaseTrace] using hb.symm
        | cons i2 r2 => simpa [phaseTrace] using hb.symm
      rw [hhead]
      exact update_phase ops hsv2rgb port rnd ec leds inp
  · intro ec leds inp hc hne
    rcases update_phase ops hsv2rgb port rnd ec leds inp with h | h
    · exact absurd (h.trans hc) hne
    · rw [h, hc]; rfl
  · intro ec leds inp hne hc
    rcases update_phase ops hsv2rgb port rnd ec leds inp with h | h
    · exact absurd (h.symm.trans hc) hne
    · rw [hc] at h
      cases hp : ec.phase <;> rw [hp] at h <;> simp [BlinkPhase.next] at h

/-- A render call made with the button released, as it was at the call before,
leaves power and pattern engine to the rest of `update`. -/
theorem buttonStep_released {F : Type} (ops : FloatOps F) (ec : EyeController F)
    (leds : List CRGB) (inp : TickInput) (h1 : inp.btnState = true)
    (h2 : ec.lastBtnState = true) :
    (buttonStep ops ec leds inp).1.powerOn = ec.powerOn ∧
    (buttonStep ops ec leds inp).1.dynamicPattern = ec.dynamicPattern := by
  unfold buttonStep
  simp [h1, h2]

/-- C20 (amended): `executePattern`, whatever its slot and its result, leaves
the blink sub-state (phase, phase start, next due time, pending double flag)
as it was; so does every render step of a controller that is not initialised,
every render step that after its own button handling finds the power off or a
dynamic pattern active, and in particular every render step without button
activity taken while the power is off or a pattern is active.  A render step
whose button handling stops the running pattern runs the blink logic at once:
with slot 5 running, the button release that cycles to stopped moves the phase
from Idle to Closing in the same step. -/
theorem C20_blink_state_kept {F : Type} (ops : FloatOps F)
    (hsv2rgb : Nat → Nat → Nat → CRGB) (port : List Char → F) (rnd : Random)
    (ec : EyeController F) :
    (∀ (slot : Int) (d : F) (millis : Nat),
      (EyeController.executePattern ec slot d millis).2.phase = ec.phase ∧
      (EyeController.executePattern ec slot d millis).2.phaseStart = ec.phaseStart ∧
      (EyeController.executePattern ec slot d millis).2.nextDue = ec.nextDue ∧
      (EyeController.executePattern ec slot d millis).2.pendingDouble = ec.pendingDouble) ∧
    (∀ (leds : List CRGB) (inp : TickInput),
      (ec.inited = false ∨ (buttonStep ops ec leds inp).1.powerOn = false ∨
        isActive (buttonStep ops ec leds inp).1.dynamicPattern = true) →
      (EyeController.update ops hsv2rgb port rnd ec leds inp).1.phase = ec.phase ∧
      (EyeController.update ops hsv2rgb port rnd ec leds inp).1.phaseStart = ec.phaseStart ∧
      (EyeController.update ops hsv2rgb port rnd ec leds inp).1.nextDue = ec.nextDue ∧
      (EyeController.update ops hsv2rgb port rnd ec leds inp).1.pendingDouble =
        ec.pendingDouble) ∧
    (∀ (leds : List CRGB) (inp : TickInput),
      inp.btnState = true → ec.lastBtnState = true →
      (ec.inited = false ∨ ec.powerOn = false ∨ isActive ec.dynamicPattern = true) →
      (EyeController.update ops hsv2rgb port rnd ec leds inp).1.phase = ec.phase ∧
      (EyeController.update ops hsv2rgb port rnd ec leds inp).1.phaseStart = ec.phaseStart ∧
      (EyeController.update ops hsv2rgb port rnd ec leds inp).1.nextDue = ec.nextDue ∧
      (EyeController.update ops hsv2rgb port rnd ec leds inp).1.pendingDouble =
        ec.pendingDouble) ∧
    (isActive ecPattern5.dynamicPattern = true ∧ ecPattern5.phase = BlinkPhase.Idle ∧
      isActive (EyeController.update exactOps hsvGray ctx0.port rndLow ecPattern5 ledsWhite
        ⟨400, true, 400⟩).1.dynamicPattern = false ∧
      (EyeController.update exactOps hsvGray ctx0.port rndLow ecPattern5 ledsWhite
        ⟨400, true, 400⟩).1.phase = BlinkPhase.Closing) := by
  have key : ∀ (leds : List CRGB) (inp : TickInput),
      (ec.inited = false ∨ (buttonStep ops ec leds inp).1.powerOn = false ∨
        isActive (buttonStep ops ec leds inp).1.dynamicPattern = true) →
      (EyeController.update ops hsv2rgb port rnd ec leds inp).1.phase = ec.phase ∧
      (EyeController.update ops hsv2rgb port rnd ec leds inp).1.phaseStart = ec.phaseStart ∧
      (EyeController.update ops hsv2rgb port rnd ec leds inp).1.nextDue = ec.nextDue ∧
      (EyeController.update ops hsv2rgb port rnd ec leds inp).1.pendingDouble =
        ec.pendingDouble := by
    intro leds inp hidle
    obtain ⟨b1, b2, b3, b4, _⟩ := buttonStep_blink ops ec leds inp
    unfold EyeController.update
    dsimp only
    split_ifs with h1 h2 h3
    · exact ⟨rfl, rfl, rfl, rfl⟩
    · exact ⟨b1, b2, b3, b4⟩
    · exact ⟨b1, b2, b3, b4⟩
    · rcases hidle with h | h | h
      · exact absurd h h1
      · exact absurd h h2
      · exact absurd h h3
  refine ⟨?_, key, ?_, ?_⟩
  · intro slot d millis
    exact ⟨rfl, rfl, rfl, rfl⟩
  · intro leds inp hb1 hb2 hidle
    obtain ⟨e1, e2⟩ := buttonStep_released ops ec leds inp hb1 hb2
    apply key
    rw [e1, e2]
    exact hidle
  · exact ⟨by decide, rfl, by decide, by decide⟩

/-- C20 as stated fails: a controller in the middle of closing the lids is
still in phase Closing after `executePattern(0, d)` and after the successful
`executePattern(6, d)`. -/
theorem C20_counterexample :
    ecClosing.phase = BlinkPhase.Closing ∧
    (EyeController.executePattern ecClosing 0 (Val.num 0) 500).1 = true ∧
    (EyeController.executePattern ecClosing 0 (Val.num 0) 500).2.phase = BlinkPhase.Closing ∧
    (EyeController.executePattern ecClosing 6 (Val.num 0) 500).1 = true ∧
    (EyeController.executePattern ecClosing 6 (Val.num 0) 500).2.phase = BlinkPhase.Closing ∧
    (EyeController.executePattern ecClosing 6 (Val.num 0) 500).2.phase ≠ BlinkPhase.Idle := by
  refine ⟨rfl, by decide, by decide, by decide, by decide, by decide⟩


/-! ## C13: hue normalization in exact arithmetic -/

theorem truncQ_nonneg {q : ℚ} (h : 0 ≤ q) : ((Val.truncQ q : Int) : ℚ) ≤ q ∧
    q < (Val.truncQ q : Int) + 1 ∧ 0 ≤ Val.truncQ q := by
  have hf : Rat.floor q = ⌊q⌋ := rfl
  simp only [Val.truncQ, h, if_true, hf]
  exact ⟨Int.floor_le q, Int.lt_floor_add_one q, Int.floor_nonneg.mpr h⟩

theorem truncQ_neg {q : ℚ} (h : q < 0) : q ≤ ((Val.truncQ q : Int) : ℚ) ∧
    ((Val.truncQ q : Int) : ℚ) < q + 1 := by
  have hf : Rat.floor (-q) = ⌊-q⌋ := rfl
  have hn : ¬ (0 ≤ q) := not_le.mpr h
  simp only [Val.truncQ, hn, if_false, hf]
  have h1 := Int.floor_le (-q)
  have h2 := Int.lt_floor_add_one (-q)
  push_cast
  constructor <;> linarith

/-- The remainder of exact `fmod` by a positive divisor lies strictly between
minus the divisor and the divisor, and has the sign of the dividend. -/
theorem fmod_exact_bounds (q T : ℚ) (hT : 0 < T) :
    (0 ≤ q → 0 ≤ q - T * (Val.truncQ (q / T) : ℚ) ∧ q - T * (Val.truncQ (q / T) : ℚ) < T) ∧
    (q < 0 → -T < q - T * (Val.truncQ (q / T) : ℚ) ∧ q - T * (Val.truncQ (q / T) : ℚ) ≤ 0) := by
  constructor
  · intro hq
    obtain ⟨h1, h2, _⟩ := truncQ_nonneg (div_nonneg hq hT.le)
    have e : q = T * (q / T) := by field_simp
    constructor
    · have := mul_le_mul_of_nonneg_left h1 hT.le
      linarith
    · have := mul_lt_mul_of_pos_left h2 hT
      linarith
  · intro hq
    obtain ⟨h1, h2⟩ := truncQ_neg (div_neg_of_neg_of_pos hq hT)
    have e : q = T * (q / T) := by field_simp
    constructor
    · have := mul_lt_mul_of_pos_left h2 hT
      linarith
    · have := mul_le_mul_of_nonneg_left h1 hT.le
      linarith

/-- Without rounding the normalization is right: in exact arithmetic, for
every raw hue that is a number, the normalized hue `h'` computed by `update`
satisfies `0 <= h' < 2*pi`, and the hue byte lies in 0..254. -/
theorem normalizeHue_exact_range (q : ℚ) :
    ∃ r : ℚ, normalizeHue exactOps (Val.num q) = Val.num r ∧
      0 ≤ r ∧ r < 13176795 / 2097152 ∧
      exactOps.le exactOps.zero (normalizeHue exactOps (Val.num q)) = true ∧
      exactOps.lt (normalizeHue exactOps (Val.num q)) exactOps.twoPi = true ∧
      hueByte exactOps (normalizeHue exactOps (Val.num q)) ≤ 254 := by
  have hT : (0 : ℚ) < 13176795 / 2097152 := by norm_num
  have hT0 : ¬ ((13176795 : ℚ) / 2097152 = 0) := by norm_num
  obtain ⟨hpos, hneg⟩ := fmod_exact_bounds q (13176795 / 2097152) hT
  have hfm : exactOps.fmod (Val.num q) exactOps.twoPi =
      Val.num (q - 13176795 / 2097152 * (Val.truncQ (q / (13176795 / 2097152)) : ℚ)) := by
    simp only [exactOps, Val.fmodV, hT0, if_false]
  have key : ∃ r : ℚ, normalizeHue exactOps (Val.num q) = Val.num r ∧ 0 ≤ r ∧
      r < 13176795 / 2097152 := by
    unfold normalizeHue
    rw [hfm]
    by_cases hr : q - 13176795 / 2097152 * (Val.truncQ (q / (13176795 / 2097152)) : ℚ) < 0
    · have hq : q < 0 := by
        by_contra hq
        exact absurd (hpos (not_lt.mp hq)).1 (not_le.mpr hr)
      refine ⟨q - 13176795 / 2097152 * (Val.truncQ (q / (13176795 / 2097152)) : ℚ)
        + 13176795 / 2097152, ?_, ?_, ?_⟩
      · simp [exactOps, Val.liftRel, Val.lift2, hr]
      · linarith [(hneg hq).1]
      · linarith
    · refine ⟨q - 13176795 / 2097152 * (Val.truncQ (q / (13176795 / 2097152)) : ℚ), ?_, ?_, ?_⟩
      · simp [exactOps, Val.liftRel, hr]
      · exact not_lt.mp hr
      · by_cases hq : 0 ≤ q
        · exact (hpos hq).2
        · linarith [(hneg (not_le.mp hq)).2]
  obtain ⟨r, hr, h0, h1⟩ := key
  refine ⟨r, hr, h0, h1, ?_, ?_, ?_⟩
  · rw [hr]; simp [exactOps, Val.liftRel, h0]
  · rw [hr]; simp [exactOps, Val.liftRel, h1]
  · rw [hr]
    have hx0 : 0 ≤ r / (13176795 / 2097152) * 255 := by positivity
    have hx1 : r / (13176795 / 2097152) * 255 < 255 := by
      have : r / (13176795 / 2097152) < 1 := (div_lt_one hT).mpr h1
      linarith
    obtain ⟨t1, t2, t3⟩ := truncQ_nonneg hx0
    have hlt : ((Val.truncQ (r / (13176795 / 2097152) * 255) : Int) : ℚ) < 255 := by linarith
    have hlt' : Val.truncQ (r / (13176795 / 2097152) * 255) < 255 := by exact_mod_cast hlt
    simp only [hueByte, exactOps, Val.divV, hT0, if_false, Val.lift2, Val.toUInt8V]
    omega

/-- C13: in single precision the normalization can return `2*pi` itself.  The
hue formula `0-0.00000001` evaluates to a tiny negative number, `fmod` leaves
it unchanged, and adding `2*pi` rounds back to `2*pi`: the normalized hue is
not below `2*pi` and the hue byte the pixel gets is 255.  The same happens in
every float arithmetic that absorbs the remainder in the sum, and a hue that
is not-a-number stays so. -/
theorem C13_hue_reaches_two_pi :
    (∀ (F : Type) (ops : FloatOps F) (h : F),
      ops.lt (ops.fmod h ops.twoPi) ops.zero = true →
      ops.add (ops.fmod h ops.twoPi) ops.twoPi = ops.twoPi →
      normalizeHue ops h = ops.twoPi) ∧
    eval (f32Ops libmNone) ctxF0 "0-0.00000001".toList =
      some (Fl.fin (-11258999 / 1125899906842624)) ∧
    (f32Ops libmNone).fmod (Fl.fin (-11258999 / 1125899906842624)) (f32Ops libmNone).twoPi =
      Fl.fin (-11258999 / 1125899906842624) ∧
    normalizeHue (f32Ops libmNone) (Fl.fin (-11258999 / 1125899906842624)) =
      (f32Ops libmNone).twoPi ∧
    (f32Ops libmNone).lt (normalizeHue (f32Ops libmNone)
      (Fl.fin (-11258999 / 1125899906842624))) (f32Ops libmNone).twoPi = false ∧
    hueByte (f32Ops libmNone) (normalizeHue (f32Ops libmNone)
      (Fl.fin (-11258999 / 1125899906842624))) = 255 ∧
    pixelColor (f32Ops libmNone) hsvRaw ctxF0.port patTinyNegative (Fl.fin 0) 0 =
      ⟨255, 255, 127⟩ ∧
    (∀ lib : Libm, normalizeHue (f32Ops lib) Fl.nan = Fl.nan) := by
  refine ⟨?_, by decide!, by decide!, by decide!, by decide!, by decide!, by decide!, ?_⟩
  · intro F ops h hlt hadd
    unfold normalizeHue
    simp only [hlt, if_true]
    exact hadd
  · intro lib
    rfl

/-! ## Comparisons and logical operators: building blocks -/

section
variable {F : Type} (ops : FloatOps F) (ctx : EvalCtx F) (expr : List Char)

theorem parseComparison_mono {n m pos : Nat} {r : F × Nat} (hle : n ≤ m)
    (h : parseComparison ops ctx expr n pos = some r) :
    parseComparison ops ctx expr m pos = some r :=
  mono_of_succ (fun n pos => parseComparison ops ctx expr n pos)
    (fun n => (parse_mono_succ ops ctx expr n).2.2.2.2.1) hle h

theorem parseLogicalAnd_mono {n m pos : Nat} {r : F × Nat} (hle : n ≤ m)
    (h : parseLogicalAnd ops ctx expr n pos = some r) :
    parseLogicalAnd ops ctx expr m pos = some r :=
  mono_of_succ (fun n pos => parseLogicalAnd ops ctx expr n pos)
    (fun n => (parse_mono_succ ops ctx expr n).2.2.1) hle h

theorem logicalAndLoop_mono {n m pos : Nat} {v : F} {r : F × Nat} (hle : n ≤ m)
    (h : logicalAndLoop ops ctx expr n v pos = some r) :
    logicalAndLoop ops ctx expr m v pos = some r :=
  mono_of_succ (fun n (a : F × Nat) => logicalAndLoop ops ctx expr n a.1 a.2)
    (fun n a => (parse_mono_succ ops ctx expr n).2.2.2.1 a.1 a.2)
    (a := (v, pos)) hle h

theorem logicalOrLoop_mono {n m pos : Nat} {v : F} {r : F × Nat} (hle : n ≤ m)
    (h : logicalOrLoop ops ctx expr n v pos = some r) :
    logicalOrLoop ops ctx expr m v pos = some r :=
  mono_of_succ (fun n (a : F × Nat) => logicalOrLoop ops ctx expr n a.1 a.2)
    (fun n a => (parse_mono_succ ops ctx expr n).2.1 a.1 a.2)
    (a := (v, pos)) hle h

/-- Where no operand starts, `_parseFactor` yields 0 and reads nothing. -/
theorem factorAt_missing {pos : Nat} (hsp : isspace (peek expr pos) = false)
    (h1 : peek expr pos ≠ '!') (h2 : peek expr pos ≠ '-') (h3 : peek expr pos ≠ '(')
    (h4 : isNumChar (peek expr pos) = false) (h5 : isalpha (peek expr pos) = false)
    (h6 : peek expr pos ≠ '_') :
    FactorAt ops ctx expr pos ops.zero pos := by
  have h4' : ¬ (isdigit (peek expr pos) = true ∨ peek expr pos = '.') := by
    intro h
    have : isNumChar (peek expr pos) = true := by
      rcases h with h | h
      · simp [isNumChar, h]
      · simp [isNumChar, h]
    rw [h4] at this; cases this
  have h5' : ¬ (isalpha (peek expr pos) = true ∨ peek expr pos = '_') := by
    intro h
    rcases h with h | h
    · rw [h5] at h; cases h
    · exact h6 h
  refine ⟨2, fun n hn => ?_⟩
  obtain ⟨m, rfl⟩ : ∃ m, n = m + 2 := ⟨n - 2, by omega⟩
  rw [parseFactor]
  simp only [skipWhitespace_eq_self hsp, h1, if_false]
  rw [parseUnary]
  simp only [skipWhitespace_eq_self hsp, h2, h3, h4', h5', if_false]

/-- At the end of the text `_parseFactor` yields 0. -/
theorem factorAt_end {pos : Nat} (h : expr.drop pos = []) :
    FactorAt ops ctx expr pos ops.zero pos := by
  have hp := peek_of_drop_nil h
  exact factorAt_missing ops ctx expr (by rw [hp]; decide) (by rw [hp]; decide)
    (by rw [hp]; decide) (by rw [hp]; decide) (by rw [hp]; decide) (by rw [hp]; decide)
    (by rw [hp]; decide)

/-- A sum whose loop stops is what `_parseExpression` returns. -/
theorem exprAt_done {pos p : Nat} {v : F} (h : ExprAt ops ctx expr pos v p)
    (hsp : isspace (peek expr p) = false) (h1 : peek expr p ≠ '+') (h2 : peek expr p ≠ '-') :
    ∃ N, ∀ n, N ≤ n → parseExpression ops ctx expr n pos = some (v, p) :=
  h 1 (v, p) (expressionLoop_stop ops ctx expr hsp h1 h2 0 v)

/-- At the end of the text `_parseExpression` yields 0. -/
theorem exprAt_end {pos : Nat} (h : expr.drop pos = []) :
    ExprAt ops ctx expr pos ops.zero pos := by
  have hp := peek_of_drop_nil h
  exact exprAt_of_termAt ops ctx expr
    (termAt_of_factorAt ops ctx expr (factorAt_end ops ctx expr h))
    (by rw [hp]; decide) (by rw [hp]; decide) (by rw [hp]; decide) (by rw [hp]; decide)

/-- A sum followed by no comparison operator is what `_parseComparison`
returns. -/
theorem cmpAt_of_exprAt {pos p : Nat} {v : F} (h : ExprAt ops ctx expr pos v p)
    (hsp : isspace (peek expr p) = false) (h1 : peek expr p ≠ '+') (h2 : peek expr p ≠ '-')
    (h3 : peek expr p ≠ '<') (h4 : peek expr p ≠ '>') (h5 : peek expr p ≠ '=')
    (h6 : peek expr p ≠ '!') :
    CmpAt ops ctx expr pos v p := by
  obtain ⟨N, hN⟩ := exprAt_done ops ctx expr h hsp h1 h2
  refine ⟨N + 1, fun n hn => ?_⟩
  obtain ⟨m, rfl⟩ : ∃ m, n = m + 1 := ⟨n - 1, by omega⟩
  rw [parseComparison, parseExpression_skip, hN m (by omega)]
  simp only [skipWhitespace_eq_self hsp, h3, h4, h5, h6, or_self, if_false]

/-- Two sums around `<=`, `>=`, `==` or `!=`, whatever follows the second. -/
theorem cmpAt_two_open {pos p1 p2 : Nat} {vl vr v : F} {op1 : Char}
    (hl : ExprAt ops ctx expr pos vl p1) (hop1 : peek expr p1 = op1)
    (hop : op1 = '<' ∨ op1 = '>' ∨ op1 = '=' ∨ op1 = '!')
    (hop2 : peek expr (p1 + 1) = '=')
    (hr : ExprAt ops ctx expr (p1 + 2) vr p2)
    (hsp2 : isspace (peek expr p2) = false)
    (hplus2 : peek expr p2 ≠ '+') (hminus2 : peek expr p2 ≠ '-')
    (hv : compare2 ops op1 vl vr = some v) :
    CmpAt ops ctx expr pos v p2 := by
  have hsp1 : isspace (peek expr p1) = false := by
    rw [hop1]; rcases hop with h | h | h | h <;> subst h <;> decide
  have hplus : peek expr p1 ≠ '+' := by
    rw [hop1]; rcases hop with h | h | h | h <;> subst h <;> decide
  have hminus : peek expr p1 ≠ '-' := by
    rw [hop1]; rcases hop with h | h | h | h <;> subst h <;> decide
  obtain ⟨N1, hN1⟩ := exprAt_done ops ctx expr hl hsp1 hplus hminus
  obtain ⟨N2, hN2⟩ := exprAt_done ops ctx expr hr hsp2 hplus2 hminus2
  refine ⟨max N1 N2 + 1, fun n hn => ?_⟩
  obtain ⟨m, rfl⟩ : ∃ m, n = m + 1 := ⟨n - 1, by omega⟩
  have htwo : (op1 = '<' ∧ peek expr (p1 + 1) = '=') ∨ (op1 = '>' ∧ peek expr (p1 + 1) = '=') ∨
      (op1 = '=' ∧ peek expr (p1 + 1) = '=') ∨ (op1 = '!' ∧ peek expr (p1 + 1) = '=') := by
    rcases hop with h | h | h | h
    · exact Or.inl ⟨h, hop2⟩
    · exact Or.inr (Or.inl ⟨h, hop2⟩)
    · exact Or.inr (Or.inr (Or.inl ⟨h, hop2⟩))
    · exact Or.inr (Or.inr (Or.inr ⟨h, hop2⟩))
  rw [parseComparison, parseExpression_skip, hN1 m (by omega)]
  simp only [skipWhitespace_eq_self hsp1, hop1, hop, htwo, if_true]
  rw [hN2 m (by omega)]
  simp only [hv]

/-- Two sums around `<` or `>`, whatever follows the second. -/
theorem cmpAt_one_open {pos p1 p2 : Nat} {vl vr v : F} {op1 : Char}
    (hl : ExprAt ops ctx expr pos vl p1) (hop1 : peek expr p1 = op1)
    (hop : op1 = '<' ∨ op1 = '>')
    (hop2 : peek expr (p1 + 1) ≠ '=')
    (hr : ExprAt ops ctx expr (p1 + 1) vr p2)
    (hsp2 : isspace (peek expr p2) = false)
    (hplus2 : peek expr p2 ≠ '+') (hminus2 : peek expr p2 ≠ '-')
    (hv : compare1 ops op1 vl vr = some v) :
    CmpAt ops ctx expr pos v p2 := by
  have hsp1 : isspace (peek expr p1) = false := by
    rw [hop1]; rcases hop with h | h <;> subst h <;> decide
  have hplus : peek expr p1 ≠ '+' := by
    rw [hop1]; rcases hop with h | h <;> subst h <;> decide
  have hminus : peek expr p1 ≠ '-' := by
    rw [hop1]; rcases hop with h | h <;> subst h <;> decide
  obtain ⟨N1, hN1⟩ := exprAt_done ops ctx expr hl hsp1 hplus hminus
  obtain ⟨N2, hN2⟩ := exprAt_done ops ctx expr hr hsp2 hplus2 hminus2
  refine ⟨max N1 N2 + 1, fun n hn => ?_⟩
  obtain ⟨m, rfl⟩ : ∃ m, n = m + 1 := ⟨n - 1, by omega⟩
  have hany : op1 = '<' ∨ op1 = '>' ∨ op1 = '=' ∨ op1 = '!' := by
    rcases hop with h | h
    · exact Or.inl h
    · exact Or.inr (Or.inl h)
  have hnot : ¬ ((op1 = '<' ∧ peek expr (p1 + 1) = '=') ∨
      (op1 = '>' ∧ peek expr (p1 + 1) = '=') ∨
      (op1 = '=' ∧ peek expr (p1 + 1) = '=') ∨ (op1 = '!' ∧ peek expr (p1 + 1) = '=')) := by
    rintro (h | h | h | h) <;> exact hop2 h.2
  rw [parseComparison, parseExpression_skip, hN1 m (by omega)]
  simp only [skipWhitespace_eq_self hsp1, hop1, hany, hnot, hop, if_true, if_false]
  rw [hN2 m (by omega)]
  simp only [hv]

theorem andAt_of_cmpAt {pos p : Nat} {v : F} (h : CmpAt ops ctx expr pos v p) :
    AndAt ops ctx expr pos v p := by
  intro k r hk
  obtain ⟨N, hN⟩ := h
  refine ⟨max N k + 1, fun n hn => ?_⟩
  obtain ⟨m, rfl⟩ : ∃ m, n = m + 1 := ⟨n - 1, by omega⟩
  rw [parseLogicalAnd, parseComparison_skip, hN m (by omega)]
  exact logicalAndLoop_mono ops ctx expr (by omega) hk

/-- One more operand of `&&`. -/
theorem andAt_step {pos p1 p2 : Nat} {vl vr : F}
    (hl : AndAt ops ctx expr pos vl p1) (hsp : isspace (peek expr p1) = false)
    (hop1 : peek expr p1 = '&') (hop2 : peek expr (p1 + 1) = '&')
    (hr : CmpAt ops ctx expr (p1 + 2) vr p2) :
    AndAt ops ctx expr pos (boolVal ops (ops.ne0 vl && ops.ne0 vr)) p2 := by
  intro k r hk
  obtain ⟨N, hN⟩ := hr
  apply hl (max N k + 1) r
  rw [logicalAndLoop]
  simp only [skipWhitespace_eq_self hsp, hop1, hop2, and_self, if_true]
  rw [hN _ (Nat.le_max_left N k)]
  exact logicalAndLoop_mono ops ctx expr (Nat.le_max_right N k) hk

/-- A conjunction whose loop stops is what `_parseLogicalAnd` returns. -/
theorem andAt_done {pos p : Nat} {v : F} (h : AndAt ops ctx expr pos v p)
    (hsp : isspace (peek expr p) = false) (h1 : peek expr p ≠ '&') :
    ∃ N, ∀ n, N ≤ n → parseLogicalAnd ops ctx expr n pos = some (v, p) := by
  apply h 1 (v, p)
  rw [logicalAndLoop]
  simp only [skipWhitespace_eq_self hsp, h1, false_and, if_false]

theorem orLoopAt_of_and {pos p : Nat} {v : F}
    (h : ∃ N, ∀ n, N ≤ n → parseLogicalAnd ops ctx expr n pos = some (v, p)) :
    OrLoopAt ops ctx expr pos v p := by
  intro k r hk
  obtain ⟨N, hN⟩ := h
  refine ⟨max N k + 1, fun n hn => ?_⟩
  obtain ⟨m, rfl⟩ : ∃ m, n = m + 1 := ⟨n - 1, by omega⟩
  rw [parseLogicalOr, parseLogicalAnd_skip, hN m (by omega)]
  exact logicalOrLoop_mono ops ctx expr (by omega) hk

/-- One more operand of `||`. -/
theorem orLoopAt_step {pos p1 p2 : Nat} {vl vr : F}
    (hl : OrLoopAt ops ctx expr pos vl p1) (hsp : isspace (peek expr p1) = false)
    (hop1 : peek expr p1 = '|') (hop2 : peek expr (p1 + 1) = '|')
    (hr : ∃ N, ∀ n, N ≤ n → parseLogicalAnd ops ctx expr n (p1 + 2) = some (vr, p2)) :
    OrLoopAt ops ctx expr pos (boolVal ops (ops.ne0 vl || ops.ne0 vr)) p2 := by
  intro k r hk
  obtain ⟨N, hN⟩ := hr
  apply hl (max N k + 1) r
  rw [logicalOrLoop]
  simp only [skipWhitespace_eq_self hsp, hop1, hop2, and_self, if_true]
  rw [hN _ (Nat.le_max_left N k)]
  exact logicalOrLoop_mono ops ctx expr (Nat.le_max_right N k) hk

/-- A disjunction whose loop stops is what `_parseLogicalOr` returns. -/
theorem orAt_done {pos p : Nat} {v : F} (h : OrLoopAt ops ctx expr pos v p)
    (hsp : isspace (peek expr p) = false) (h1 : peek expr p ≠ '|') :
    OrAt ops ctx expr pos v p := by
  apply h 1 (v, p)
  rw [logicalOrLoop]
  simp only [skipWhitespace_eq_self hsp, h1, false_and, if_false]

/-- A comparison after which neither `&&` nor `||` follows is what
`_parseLogicalOr` returns, whatever else follows. -/
theorem orAt_of_cmpAt_open {pos p : Nat} {v : F} (h : CmpAt ops ctx expr pos v p)
    (hsp : isspace (peek expr p) = false) (h1 : peek expr p ≠ '&') (h2 : peek expr p ≠ '|') :
    OrAt ops ctx expr pos v p :=
  orAt_done ops ctx expr
    (orLoopAt_of_and ops ctx expr
      (andAt_done ops ctx expr (andAt_of_cmpAt ops ctx expr h) hsp h1)) hsp h2

end

/-! ## Texts as operands of comparisons and logical operators -/

section
variable {F : Type} (ops : FloatOps F) (ctx : EvalCtx F)

theorem cmpStop_iff {c : Char} (h : cmpStop c = true) :
    termStop c = true ∧ isspace c = false ∧ c ≠ '+' ∧ c ≠ '-' ∧ c ≠ '<' ∧ c ≠ '>' ∧
      c ≠ '=' ∧ c ≠ '!' := by
  have h' : termStop c = true ∧ c ≠ '+' ∧ c ≠ '-' ∧ c ≠ '<' ∧ c ≠ '>' ∧ c ≠ '=' ∧ c ≠ '!' := by
    simpa [cmpStop, and_assoc] using h
  exact ⟨h'.1, (termStop_iff h'.1).2.1, h'.2⟩

theorem factorText_literal {text : List Char} (h : isShortLiteral text = true) :
    FactorText ops ctx text (ops.atof text) := by
  simp only [isShortLiteral, Bool.and_eq_true, decide_eq_true_eq] at h
  have := factorText_number ops ctx (isNumberToken_of_decimal h.1)
  rwa [List.take_of_length_le h.2] at this

theorem termText_literal {text : List Char} (h : isShortLiteral text = true) :
    TermText ops ctx text (ops.atof text) :=
  termText_of_factorText ops ctx (factorText_literal ops ctx h)

theorem cmpText_of_exprText {x : List Char} {v : F} (h : ExprText ops ctx x v) :
    CmpText ops ctx x v := by
  intro expr pos rest hd hstop
  obtain ⟨s0, s1, s2, s3, s4, s5, s6, s7⟩ := cmpStop_iff hstop
  have hp : peek expr (pos + x.length) = rest.headD NUL := by
    rw [peek_eq_headD, drop_add_of_drop x hd]
  exact cmpAt_of_exprAt ops ctx expr (h expr pos rest hd s0) (by rw [hp]; exact s1)
    (by rw [hp]; exact s2) (by rw [hp]; exact s3) (by rw [hp]; exact s4)
    (by rw [hp]; exact s5) (by rw [hp]; exact s6) (by rw [hp]; exact s7)

theorem andText_of_cmpText {x : List Char} {v : F} (h : CmpText ops ctx x v) :
    AndText ops ctx x v :=
  fun expr pos rest hd hstop => andAt_of_cmpAt ops ctx expr (h expr pos rest hd hstop)

/-- The text `X&&Y` is a conjunction when `X` is one and `Y` is a comparison. -/
theorem andText_step {x y : List Char} {vl vr : F}
    (hx : AndText ops ctx x vl) (hy : CmpText ops ctx y vr) :
    AndText ops ctx (x ++ '&' :: '&' :: y) (boolVal ops (ops.ne0 vl && ops.ne0 vr)) := by
  intro expr pos rest hd hstop
  have hd1 : expr.drop pos = x ++ ('&' :: '&' :: (y ++ rest)) := by simpa using hd
  have d1 := drop_add_of_drop x hd1
  have d2 := drop_succ_of_drop d1
  have d3 := drop_succ_of_drop d2
  have hl := hx expr pos ('&' :: '&' :: (y ++ rest)) hd1 rfl
  have hr := hy expr (pos + x.length + 1 + 1) rest d3 hstop
  have := andAt_step ops ctx expr hl (by rw [peek_of_drop d1]; decide)
    (peek_of_drop d1) (peek_of_drop d2) hr
  have hlen : pos + (x ++ '&' :: '&' :: y).length = pos + x.length + 1 + 1 + y.length := by
    simp only [List.length_append, List.length_cons]; omega
  rw [hlen]; exact this

theorem orText_of_andText {x : List Char} {v : F} (h : AndText ops ctx x v) :
    OrText ops ctx x v := by
  intro expr pos rest hd hstop hamp
  obtain ⟨_, s1, _⟩ := cmpStop_iff hstop
  have hp : peek expr (pos + x.length) = rest.headD NUL := by
    rw [peek_eq_headD, drop_add_of_drop x hd]
  exact orLoopAt_of_and ops ctx expr
    (andAt_done ops ctx expr (h expr pos rest hd hstop) (by rw [hp]; exact s1)
      (by rw [hp]; exact hamp))

/-- The text `X||Y` is a disjunction when `X` is one and `Y` is a
conjunction. -/
theorem orText_step {x y : List Char} {vl vr : F}
    (hx : OrText ops ctx x vl) (hy : AndText ops ctx y vr) :
    OrText ops ctx (x ++ '|' :: '|' :: y) (boolVal ops (ops.ne0 vl || ops.ne0 vr)) := by
  intro expr pos rest hd hstop hamp
  obtain ⟨_, s1, _⟩ := cmpStop_iff hstop
  have hd1 : expr.drop pos = x ++ ('|' :: '|' :: (y ++ rest)) := by simpa using hd
  have d1 := drop_add_of_drop x hd1
  have d2 := drop_succ_of_drop d1
  have d3 := drop_succ_of_drop d2
  have d4 := drop_add_of_drop y d3
  have hp : peek expr (pos + x.length + 1 + 1 + y.length) = rest.headD NUL := by
    rw [peek_eq_headD, d4]
  have hbar : ('|' :: '|' :: (y ++ rest)).headD NUL ≠ '&' := by
    show ('|' : Char) ≠ '&'
    decide
  have hl := hx expr pos ('|' :: '|' :: (y ++ rest)) hd1 rfl hbar
  have hr := andAt_done ops ctx expr (hy expr (pos + x.length + 1 + 1) rest d3 hstop)
    (by rw [hp]; exact s1) (by rw [hp]; exact hamp)
  have := orLoopAt_step ops ctx expr hl (by rw [peek_of_drop d1]; decide)
    (peek_of_drop d1) (peek_of_drop d2) hr
  have hlen : pos + (x ++ '|' :: '|' :: y).length = pos + x.length + 1 + 1 + y.length := by
    simp only [List.length_append, List.length_cons]; omega
  rw [hlen]; exact this

/-- A text that is a disjunction evaluates to its value. -/
theorem eval_of_orText {x : List Char} {v : F} (hx : OrText ops ctx x v) :
    eval ops ctx x = some v := by
  have hd : x.drop 0 = x ++ [] := by simp
  have hnul : ([] : List Char).headD NUL ≠ '&' := by
    show NUL ≠ '&'
    decide
  have h := hx x 0 [] hd rfl hnul
  have hp : peek x (0 + x.length) = NUL := peek_of_drop_nil (drop_add_of_drop x hd)
  exact eval_of_orAt ops ctx x
    (orAt_done ops ctx x h (by rw [hp]; decide) (by rw [hp]; decide))

/-- The value of `X op= Y` followed by any text that does not continue the
right operand nor starts `&&` or `||`: the rest is not read. -/
theorem eval_cmp2_open (op1 : Char) {x y rest : List Char} {vl vr v : F}
    (hx : ExprText ops ctx x vl)
    (hop : op1 = '<' ∨ op1 = '>' ∨ op1 = '=' ∨ op1 = '!')
    (hy : ∀ (expr : List Char) (pos : Nat), expr.drop pos = y ++ rest →
      ExprAt ops ctx expr pos vr (pos + y.length))
    (hsp : isspace (rest.headD NUL) = false)
    (h1 : rest.headD NUL ≠ '+') (h2 : rest.headD NUL ≠ '-')
    (h3 : rest.headD NUL ≠ '&') (h4 : rest.headD NUL ≠ '|')
    (hv : compare2 ops op1 vl vr = some v) :
    eval ops ctx (x ++ op1 :: '=' :: (y ++ rest)) = some v := by
  have hd0 : (x ++ op1 :: '=' :: (y ++ rest)).drop 0 = x ++ (op1 :: '=' :: (y ++ rest)) := by
    simp
  have hstop : termStop ((op1 :: '=' :: (y ++ rest)).headD NUL) = true := by
    rcases hop with h | h | h | h <;> subst h <;> rfl
  have hl := hx _ 0 _ hd0 hstop
  have d1 := drop_add_of_drop x hd0
  have d2 := drop_succ_of_drop d1
  have d3 := drop_succ_of_drop d2
  have d4 := drop_add_of_drop y d3
  have hr := hy _ (0 + x.length + 1 + 1) d3
  have hp : peek (x ++ op1 :: '=' :: (y ++ rest)) (0 + x.length + 1 + 1 + y.length) =
      rest.headD NUL := by rw [peek_eq_headD, d4]
  have hc := cmpAt_two_open ops ctx _ hl (peek_of_drop d1) hop (peek_of_drop d2) hr
    (by rw [hp]; exact hsp) (by rw [hp]; exact h1) (by rw [hp]; exact h2) hv
  exact eval_of_orAt ops ctx _ (orAt_of_cmpAt_open ops ctx _ hc (by rw [hp]; exact hsp)
    (by rw [hp]; exact h3) (by rw [hp]; exact h4))

/-- The value of `X < Y` or `X > Y` followed by any text that does not
continue the right operand nor starts `&&` or `||`: the rest is not read. -/
theorem eval_cmp1_open (op1 : Char) {x y rest : List Char} {vl vr v : F}
    (hx : ExprText ops ctx x vl)
    (hop : op1 = '<' ∨ op1 = '>')
    (hne : (y ++ rest).headD NUL ≠ '=')
    (hy : ∀ (expr : List Char) (pos : Nat), expr.drop pos = y ++ rest →
      ExprAt ops ctx expr pos vr (pos + y.length))
    (hsp : isspace (rest.headD NUL) = false)
    (h1 : rest.headD NUL ≠ '+') (h2 : rest.headD NUL ≠ '-')
    (h3 : rest.headD NUL ≠ '&') (h4 : rest.headD NUL ≠ '|')
    (hv : compare1 ops op1 vl vr = some v) :
    eval ops ctx (x ++ op1 :: (y ++ rest)) = some v := by
  have hd0 : (x ++ op1 :: (y ++ rest)).drop 0 = x ++ (op1 :: (y ++ rest)) := by simp
  have hstop : termStop ((op1 :: (y ++ rest)).headD NUL) = true := by
    rcases hop with h | h <;> subst h <;> rfl
  have hl := hx _ 0 _ hd0 hstop
  have d1 := drop_add_of_drop x hd0
  have d2 := drop_succ_of_drop d1
  have d4 := drop_add_of_drop y d2
  have hr := hy _ (0 + x.length + 1) d2
  have hq : peek (x ++ op1 :: (y ++ rest)) (0 + x.length + 1) = (y ++ rest).headD NUL := by
    rw [peek_eq_headD, d2]
  have hp : peek (x ++ op1 :: (y ++ rest)) (0 + x.length + 1 + y.length) =
      rest.headD NUL := by rw [peek_eq_headD, d4]
  have hc := cmpAt_one_open ops ctx _ hl (peek_of_drop d1) hop (by rw [hq]; exact hne) hr
    (by rw [hp]; exact hsp) (by rw [hp]; exact h1) (by rw [hp]; exact h2) hv
  exact eval_of_orAt ops ctx _ (orAt_of_cmpAt_open ops ctx _ hc (by rw [hp]; exact hsp)
    (by rw [hp]; exact h3) (by rw [hp]; exact h4))

end

/-! ## One binary operator between a literal and a final operand -/

section
variable {F : Type} (ops : FloatOps F) (ctx : EvalCtx F)

theorem peek_end {expr : List Char} {pos : Nat} (y : List Char) (hd : expr.drop pos = y) :
    peek expr (pos + y.length) = NUL := by
  have hd' : expr.drop pos = y ++ [] := by simpa using hd
  exact peek_of_drop_nil (drop_add_of_drop y hd')

/-- A final operand is a final product. -/
theorem termAt_final {expr : List Char} {pos p : Nat} {v : F}
    (h : FactorAt ops ctx expr pos v p) : TermAt ops ctx expr pos v p :=
  termAt_of_factorAt ops ctx expr h

/-- A final operand is a final sum. -/
theorem exprAt_final {expr : List Char} {pos p : Nat} {v : F}
    (h : FactorAt ops ctx expr pos v p) (hp : peek expr p = NUL) :
    ExprAt ops ctx expr pos v p :=
  exprAt_of_termAt ops ctx expr (termAt_of_factorAt ops ctx expr h)
    (by rw [hp]; decide) (by rw [hp]; decide) (by rw [hp]; decide) (by rw [hp]; decide)

/-- A final operand is a final comparison. -/
theorem cmpAt_final {expr : List Char} {pos p : Nat} {v : F}
    (h : FactorAt ops ctx expr pos v p) (hp : peek expr p = NUL) :
    CmpAt ops ctx expr pos v p :=
  cmpAt_of_exprAt ops ctx expr (exprAt_final ops ctx h hp)
    (by rw [hp]; decide) (by rw [hp]; decide) (by rw [hp]; decide) (by rw [hp]; decide)
    (by rw [hp]; decide) (by rw [hp]; decide) (by rw [hp]; decide)

/-- A sum that ends the text is the value of the text. -/
theorem eval_of_exprAt_final {expr : List Char} {p : Nat} {v : F}
    (h : ExprAt ops ctx expr 0 v p) (hp : peek expr p = NUL) : eval ops ctx expr = some v :=
  eval_of_orAt ops ctx expr (orAt_of_exprAt ops ctx expr h (Or.inl hp))

/-- The value of `a op y` for a literal `a`, any of the thirteen operators,
and a final operand `y` (a text read by `_parseFactor` when it ends the
formula, with value `v`). -/
theorem eval_binop_final (op : BinOp) {a y : List Char} {v : F}
    (ha : isShortLiteral a = true)
    (hy : ∀ (expr : List Char) (pos : Nat), expr.drop pos = y →
      FactorAt ops ctx expr pos v (pos + y.length))
    (hhead : y.headD NUL ≠ '=') :
    eval ops ctx (a ++ op.text ++ y) = some (op.apply ops (ops.atof a) v) := by
  have hF := factorText_literal ops ctx ha
  have hT := termText_literal ops ctx ha
  have hE := exprText_literal ops ctx ha
  have hC := cmpText_of_exprText ops ctx hE
  have hA := andText_of_cmpText ops ctx hC
  have hO := orText_of_andText ops ctx hA
  -- the three shapes of operator text
  have one : ∀ c : Char, op.text = [c] →
      (a ++ op.text ++ y).drop 0 = a ++ (c :: y) ∧
      (a ++ op.text ++ y).drop (0 + a.length) = c :: y ∧
      (a ++ op.text ++ y).drop (0 + a.length + 1) = y ∧
      peek (a ++ op.text ++ y) (0 + a.length + 1 + y.length) = NUL := by
    intro c hc
    have hd0 : (a ++ op.text ++ y).drop 0 = a ++ (c :: y) := by simp [hc]
    have d1 := drop_add_of_drop a hd0
    have d2 := drop_succ_of_drop d1
    exact ⟨hd0, d1, d2, peek_end y d2⟩
  have two : ∀ c d : Char, op.text = [c, d] →
      (a ++ op.text ++ y).drop 0 = a ++ (c :: d :: y) ∧
      (a ++ op.text ++ y).drop (0 + a.length) = c :: d :: y ∧
      (a ++ op.text ++ y).drop (0 + a.length + 1) = d :: y ∧
      (a ++ op.text ++ y).drop (0 + a.length + 1 + 1) = y ∧
      peek (a ++ op.text ++ y) (0 + a.length + 1 + 1 + y.length) = NUL := by
    intro c d hc
    have hd0 : (a ++ op.text ++ y).drop 0 = a ++ (c :: d :: y) := by simp [hc]
    have d1 := drop_add_of_drop a hd0
    have d2 := drop_succ_of_drop d1
    have d3 := drop_succ_of_drop d2
    exact ⟨hd0, d1, d2, d3, peek_end y d3⟩
  have termCase : ∀ c : Char, op.text = [c] → (c = '*' ∨ c = '/' ∨ c = '%') →
      eval ops ctx (a ++ op.text ++ y) = some (applyTermOp ops c (ops.atof a) v) := by
    intro c hc hop
    obtain ⟨hd0, d1, d2, hp⟩ := one c hc
    have hnum : isNumChar ((c :: y).headD NUL) = false := by
      rcases hop with h | h | h <;> subst h <;> rfl
    have hsp : isspace c = false := by rcases hop with h | h | h <;> subst h <;> decide
    have hl := hT _ 0 (c :: y) hd0 hnum
    have hr := hy _ (0 + a.length + 1) d2
    have hT2 := termAt_step ops ctx _ hl (by rw [peek_of_drop d1]; exact hsp)
      (peek_of_drop d1) hop hr
    exact eval_of_exprAt_final ops ctx
      (exprAt_of_termAt ops ctx _ hT2 (by rw [hp]; decide) (by rw [hp]; decide)
        (by rw [hp]; decide) (by rw [hp]; decide)) hp
  have exprCase : ∀ c : Char, op.text = [c] → (c = '+' ∨ c = '-') →
      eval ops ctx (a ++ op.text ++ y) =
        some (if c = '+' then ops.add (ops.atof a) v else ops.sub (ops.atof a) v) := by
    intro c hc hop
    obtain ⟨hd0, d1, d2, hp⟩ := one c hc
    have hstop : termStop ((c :: y).headD NUL) = true := by
      rcases hop with h | h <;> subst h <;> rfl
    have hsp : isspace c = false := by rcases hop with h | h <;> subst h <;> decide
    have hl := hE _ 0 (c :: y) hd0 hstop
    have hr := termAt_final ops ctx (hy _ (0 + a.length + 1) d2)
    have hE2 := exprAt_step ops ctx _ hl (by rw [peek_of_drop d1]; exact hsp)
      (peek_of_drop d1) hop hr (by rw [hp]; decide) (by rw [hp]; decide)
      (by rw [hp]; decide) (by rw [hp]; decide)
    exact eval_of_exprAt_final ops ctx hE2 hp
  have cmp2Case : ∀ c : Char, op.text = [c, '='] →
      (c = '<' ∨ c = '>' ∨ c = '=' ∨ c = '!') → ∀ w, compare2 ops c (ops.atof a) v = some w →
      eval ops ctx (a ++ op.text ++ y) = some w := by
    intro c hc hop w hw
    have hshape : a ++ op.text ++ y = a ++ c :: '=' :: (y ++ []) := by simp [hc]
    rw [hshape]
    refine eval_cmp2_open ops ctx c hE hop ?_ (by decide) (by decide) (by decide) (by decide)
      (by decide) hw
    intro expr pos hd
    have hd' : expr.drop pos = y := by simpa using hd
    exact exprAt_final ops ctx (hy expr pos hd') (peek_end y hd')
  have cmp1Case : ∀ c : Char, op.text = [c] → (c = '<' ∨ c = '>') →
      ∀ w, compare1 ops c (ops.atof a) v = some w →
      eval ops ctx (a ++ op.text ++ y) = some w := by
    intro c hc hop w hw
    have hshape : a ++ op.text ++ y = a ++ c :: (y ++ []) := by simp [hc]
    rw [hshape]
    refine eval_cmp1_open ops ctx c hE hop (by simpa using hhead) ?_ (by decide) (by decide)
      (by decide) (by decide) (by decide) hw
    intro expr pos hd
    have hd' : expr.drop pos = y := by simpa using hd
    exact exprAt_final ops ctx (hy expr pos hd') (peek_end y hd')
  cases op with
  | mul => simpa [applyTermOp, BinOp.apply] using termCase '*' rfl (Or.inl rfl)
  | div => simpa [applyTermOp, BinOp.apply] using termCase '/' rfl (Or.inr (Or.inl rfl))
  | mod => simpa [applyTermOp, BinOp.apply] using termCase '%' rfl (Or.inr (Or.inr rfl))
  | add => simpa [BinOp.apply] using exprCase '+' rfl (Or.inl rfl)
  | sub => simpa [BinOp.apply] using exprCase '-' rfl (Or.inr rfl)
  | lt => exact cmp1Case '<' rfl (Or.inl rfl) _ rfl
  | gt => exact cmp1Case '>' rfl (Or.inr rfl) _ rfl
  | le => exact cmp2Case '<' rfl (Or.inl rfl) _ rfl
  | ge => exact cmp2Case '>' rfl (Or.inr (Or.inl rfl)) _ rfl
  | eq => exact cmp2Case '=' rfl (Or.inr (Or.inr (Or.inl rfl))) _ rfl
  | ne => exact cmp2Case '!' rfl (Or.inr (Or.inr (Or.inr rfl))) _ rfl
  | and =>
    obtain ⟨hd0, d1, d2, d3, hp⟩ := two '&' '&' rfl
    have hl := hA _ 0 ('&' :: '&' :: y) hd0 rfl
    have hr := cmpAt_final ops ctx (hy _ (0 + a.length + 1 + 1) d3) hp
    have hA2 := andAt_step ops ctx _ hl (by rw [peek_of_drop d1]; decide)
      (peek_of_drop d1) (peek_of_drop d2) hr
    have hdone := andAt_done ops ctx _ hA2 (by rw [hp]; decide) (by rw [hp]; decide)
    exact eval_of_orAt ops ctx _ (orAt_done ops ctx _ (orLoopAt_of_and ops ctx _ hdone)
      (by rw [hp]; decide) (by rw [hp]; decide))
  | or =>
    obtain ⟨hd0, d1, d2, d3, hp⟩ := two '|' '|' rfl
    have hbar : ('|' :: '|' :: y).headD NUL ≠ '&' := by
      show ('|' : Char) ≠ '&'
      decide
    have hl := hO _ 0 ('|' :: '|' :: y) hd0 rfl hbar
    have hr := andAt_done ops ctx _
      (andAt_of_cmpAt ops ctx _ (cmpAt_final ops ctx (hy _ (0 + a.length + 1 + 1) d3) hp))
      (by rw [hp]; decide) (by rw [hp]; decide)
    have hO2 := orLoopAt_step ops ctx _ hl (by rw [peek_of_drop d1]; decide)
      (peek_of_drop d1) (peek_of_drop d2) hr
    exact eval_of_orAt ops ctx _ (orAt_done ops ctx _ hO2 (by rw [hp]; decide)
      (by rw [hp]; decide))

/-- The value of `a op` with the right operand missing: the operand reads as 0. -/
theorem eval_binop_missing (op : BinOp) {a : List Char} (ha : isShortLiteral a = true) :
    eval ops ctx (a ++ op.text) = some (op.apply ops (ops.atof a) ops.zero) := by
  have h := eval_binop_final ops ctx op (y := []) (v := ops.zero) ha
    (fun expr pos hd => factorAt_end ops ctx expr hd) (by decide)
  simpa using h

end

/-! ## Chains of operators -/

section
variable {F : Type} (ops : FloatOps F) (ctx : EvalCtx F)

theorem literal_head {b : List Char} (hb : isShortLiteral b = true) (rest : List Char) :
    isNumChar ((b ++ rest).headD NUL) = true := by
  have hnum : isNumberToken b = true := isNumberToken_of_decimal (by
    simp only [isShortLiteral, Bool.and_eq_true] at hb; exact hb.1)
  have hb' : b ≠ [] ∧ ∀ c ∈ b, isNumChar c = true := by simpa [isNumberToken] using hnum
  obtain ⟨c, cs, rfl⟩ := List.exists_cons_of_ne_nil hb'.1
  exact hb'.2 c (List.mem_cons_self _ _)

/-- The first character of a comparison operator. -/
theorem comparison_head (op : BinOp) (hop : op.isComparison = true) (c : List Char) :
    termStop ((op.text ++ c).headD NUL) = true ∧ isspace ((op.text ++ c).headD NUL) = false ∧
    (op.text ++ c).headD NUL ≠ '+' ∧ (op.text ++ c).headD NUL ≠ '-' ∧
    (op.text ++ c).headD NUL ≠ '&' ∧ (op.text ++ c).headD NUL ≠ '|' := by
  have key : ∃ ch : Char, (op.text ++ c).headD NUL = ch ∧
      (ch = '<' ∨ ch = '>' ∨ ch = '=' ∨ ch = '!') := by
    cases op with
    | lt => exact ⟨'<', rfl, Or.inl rfl⟩
    | gt => exact ⟨'>', rfl, Or.inr (Or.inl rfl)⟩
    | le => exact ⟨'<', rfl, Or.inl rfl⟩
    | ge => exact ⟨'>', rfl, Or.inr (Or.inl rfl)⟩
    | eq => exact ⟨'=', rfl, Or.inr (Or.inr (Or.inl rfl))⟩
    | ne => exact ⟨'!', rfl, Or.inr (Or.inr (Or.inr rfl))⟩
    | mul | div | mod | add | sub | and | or => exact absurd hop (by decide)
  obtain ⟨ch, hch, hcases⟩ := key
  rw [hch]
  rcases hcases with h | h | h | h <;> subst h <;> decide

/-- A comparison is not chained: in `a op b op2 c` with two comparison
operators only `a op b` is read. -/
theorem eval_comparison_chain (op op2 : BinOp) (hop : op.isComparison = true)
    (hop2 : op2.isComparison = true) {a b : List Char} (c : List Char)
    (ha : isShortLiteral a = true) (hb : isShortLiteral b = true) :
    eval ops ctx (a ++ op.text ++ b ++ op2.text ++ c) =
      some (op.apply ops (ops.atof a) (ops.atof b)) := by
  obtain ⟨s0, s1, s2, s3, s4, s5⟩ := comparison_head op2 hop2 c
  have hE := exprText_literal ops ctx ha
  have hy : ∀ (expr : List Char) (pos : Nat), expr.drop pos = b ++ (op2.text ++ c) →
      ExprAt ops ctx expr pos (ops.atof b) (pos + b.length) :=
    fun expr pos hd => exprText_literal ops ctx hb expr pos _ hd s0
  have hne : (b ++ (op2.text ++ c)).headD NUL ≠ '=' :=
    isNumChar_ne (literal_head hb _) (by decide)
  have two : ∀ ch : Char, op.text = [ch, '='] →
      (ch = '<' ∨ ch = '>' ∨ ch = '=' ∨ ch = '!') →
      ∀ w, compare2 ops ch (ops.atof a) (ops.atof b) = some w →
      eval ops ctx (a ++ op.text ++ b ++ op2.text ++ c) = some w := by
    intro ch hc hch w hw
    have hshape : a ++ op.text ++ b ++ op2.text ++ c =
        a ++ ch :: '=' :: (b ++ (op2.text ++ c)) := by simp [hc]
    rw [hshape]
    exact eval_cmp2_open ops ctx ch hE hch hy s1 s2 s3 s4 s5 hw
  have one : ∀ ch : Char, op.text = [ch] → (ch = '<' ∨ ch = '>') →
      ∀ w, compare1 ops ch (ops.atof a) (ops.atof b) = some w →
      eval ops ctx (a ++ op.text ++ b ++ op2.text ++ c) = some w := by
    intro ch hc hch w hw
    have hshape : a ++ op.text ++ b ++ op2.text ++ c =
        a ++ ch :: (b ++ (op2.text ++ c)) := by simp [hc]
    rw [hshape]
    exact eval_cmp1_open ops ctx ch hE hch hne hy s1 s2 s3 s4 s5 hw
  cases op with
  | lt => exact one '<' rfl (Or.inl rfl) _ rfl
  | gt => exact one '>' rfl (Or.inr rfl) _ rfl
  | le => exact two '<' rfl (Or.inl rfl) _ rfl
  | ge => exact two '>' rfl (Or.inr (Or.inl rfl)) _ rfl
  | eq => exact two '=' rfl (Or.inr (Or.inr (Or.inl rfl))) _ rfl
  | ne => exact two '!' rfl (Or.inr (Or.inr (Or.inr rfl))) _ rfl
  | mul | div | mod | add | sub | and | or => exact absurd hop (by decide)

/-- The operators other than comparisons group to the left: `a op b op c` is
`(a op b) op c`. -/
theorem eval_assoc_chain (op : BinOp) (hop : op.isComparison = false) {a b c : List Char}
    (ha : isShortLiteral a = true) (hb : isShortLiteral b = true)
    (hc : isShortLiteral c = true) :
    eval ops ctx (a ++ op.text ++ b ++ op.text ++ c) =
      some (op.apply ops (op.apply ops (ops.atof a) (ops.atof b)) (ops.atof c)) := by
  have termCase : ∀ ch : Char, op.text = [ch] → (ch = '*' ∨ ch = '/' ∨ ch = '%') →
      eval ops ctx (a ++ op.text ++ b ++ op.text ++ c) =
        some (applyTermOp ops ch (applyTermOp ops ch (ops.atof a) (ops.atof b))
          (ops.atof c)) := by
    intro ch hch hop3
    have h1 := termText_step ops ctx ch (termText_literal ops ctx ha)
      (factorText_literal ops ctx hb) hop3
    have h2 := termText_step ops ctx ch h1 (factorText_literal ops ctx hc) hop3
    have := eval_of_exprText ops ctx (exprText_of_termText ops ctx h2)
    simpa [hch] using this
  have exprCase : ∀ ch : Char, op.text = [ch] → (ch = '+' ∨ ch = '-') →
      eval ops ctx (a ++ op.text ++ b ++ op.text ++ c) =
        some (if ch = '+' then
            ops.add (if ch = '+' then ops.add (ops.atof a) (ops.atof b)
              else ops.sub (ops.atof a) (ops.atof b)) (ops.atof c)
          else ops.sub (if ch = '+' then ops.add (ops.atof a) (ops.atof b)
              else ops.sub (ops.atof a) (ops.atof b)) (ops.atof c)) := by
    intro ch hch hop2
    have h1 := exprText_step ops ctx ch (exprText_literal ops ctx ha)
      (termText_literal ops ctx hb) hop2
    have h2 := exprText_step ops ctx ch h1 (termText_literal ops ctx hc) hop2
    have := eval_of_exprText ops ctx h2
    simpa [hch] using this
  have cmpLit : ∀ {t : List Char}, isShortLiteral t = true → CmpText ops ctx t (ops.atof t) :=
    fun ht => cmpText_of_exprText ops ctx (exprText_literal ops ctx ht)
  cases op with
  | mul => simpa [applyTermOp, BinOp.apply] using termCase '*' rfl (Or.inl rfl)
  | div => simpa [applyTermOp, BinOp.apply] using termCase '/' rfl (Or.inr (Or.inl rfl))
  | mod => simpa [applyTermOp, BinOp.apply] using termCase '%' rfl (Or.inr (Or.inr rfl))
  | add => simpa [BinOp.apply] using exprCase '+' rfl (Or.inl rfl)
  | sub => simpa [BinOp.apply] using exprCase '-' rfl (Or.inr rfl)
  | and =>
    have h1 := andText_step ops ctx (andText_of_cmpText ops ctx (cmpLit ha)) (cmpLit hb)
    have h2 := andText_step ops ctx h1 (cmpLit hc)
    have := eval_of_orText ops ctx (orText_of_andText ops ctx h2)
    simpa [BinOp.text, BinOp.apply] using this
  | or =>
    have h1 := orText_step ops ctx
      (orText_of_andText ops ctx (andText_of_cmpText ops ctx (cmpLit ha)))
      (andText_of_cmpText ops ctx (cmpLit hb))
    have h2 := orText_step ops ctx h1 (andText_of_cmpText ops ctx (cmpLit hc))
    have := eval_of_orText ops ctx h2
    simpa [BinOp.text, BinOp.apply] using this
  | lt | gt | le | ge | eq | ne => exact absurd hop (by decide)

/-- A comparison of two literals is an operand of `&&`. -/
theorem cmpText_comparison (op : BinOp) (hop : op.isComparison = true) {a b : List Char}
    (ha : isShortLiteral a = true) (hb : isShortLiteral b = true) :
    CmpText ops ctx (a ++ op.text ++ b) (op.apply ops (ops.atof a) (ops.atof b)) := by
  intro expr pos rest hd hstop
  obtain ⟨s0, s1, s2, s3, _⟩ := cmpStop_iff hstop
  have hE := exprText_literal ops ctx ha
  have hEb := exprText_literal ops ctx hb
  have hne : (b ++ rest).headD NUL ≠ '=' := isNumChar_ne (literal_head hb _) (by decide)
  have two : ∀ ch : Char, op.text = [ch, '='] →
      (ch = '<' ∨ ch = '>' ∨ ch = '=' ∨ ch = '!') →
      ∀ w, compare2 ops ch (ops.atof a) (ops.atof b) = some w →
      CmpAt ops ctx expr pos w (pos + (a ++ op.text ++ b).length) := by
    intro ch hc hch w hw
    have hd0 : expr.drop pos = a ++ (ch :: '=' :: (b ++ rest)) := by simpa [hc] using hd
    have hst : termStop ((ch :: '=' :: (b ++ rest)).headD NUL) = true := by
      rcases hch with h | h | h | h <;> subst h <;> rfl
    have d1 := drop_add_of_drop a hd0
    have d2 := drop_succ_of_drop d1
    have d3 := drop_succ_of_drop d2
    have d4 := drop_add_of_drop b d3
    have hp : peek expr (pos + a.length + 1 + 1 + b.length) = rest.headD NUL := by
      rw [peek_eq_headD, d4]
    have := cmpAt_two_open ops ctx expr (hE expr pos _ hd0 hst) (peek_of_drop d1) hch
      (peek_of_drop d2) (hEb expr _ rest d3 s0) (by rw [hp]; exact s1)
      (by rw [hp]; exact s2) (by rw [hp]; exact s3) hw
    have hlen : pos + (a ++ op.text ++ b).length = pos + a.length + 1 + 1 + b.length := by
      simp only [hc, List.length_append, List.length_cons, List.length_nil]; omega
    rw [hlen]; exact this
  have one : ∀ ch : Char, op.text = [ch] → (ch = '<' ∨ ch = '>') →
      ∀ w, compare1 ops ch (ops.atof a) (ops.atof b) = some w →
      CmpAt ops ctx expr pos w (pos + (a ++ op.text ++ b).length) := by
    intro ch hc hch w hw
    have hd0 : expr.drop pos = a ++ (ch :: (b ++ rest)) := by simpa [hc] using hd
    have hst : termStop ((ch :: (b ++ rest)).headD NUL) = true := by
      rcases hch with h | h <;> subst h <;> rfl
    have d1 := drop_add_of_drop a hd0
    have d2 := drop_succ_of_drop d1
    have d4 := drop_add_of_drop b d2
    have hq : peek expr (pos + a.length + 1) = (b ++ rest).headD NUL := by
      rw [peek_eq_headD, d2]
    have hp : peek expr (pos + a.length + 1 + b.length) = rest.headD NUL := by
      rw [peek_eq_headD, d4]
    have := cmpAt_one_open ops ctx expr (hE expr pos _ hd0 hst) (peek_of_drop d1) hch
      (by rw [hq]; exact hne) (hEb expr _ rest d2 s0) (by rw [hp]; exact s1)
      (by rw [hp]; exact s2) (by rw [hp]; exact s3) hw
    have hlen : pos + (a ++ op.text ++ b).length = pos + a.length + 1 + b.length := by
      simp only [hc, List.length_append, List.length_cons, List.length_nil]; omega
    rw [hlen]; exact this
  cases op with
  | lt => exact one '<' rfl (Or.inl rfl) _ rfl
  | gt => exact one '>' rfl (Or.inr rfl) _ rfl
  | le => exact two '<' rfl (Or.inl rfl) _ rfl
  | ge => exact two '>' rfl (Or.inr (Or.inl rfl)) _ rfl
  | eq => exact two '=' rfl (Or.inr (Or.inr (Or.inl rfl))) _ rfl
  | ne => exact two '!' rfl (Or.inr (Or.inr (Or.inr rfl))) _ rfl
  | mul | div | mod | add | sub | and | or => exact absurd hop (by decide)

/-- Opening parentheses that are never closed are tolerated: the formula reads
as if they were closed at its end. -/
theorem orAt_unclosed (e : AExp) (hlit : e.allLiterals isNumberToken = true) :
    ∀ (k : Nat) (expr : List Char) (pos : Nat),
      expr.drop pos = List.replicate k '(' ++ e.render 0 →
      OrAt ops ctx expr pos (e.codeValue ops) (pos + k + (e.render 0).length) := by
  intro k
  induction k with
  | zero =>
    intro expr pos hd
    have hd' : expr.drop pos = e.render 0 ++ [] := by simpa using hd
    have hE := (render_parses ops ctx e hlit).2.2 expr pos [] hd' rfl
    have hp : peek expr (pos + (e.render 0).length) = NUL :=
      peek_of_drop_nil (drop_add_of_drop _ hd')
    have := orAt_of_exprAt ops ctx expr hE (Or.inl hp)
    simpa using this
  | succ k ih =>
    intro expr pos hd
    have hd0 : expr.drop pos = '(' :: (List.replicate k '(' ++ e.render 0) := by
      simpa [List.replicate_succ] using hd
    have d1 := drop_succ_of_drop hd0
    obtain ⟨N, hN⟩ := ih expr (pos + 1) d1
    have dend : expr.drop (pos + 1 + k + (e.render 0).length) = [] := by
      have h1 : expr.drop (pos + 1) = (List.replicate k '(' ++ e.render 0) ++ [] := by
        simpa using d1
      have := drop_add_of_drop _ h1
      simpa [Nat.add_assoc] using this
    have hp : peek expr (pos + 1 + k + (e.render 0).length) = NUL := peek_of_drop_nil dend
    have hskip : skipWhitespace expr pos = pos :=
      skipWhitespace_eq_self (by rw [peek_of_drop hd0]; decide)
    have hskip2 : skipWhitespace expr (pos + 1 + k + (e.render 0).length) =
        pos + 1 + k + (e.render 0).length :=
      skipWhitespace_eq_self (by rw [hp]; decide)
    have hF : FactorAt ops ctx expr pos (e.codeValue ops)
        (pos + 1 + k + (e.render 0).length) := by
      refine ⟨N + 2, fun n hn => ?_⟩
      obtain ⟨m, rfl⟩ : ∃ m, n = m + 2 := ⟨n - 2, by omega⟩
      rw [parseFactor]
      simp only [hskip, peek_of_drop hd0, show ('(' : Char) ≠ '!' by decide, if_false]
      rw [parseUnary]
      simp only [hskip, peek_of_drop hd0, show ('(' : Char) ≠ '-' by decide, if_false,
        if_true]
      rw [hN m (by omega)]
      simp only [hskip2, hp, show NUL ≠ ')' by decide, if_false]
    have hE := exprAt_final ops ctx hF hp
    have := orAt_of_exprAt ops ctx expr hE (Or.inl hp)
    have hpos : pos + (k + 1) + (e.render 0).length = pos + 1 + k + (e.render 0).length := by
      omega
    rw [hpos]; exact this

theorem eval_unclosed (e : AExp) (hlit : e.allLiterals isNumberToken = true) (k : Nat) :
    eval ops ctx (List.replicate k '(' ++ e.render 0) = some (e.codeValue ops) :=
  eval_of_orAt ops ctx _ (orAt_unclosed ops ctx e hlit k _ 0 (by simp))

theorem eval_empty : eval ops ctx [] = some ops.zero := by
  have hF : FactorAt ops ctx ([] : List Char) 0 ops.zero 0 :=
    factorAt_end ops ctx ([] : List Char) rfl
  have hp : peek ([] : List Char) 0 = NUL := rfl
  exact eval_of_exprAt_final ops ctx (exprAt_final ops ctx hF hp) hp

end

/-! ## C17, C18 and C19 -/

/-- C17 (amended): a missing right operand reads as 0, so for every literal
`a` of at most 31 characters and every binary operator the truncated formula
`a op` evaluates to `a op 0`; a formula whose opening parentheses are never
closed evaluates as if they were closed at its end; the empty formula
evaluates to 0. -/
theorem C17_malformed_formulas {F : Type} (ops : FloatOps F) (ctx : EvalCtx F) :
    (∀ (op : BinOp) (a : List Char), isShortLiteral a = true →
      eval ops ctx (a ++ op.text) = some (op.apply ops (ops.atof a) ops.zero)) ∧
    (∀ (e : AExp) (k : Nat), e.allLiterals isNumberToken = true →
      eval ops ctx (List.replicate k '(' ++ e.render 0) = some (e.codeValue ops)) ∧
    eval ops ctx [] = some ops.zero :=
  ⟨fun op _ ha => eval_binop_missing ops ctx op ha,
    fun e k hlit => eval_unclosed ops ctx e hlit k,
    eval_empty ops ctx⟩

/-- C17 at `2+`, `2*`, `(2+3` and the empty formula. -/
theorem C17_malformed_formulas_witness :
    eval exactOps ctx0 "2+".toList =
      some (BinOp.add.apply exactOps (exactOps.atof "2".toList) exactOps.zero) ∧
    eval exactOps ctx0 "2+".toList = some (Val.num 2) ∧
    eval exactOps ctx0 "2*".toList = some (Val.num 0) ∧
    eval exactOps ctx0 "(2+3".toList = some (Val.num 5) ∧
    eval exactOps ctx0 "".toList = some (Val.num 0) :=
  ⟨(C17_malformed_formulas exactOps ctx0).1 BinOp.add "2".toList (by decide),
    by decide!, by decide!, by decide!, by decide!⟩

/-- C17 as stated fails: `2+` evaluates to 2 and `(2+3` to 5, not to 0. -/
theorem C17_counterexample :
    eval exactOps ctx0 "2+".toList = some (Val.num 2) ∧
    eval exactOps ctx0 "2+".toList ≠ some (Val.num 0) ∧
    eval exactOps ctx0 "(2+3".toList = some (Val.num 5) ∧
    eval exactOps ctx0 "(2+3".toList ≠ some (Val.num 0) := by
  refine ⟨by decide!, by decide!, by decide!, by decide!⟩

/-- C18 (amended): for literals `a`, `b`, `c` of at most 31 characters, the
operators `* / % + - && ||` are left-associative: `a op b op c` evaluates to
`(a op b) op c`; a comparison operator is not chained: with two comparison
operators `a op b op2 c` evaluates to `a op b`, the rest not being read. -/
theorem C18_left_associative {F : Type} (ops : FloatOps F) (ctx : EvalCtx F)
    (a b c : List Char) (ha : isShortLiteral a = true) (hb : isShortLiteral b = true)
    (hc : isShortLiteral c = true) :
    (∀ op : BinOp, op.isComparison = false →
      eval ops ctx (a ++ op.text ++ b ++ op.text ++ c) =
        some (op.apply ops (op.apply ops (ops.atof a) (ops.atof b)) (ops.atof c))) ∧
    (∀ op op2 : BinOp, op.isComparison = true → op2.isComparison = true →
      eval ops ctx (a ++ op.text ++ b ++ op2.text ++ c) =
        some (op.apply ops (ops.atof a) (ops.atof b))) :=
  ⟨fun op hop => eval_assoc_chain ops ctx op hop ha hb hc,
    fun op op2 hop hop2 => eval_comparison_chain ops ctx op op2 hop hop2 c ha hb⟩

/-- C18 at `8-3-2`, which is 3, at `8/4/2`, which is 1, and at `3>2>1`, which
is the value 1 of `3>2`. -/
theorem C18_left_associative_witness :
    isShortLiteral "8".toList = true ∧ isShortLiteral "3".toList = true ∧
    isShortLiteral "2".toList = true ∧
    eval exactOps ctx0 "8-3-2".toList =
      some (BinOp.sub.apply exactOps (BinOp.sub.apply exactOps (exactOps.atof "8".toList)
        (exactOps.atof "3".toList)) (exactOps.atof "2".toList)) ∧
    eval exactOps ctx0 "8-3-2".toList = some (Val.num 3) ∧
    eval exactOps ctx0 "8/4/2".toList = some (Val.num 1) ∧
    eval exactOps ctx0 "3>2>1".toList = some (Val.num 1) :=
  ⟨by decide, by decide, by decide,
    (C18_left_associative exactOps ctx0 "8".toList "3".toList "2".toList (by decide)
      (by decide) (by decide)).1 BinOp.sub (by decide),
    by decide!, by decide!, by decide!⟩

/-- C18 as stated fails for the comparison operators: `3>2>1` evaluates to 1,
the value of `3>2`, while `(3>2)>1` is 0. -/
theorem C18_counterexample :
    eval exactOps ctx0 "3>2>1".toList = some (Val.num 1) ∧
    BinOp.gt.apply exactOps (BinOp.gt.apply exactOps (Val.num 3) (Val.num 2)) (Val.num 1) =
      Val.num 0 ∧
    eval exactOps ctx0 "3>2>1".toList ≠
      some (BinOp.gt.apply exactOps (BinOp.gt.apply exactOps (Val.num 3) (Val.num 2))
        (Val.num 1)) := by
  refine ⟨by decide!, by decide!, by decide!⟩

/-- C19 (amended): relational and equality operators share one precedence
level and are not chained: for literals of at most 31 characters `a==b<c`
evaluates to `a==b` and `a<b==c` to `a<b`; both bind tighter than `&&`:
`a==b&&c<d` evaluates to `(a==b) && (c<d)`. -/
theorem C19_comparison_precedence {F : Type} (ops : FloatOps F) (ctx : EvalCtx F)
    (a b c d : List Char) (ha : isShortLiteral a = true) (hb : isShortLiteral b = true)
    (hc : isShortLiteral c = true) (hd : isShortLiteral d = true) :
    eval ops ctx (a ++ "==".toList ++ b ++ "<".toList ++ c) =
      some (BinOp.eq.apply ops (ops.atof a) (ops.atof b)) ∧
    eval ops ctx (a ++ "<".toList ++ b ++ "==".toList ++ c) =
      some (BinOp.lt.apply ops (ops.atof a) (ops.atof b)) ∧
    eval ops ctx (a ++ "==".toList ++ b ++ "&&".toList ++ (c ++ "<".toList ++ d)) =
      some (BinOp.and.apply ops (BinOp.eq.apply ops (ops.atof a) (ops.atof b))
        (BinOp.lt.apply ops (ops.atof c) (ops.atof d))) := by
  refine ⟨?_, ?_, ?_⟩
  · exact eval_comparison_chain ops ctx BinOp.eq BinOp.lt rfl rfl c ha hb
  · exact eval_comparison_chain ops ctx BinOp.lt BinOp.eq rfl rfl c ha hb
  · have h1 := cmpText_comparison ops ctx BinOp.eq rfl ha hb
    have h2 := cmpText_comparison ops ctx BinOp.lt rfl hc hd
    have h3 := andText_step ops ctx (andText_of_cmpText ops ctx h1) h2
    have := eval_of_orText ops ctx (orText_of_andText ops ctx h3)
    simpa [BinOp.text, BinOp.apply] using this

/-- C19 at `1==2<3`, which is the value 0 of `1==2`, and at `1<2==3`, which is
the value 1 of `1<2`. -/
theorem C19_comparison_precedence_witness :
    isShortLiteral "1".toList = true ∧ isShortLiteral "2".toList = true ∧
    isShortLiteral "3".toList = true ∧
    eval exactOps ctx0 "1==2<3".toList =
      some (BinOp.eq.apply exactOps (exactOps.atof "1".toList) (exactOps.atof "2".toList)) ∧
    eval exactOps ctx0 "1==2<3".toList = some (Val.num 0) ∧
    eval exactOps ctx0 "1<2==3".toList = some (Val.num 1) ∧
    eval exactOps ctx0 "1==1&&2<3".toList = some (Val.num 1) :=
  ⟨by decide, by decide, by decide,
    (C19_comparison_precedence exactOps ctx0 "1".toList "2".toList "3".toList "3".toList
      (by decide) (by decide) (by decide) (by decide)).1,
    by decide!, by decide!, by decide!⟩

/-- C19 as stated fails: `1==2<3` evaluates to 0, the value of `1==2`, while
`1 == (2<3)` is 1; and `1<2==3` evaluates to 1 while `(1<2) == 3` is 0. -/
theorem C19_counterexample :
    eval exactOps ctx0 "1==2<3".toList = some (Val.num 0) ∧
    BinOp.eq.apply exactOps (Val.num 1) (BinOp.lt.apply exactOps (Val.num 2) (Val.num 3)) =
      Val.num 1 ∧
    eval exactOps ctx0 "1<2==3".toList = some (Val.num 1) ∧
    BinOp.eq.apply exactOps (BinOp.lt.apply exactOps (Val.num 1) (Val.num 2)) (Val.num 3) =
      Val.num 0 := by
  refine ⟨by decide!, by decide!, by decide!, by decide!⟩


/-! ## C23: blink openness -/

theorem wrapU_of_lt (w : Nat) (n : Nat) (h : n < 2 ^ w) : wrapU w (n : Int) = n := by
  unfold wrapU
  have h1 : ((n : Int) % 2 ^ w) = n := by
    apply Int.emod_eq_of_lt (by positivity)
    exact_mod_cast h
  rw [h1]; simp

theorem progressScale_inside {now start dur : Nat} (closing : Bool) (hdur : dur < 2 ^ 16)
    (he : wrapU 32 ((now : Int) - start) < dur) :
    EyeController.progressScale now start dur closing =
      if closing then 255 - wrapU 32 ((now : Int) - start) * 255 / dur
      else wrapU 32 ((now : Int) - start) * 255 / dur := by
  have hd0 : dur ≠ 0 := by omega
  have hlt : wrapU 32 ((now : Int) - start) * 255 < 2 ^ 32 := by
    norm_num at hdur ⊢; omega
  have ht : wrapU 32 ((now : Int) - start) * 255 / dur < 255 := by
    rw [Nat.div_lt_iff_lt_mul (by omega)]
    nlinarith
  unfold EyeController.progressScale
  rw [if_neg hd0]
  simp only
  rw [if_neg (by omega)]
  have h1 : wrapU 32 ((wrapU 32 ((now : Int) - start) : Int) * 255) =
      wrapU 32 ((now : Int) - start) * 255 := by
    have := wrapU_of_lt 32 (wrapU 32 ((now : Int) - start) * 255) hlt
    push_cast at this
    exact this
  rw [h1]
  cases closing
  · simp only [Bool.false_eq_true, if_false]
    exact wrapU_of_lt 8 _ (by rw [show (2 : Nat) ^ 8 = 256 by norm_num]; omega)
  · simp only [if_true]
    have := wrapU_of_lt 8 (255 - wrapU 32 ((now : Int) - start) * 255 / dur)
      (lt_of_le_of_lt (Nat.sub_le _ _) (by norm_num))
    rw [← this]
    congr 1
    have hle : wrapU 32 ((now : Int) - start) * 255 / dur ≤ 255 := le_of_lt ht
    rw [Nat.cast_sub hle]
    rfl

theorem progressScale_outside {now start dur : Nat} (closing : Bool)
    (he : ¬ (0 < dur ∧ wrapU 32 ((now : Int) - start) < dur)) :
    EyeController.progressScale now start dur closing = if closing then 0 else 255 := by
  unfold EyeController.progressScale
  by_cases hd : dur = 0
  · rw [if_pos hd]
  · rw [if_neg hd]
    simp only
    rw [if_pos (by omega)]

theorem phaseDone_elapsed {now start dur : Nat} (hnow : now < 2 ^ 32) (hstart : start < 2 ^ 32)
    (hdur : dur < 2 ^ 16) (hdone : EyeController.phaseDone now start dur = true)
    (he : wrapU 32 ((now : Int) - start) < 2 ^ 31) :
    dur ≤ wrapU 32 ((now : Int) - start) := by
  unfold EyeController.phaseDone at hdone
  simp only [decide_eq_true_eq] at hdone
  unfold wrapS wrapU at hdone
  unfold wrapU at he ⊢
  norm_num at hnow hstart hdur hdone he ⊢
  split_ifs at hdone <;> omega

/-- C23: with `elapsed = (now - start) mod 2^32`, `_progressScale` returns
`255 - floor(elapsed*255/dur)` when closing and `floor(elapsed*255/dur)` when
opening if `dur > 0` and `elapsed < dur`, and 0 (closing) or 255 (opening)
otherwise; the two scales sum to 255, the closing scale does not increase with
`elapsed`, and when `_phaseDone` holds with `elapsed < 2^31` the scale is the
end value. -/
theorem C23_progress_scale (now start dur : Nat) (hnow : now < 2 ^ 32)
    (hstart : start < 2 ^ 32) (hdur : dur < 2 ^ 16) :
    (0 < dur ∧ wrapU 32 ((now : Int) - start) < dur →
      EyeController.progressScale now start dur true =
        255 - wrapU 32 ((now : Int) - start) * 255 / dur ∧
      EyeController.progressScale now start dur false =
        wrapU 32 ((now : Int) - start) * 255 / dur) ∧
    (¬ (0 < dur ∧ wrapU 32 ((now : Int) - start) < dur) →
      EyeController.progressScale now start dur true = 0 ∧
      EyeController.progressScale now start dur false = 255) ∧
    EyeController.progressScale now start dur true +
      EyeController.progressScale now start dur false = 255 ∧
    (∀ now2 : Nat, wrapU 32 ((now : Int) - start) ≤ wrapU 32 ((now2 : Int) - start) →
      EyeController.progressScale now2 start dur true ≤
        EyeController.progressScale now start dur true) ∧
    (EyeController.phaseDone now start dur = true →
      wrapU 32 ((now : Int) - start) < 2 ^ 31 →
      EyeController.progressScale now start dur true = 0 ∧
      EyeController.progressScale now start dur false = 255) := by
  have hin : ∀ n : Nat, wrapU 32 ((n : Int) - start) < dur →
      wrapU 32 ((n : Int) - start) * 255 / dur < 255 := by
    intro n he
    rw [Nat.div_lt_iff_lt_mul (by omega)]
    nlinarith
  refine ⟨?_, ?_, ?_, ?_, ?_⟩
  · intro h
    rw [progressScale_inside true hdur h.2, progressScale_inside false hdur h.2]
    exact ⟨rfl, rfl⟩
  · intro h
    rw [progressScale_outside true h, progressScale_outside false h]
    exact ⟨rfl, rfl⟩
  · by_cases h : 0 < dur ∧ wrapU 32 ((now : Int) - start) < dur
    · rw [progressScale_inside true hdur h.2, progressScale_inside false hdur h.2]
      have := hin now h.2
      simp only [if_true, Bool.false_eq_true, if_false]
      omega
    · rw [progressScale_outside true h, progressScale_outside false h]
      rfl
  · intro now2 hle
    by_cases h2 : 0 < dur ∧ wrapU 32 ((now2 : Int) - start) < dur
    · have h : 0 < dur ∧ wrapU 32 ((now : Int) - start) < dur := ⟨h2.1, by omega⟩
      rw [progressScale_inside true hdur h.2, progressScale_inside true hdur h2.2]
      simp only [if_true]
      have hdiv : wrapU 32 ((now : Int) - start) * 255 / dur ≤
          wrapU 32 ((now2 : Int) - start) * 255 / dur :=
        Nat.div_le_div_right (Nat.mul_le_mul_right 255 hle)
      omega
    · rw [progressScale_outside true h2]
      simp only [if_true]
      exact Nat.zero_le _
  · intro hdone he
    have hge := phaseDone_elapsed hnow hstart hdur hdone he
    have h : ¬ (0 < dur ∧ wrapU 32 ((now : Int) - start) < dur) := by omega
    rw [progressScale_outside true h, progressScale_outside false h]
    exact ⟨rfl, rfl⟩

/-- C23 for the default closing time of 140 ms: half way (70 ms after the start
at 1000 ms) the closing scale is 128 and the opening scale 127; at 1140 ms the
phase is done and the closing scale is 0. -/
theorem C23_progress_scale_witness :
    EyeController.progressScale 1070 1000 140 true = 255 - wrapU 32 ((1070 : Int) - 1000) * 255 / 140 ∧
    EyeController.progressScale 1070 1000 140 true = 128 ∧
    EyeController.progressScale 1070 1000 140 false = 127 ∧
    EyeController.phaseDone 1140 1000 140 = true ∧
    EyeController.progressScale 1140 1000 140 true = 0 :=
  ⟨((C23_progress_scale 1070 1000 140 (by decide) (by decide) (by decide)).1
      ⟨by decide, by decide⟩).1,
    by decide, by decide, by decide, by decide⟩


/-! ## C21 and C26: scheduling the next blink -/

theorem rndLow_inRange : rndLow.InRange := by
  intro lo hi h
  exact ⟨⟨le_refl _, h⟩, ⟨le_refl _, h⟩, ⟨le_refl _, h⟩⟩

theorem rndHigh_inRange : rndHigh.InRange := by
  intro lo hi h
  simp only [rndHigh]
  refine ⟨⟨?_, ?_⟩, ⟨?_, ?_⟩, ⟨?_, ?_⟩⟩ <;> omega

theorem default_config_inRange : ({} : Config).InRange := by
  unfold Config.InRange
  decide

/-- The interval between `now` and the due time `now + d` stored in 32 bits. -/
theorem interval_wrap (now d : Nat) (hd : d < 2 ^ 32) :
    wrapU 32 ((wrapU 32 ((now + d : Nat) : Int) : Int) - now) = d := by
  unfold wrapU
  norm_num at hd ⊢
  omega

/-- With a jitter the interval is the base plus the draw, floored at 50. -/
theorem withJitter_pos (rnd : Random) (hr : rnd.InRange) (base jitter : Nat)
    (hb : base < 2 ^ 16) (hj : jitter < 2 ^ 16) (hj0 : 0 < jitter) :
    ∃ r : Int, -((jitter / 2 : Nat) : Int) ≤ r ∧ r ≤ (jitter / 2 : Nat) ∧
      (EyeController.withJitter rnd base jitter : Int) = max 50 ((base : Int) + r) := by
  have hhalf : wrapS 16 ((jitter / 2 : Nat) : Int) = ((jitter / 2 : Nat) : Int) := by
    unfold wrapS
    norm_num at hj ⊢
    omega
  unfold EyeController.withJitter
  rw [if_neg (by omega)]
  simp only [hhalf]
  obtain ⟨h1, h2⟩ := (hr (-((jitter / 2 : Nat) : Int)) (((jitter / 2 : Nat) : Int) + 1)
    (by omega)).2.2
  generalize rnd.jitter (-((jitter / 2 : Nat) : Int)) (((jitter / 2 : Nat) : Int) + 1) = r0
    at h1 h2 ⊢
  refine ⟨r0, h1, by omega, ?_⟩
  have hr0 : wrapS 16 r0 = r0 := by
    unfold wrapS
    norm_num at hj ⊢
    omega
  rw [hr0]
  have hv : wrapS 32 (wrapS 32 (base : Int) + r0) = base + r0 := by
    unfold wrapS
    norm_num at hb hj ⊢
    omega
  rw [hv]
  unfold wrapU
  norm_num at hb hj ⊢
  omega

/-- C21 (amended): with a jitter above zero the interval `_scheduleNextBlink`
adds to `now` (`next_due - now`) is at least 50 ms and, unless floored to 50,
within `jitterMs/2` of the base interval; with jitter 0 the interval is the
base interval itself, without floor. -/
theorem C21_interval_floor {F : Type} (rnd : Random) (ec : EyeController F) (now : Nat)
    (hr : rnd.InRange) (hc : ec.cfg.InRange) :
    (0 < ec.cfg.jitterMs →
      50 ≤ wrapU 32 (((EyeController.scheduleNextBlink rnd ec now false).nextDue : Int) - now) ∧
      (wrapU 32 (((EyeController.scheduleNextBlink rnd ec now false).nextDue : Int) - now) = 50 ∨
        ((ec.cfg.baseBlinkMs : Int) - (ec.cfg.jitterMs / 2 : Nat) ≤
            wrapU 32 (((EyeController.scheduleNextBlink rnd ec now false).nextDue : Int) - now) ∧
          (wrapU 32 (((EyeController.scheduleNextBlink rnd ec now false).nextDue : Int) - now) :
            Int) ≤ (ec.cfg.baseBlinkMs : Int) + (ec.cfg.jitterMs / 2 : Nat)))) ∧
    (ec.cfg.jitterMs = 0 →
      wrapU 32 (((EyeController.scheduleNextBlink rnd ec now false).nextDue : Int) - now) =
        ec.cfg.baseBlinkMs) := by
  obtain ⟨hb, hjit, -⟩ := hc
  constructor
  · intro hj
    obtain ⟨r, hr1, hr2, hv⟩ := withJitter_pos rnd hr ec.cfg.baseBlinkMs ec.cfg.jitterMs hb hjit hj
    have hlt : EyeController.withJitter rnd ec.cfg.baseBlinkMs ec.cfg.jitterMs < 2 ^ 32 := by
      norm_num at hb hjit ⊢
      omega
    have hint := interval_wrap now _ hlt
    have hnd : (EyeController.scheduleNextBlink rnd ec now false).nextDue =
        wrapU 32 ((now + EyeController.withJitter rnd ec.cfg.baseBlinkMs ec.cfg.jitterMs : Nat) :
          Int) := by
      simp [EyeController.scheduleNextBlink]
    rw [hnd, hint]
    omega
  · intro hj
    have hw : EyeController.withJitter rnd ec.cfg.baseBlinkMs ec.cfg.jitterMs =
        ec.cfg.baseBlinkMs := by
      unfold EyeController.withJitter
      rw [if_pos hj]
    have hlt : ec.cfg.baseBlinkMs < 2 ^ 32 := by
      norm_num at hb ⊢
      omega
    have hint := interval_wrap now _ hlt
    have hnd : (EyeController.scheduleNextBlink rnd ec now false).nextDue =
        wrapU 32 ((now + ec.cfg.baseBlinkMs : Nat) : Int) := by
      simp [EyeController.scheduleNextBlink, hw]
    rw [hnd, hint]

/-- C21 on the default configuration (base 10000 ms, jitter 2000 ms) with the
lowest draw: the interval is 9000 ms. -/
theorem C21_interval_floor_witness :
    (EyeController.scheduleNextBlink rndLow ecInit 1000 false).nextDue = 10000 ∧
    50 ≤ wrapU 32 (((EyeController.scheduleNextBlink rndLow ecInit 1000 false).nextDue : Int) -
      (1000 : Nat)) :=
  ⟨by decide,
    ((C21_interval_floor rndLow ecInit 1000 rndLow_inRange default_config_inRange).1
      (by decide)).1⟩

/-- C21 as stated fails for jitter 0: with a base interval of 10 ms and no
jitter the interval scheduled at 1000 ms is 10 ms, below the floor of 50 ms. -/
theorem C21_counterexample :
    ecFast.cfg.baseBlinkMs = 10 ∧ ecFast.cfg.jitterMs = 0 ∧
    (EyeController.scheduleNextBlink rndLow ecFast 1000 false).nextDue = 1010 ∧
    wrapU 32 (((EyeController.scheduleNextBlink rndLow ecFast 1000 false).nextDue : Int) -
      (1000 : Nat)) = 10 ∧
    ¬ 50 ≤ wrapU 32 (((EyeController.scheduleNextBlink rndLow ecFast 1000 false).nextDue : Int) -
      (1000 : Nat)) := by
  refine ⟨rfl, rfl, by decide, by decide, by decide⟩

/-! ## C26: no double blink gap twice in a row -/

section
variable {F : Type} (ops : FloatOps F)

end

section
variable {F : Type} (ops : FloatOps F) (ctx : EvalCtx F)

end

theorem lidLow_exact (r : ℚ) : lidLow exactOps (.num r) = .num ((1 - r) * (1 / 2)) := by
  have h0 : exactOps.atof "0.5".toList = Val.num (1 / 2) := by decide!
  unfold lidLow
  rw [h0]
  rfl

theorem lidHigh_exact (r : ℚ) : lidHigh exactOps (.num r) = .num (1 - (1 - r) * (1 / 2)) := by
  unfold lidHigh
  rw [lidLow_exact]
  rfl

/-- The lit factor on numbers, in exact arithmetic: 1 in the core of the band,
the larger of the two feather ramps elsewhere. -/
theorem litFactor_exact (lo hi f h : ℚ) :
    litFactor exactOps (.num lo) (.num hi) (.num f) (.num h) =
      if lo + f ≤ h ∧ h ≤ hi - f then .num 1
      else if 0 < f then
        .num (max (if lo < h ∧ h < lo + f then (h - lo) / f else 0)
          (if h < hi ∧ hi - f < h then (hi - h) / f else 0))
      else .num 0 := by
  have eadd : ∀ a b : ℚ, exactOps.add (.num a) (.num b) = .num (a + b) := fun _ _ => rfl
  have esub : ∀ a b : ℚ, exactOps.sub (.num a) (.num b) = .num (a - b) := fun _ _ => rfl
  have elt : ∀ a b : ℚ, exactOps.lt (.num a) (.num b) = decide (a < b) := fun _ _ => rfl
  have ele : ∀ a b : ℚ, exactOps.le (.num a) (.num b) = decide (a ≤ b) := fun _ _ => rfl
  have e0 : exactOps.zero = .num 0 := rfl
  have e1 : exactOps.one = .num 1 := rfl
  have emax : ∀ a b : ℚ, exactOps.fmax (.num a) (.num b) = .num (max a b) := by
    intro a b
    show (if Val.liftRel (fun x y => decide (x < y)) (.num a) (.num b) then Val.num b
      else Val.num a) = _
    simp only [Val.liftRel, decide_eq_true_eq]
    split_ifs with hab
    · rw [max_eq_right (le_of_lt hab)]
    · rw [max_eq_left (not_lt.mp hab)]
  have hfb : (exactOps.lt exactOps.zero (.num f) = true) ↔ 0 < f := by
    rw [e0, elt]; simp
  unfold litFactor
  dsimp only
  simp only [esub, eadd, elt, ele, Bool.and_eq_true, decide_eq_true_eq, hfb]
  by_cases hcore : lo + f ≤ h ∧ h ≤ hi - f
  · simp only [if_pos hcore]
    rfl
  · simp only [if_neg hcore]
    by_cases hf : 0 < f
    · simp only [if_pos hf]
      have hf0 : f ≠ 0 := ne_of_gt hf
      have ediv : ∀ a : ℚ, exactOps.div (.num a) (.num f) = .num (a / f) := by
        intro a
        show Val.divV (.num a) (.num f) = _
        simp [Val.divV, hf0]
      have clamp : ∀ t : ℚ, 0 < t → t < 1 →
          (if exactOps.lt exactOps.one
              (if exactOps.lt (.num t) exactOps.zero = true then exactOps.zero else .num t) = true
            then exactOps.one
            else if exactOps.lt (.num t) exactOps.zero = true then exactOps.zero else .num t) =
          .num t := by
        intro t h0 h1
        have c1 : exactOps.lt (.num t) exactOps.zero = false := by
          rw [e0, elt]; simp [h0.le]
        have c2 : exactOps.lt exactOps.one (.num t) = false := by
          rw [e1, elt]; simp [h1.le]
        rw [c1]
        simp only [Bool.false_eq_true, if_false]
        rw [c2]
        simp
      simp only [ediv]
      by_cases hA : lo < h ∧ h < lo + f
      · have a1 : 0 < (h - lo) / f := div_pos (by linarith) hf
        have a2 : (h - lo) / f < 1 := by rw [div_lt_one hf]; linarith
        simp only [if_pos hA, clamp _ a1 a2]
        by_cases hB : h < hi ∧ hi - f < h
        · have b1 : 0 < (hi - h) / f := div_pos (by linarith) hf
          have b2 : (hi - h) / f < 1 := by rw [div_lt_one hf]; linarith
          simp only [if_pos hB, clamp _ b1 b2, emax]
        · simp only [if_neg hB]
          rw [max_eq_left a1.le]
      · simp only [if_neg hA]
        by_cases hB : h < hi ∧ hi - f < h
        · have b1 : 0 < (hi - h) / f := div_pos (by linarith) hf
          have b2 : (hi - h) / f < 1 := by rw [div_lt_one hf]; linarith
          simp only [if_pos hB, clamp _ b1 b2]
          simp only [e0, emax]
        · simp only [if_neg hB, max_self, e0]
    · simp only [if_neg hf]
      rfl

/-- The two feather ramps lie between 0 and 1. -/
theorem ramp_bounds (lo hi f h : ℚ) (hf : 0 < f) :
    0 ≤ max (if lo < h ∧ h < lo + f then (h - lo) / f else 0)
      (if h < hi ∧ hi - f < h then (hi - h) / f else 0) ∧
    max (if lo < h ∧ h < lo + f then (h - lo) / f else 0)
      (if h < hi ∧ hi - f < h then (hi - h) / f else 0) ≤ 1 := by
  have hA : 0 ≤ (if lo < h ∧ h < lo + f then (h - lo) / f else 0) ∧
      (if lo < h ∧ h < lo + f then (h - lo) / f else 0) ≤ 1 := by
    split_ifs with c
    · exact ⟨(div_pos (by linarith) hf).le, by rw [div_le_one hf]; linarith⟩
    · exact ⟨le_refl _, zero_le_one⟩
  have hB : 0 ≤ (if h < hi ∧ hi - f < h then (hi - h) / f else 0) ∧
      (if h < hi ∧ hi - f < h then (hi - h) / f else 0) ≤ 1 := by
    split_ifs with c
    · exact ⟨(div_pos (by linarith) hf).le, by rw [div_le_one hf]; linarith⟩
    · exact ⟨le_refl _, zero_le_one⟩
  exact ⟨le_trans hA.1 (le_max_left _ _), max_le hA.2 hB.2⟩

/-- C24: in exact arithmetic, for every openness `r` in [0,1], feather width
`f >= 0` and pixel height `h`, with `low = (1-r)/2` and `high = 1-low`, the lit
factor of `_renderBothLids` is 1 when `low+f <= h <= high-f`, always lies in
[0,1], is the linear ramp `(h-low)/f` in the lower feather zone alone, and is 0
outside the open band when `f <= r`.  With a feather wider than the band a
pixel below the band but within `f` of the upper edge is lit with
`(high-h)/f > 0` (alike above the band): at openness 0 with four feather LEDs
the pixel of height 1/4 has factor 3/4, byte 191, while the path without
eyelid sweep renders every pixel off at scale 0. -/
theorem C24_lid_mask_wide_feather :
    (∀ r f h : ℚ, 0 ≤ r → r ≤ 1 → 0 ≤ f →
      ((1 - r) * (1 / 2) + f ≤ h → h ≤ 1 - (1 - r) * (1 / 2) - f →
        litFactor exactOps (lidLow exactOps (.num r)) (lidHigh exactOps (.num r)) (.num f)
          (.num h) = .num 1) ∧
      (∃ l : ℚ, litFactor exactOps (lidLow exactOps (.num r)) (lidHigh exactOps (.num r))
        (.num f) (.num h) = .num l ∧ 0 ≤ l ∧ l ≤ 1) ∧
      ((1 - r) * (1 / 2) < h → h < (1 - r) * (1 / 2) + f → h ≤ 1 - (1 - r) * (1 / 2) - f →
        litFactor exactOps (lidLow exactOps (.num r)) (lidHigh exactOps (.num r)) (.num f)
          (.num h) = .num ((h - (1 - r) * (1 / 2)) / f)) ∧
      (f ≤ r → (h < (1 - r) * (1 / 2) ∨ 1 - (1 - r) * (1 / 2) < h) →
        litFactor exactOps (lidLow exactOps (.num r)) (lidHigh exactOps (.num r)) (.num f)
          (.num h) = .num 0) ∧
      (h < (1 - r) * (1 / 2) → 1 - (1 - r) * (1 / 2) - f < h →
        litFactor exactOps (lidLow exactOps (.num r)) (lidHigh exactOps (.num r)) (.num f)
          (.num h) = .num ((1 - (1 - r) * (1 / 2) - h) / f) ∧
        0 < (1 - (1 - r) * (1 / 2) - h) / f) ∧
      (1 - (1 - r) * (1 / 2) < h → h < (1 - r) * (1 / 2) + f →
        litFactor exactOps (lidLow exactOps (.num r)) (lidHigh exactOps (.num r)) (.num f)
          (.num h) = .num ((h - (1 - r) * (1 / 2)) / f) ∧
        0 < (h - (1 - r) * (1 / 2)) / f)) ∧
    litFactor exactOps (lidLow exactOps (.num 0)) (lidHigh exactOps (.num 0))
      (lidFeather exactOps { featherLEDs := 4 }) (.num (1 / 4)) = .num (3 / 4) ∧
    exactOps.toUInt8 (exactOps.mul (.num (3 / 4)) exactOps.c255) = 191 ∧
    litFactor exactOps (lidLow exactOps (.num 0)) (lidHigh exactOps (.num 0))
      (lidFeather exactOps {}) (.num (1 / 4)) = .num 0 ∧
    renderByPhase exactOps nscale8_video { eyelidSweep := false } ⟨0, 255, 0⟩ 0 =
      List.replicate 12 CRGB.Black := by
  refine ⟨?_, by decide!, by decide!, by decide!, by decide⟩
  intro r f h hr0 hr1 hf
  rw [lidLow_exact, lidHigh_exact, litFactor_exact]
  refine ⟨?_, ?_, ?_, ?_, ?_, ?_⟩
  · intro h1 h2
    rw [if_pos ⟨h1, h2⟩]
  · by_cases hc : (1 - r) * (1 / 2) + f ≤ h ∧ h ≤ 1 - (1 - r) * (1 / 2) - f
    · rw [if_pos hc]
      exact ⟨1, rfl, zero_le_one, le_refl _⟩
    · rw [if_neg hc]
      by_cases hf0 : 0 < f
      · rw [if_pos hf0]
        exact ⟨_, rfl, ramp_bounds _ _ _ _ hf0⟩
      · rw [if_neg hf0]
        exact ⟨0, rfl, le_refl _, zero_le_one⟩
  · intro h1 h2 h3
    have hf0 : 0 < f := by linarith
    rw [if_neg (fun hc => by linarith [hc.1]), if_pos hf0, if_pos ⟨h1, h2⟩,
      if_neg (fun hc => by linarith [hc.2])]
    rw [max_eq_left (div_pos (by linarith) hf0).le]
  · intro hfr hout
    have hc : ¬ ((1 - r) * (1 / 2) + f ≤ h ∧ h ≤ 1 - (1 - r) * (1 / 2) - f) := by
      intro hc
      rcases hout with ho | ho <;> linarith [hc.1, hc.2]
    rw [if_neg hc]
    by_cases hf0 : 0 < f
    · rw [if_pos hf0, if_neg (fun hc2 => by rcases hout with ho | ho <;> linarith [hc2.1, hc2.2]),
        if_neg (fun hc2 => by rcases hout with ho | ho <;> linarith [hc2.1, hc2.2]), max_self]
    · rw [if_neg hf0]
  · intro h1 h2
    have hf0 : 0 < f := by linarith
    have hpos : 0 < (1 - (1 - r) * (1 / 2) - h) / f := div_pos (by linarith) hf0
    refine ⟨?_, hpos⟩
    rw [if_neg (fun hc => by linarith [hc.1]), if_pos hf0, if_neg (fun hc => by linarith [hc.1]),
      if_pos ⟨by linarith, h2⟩, max_eq_right hpos.le]
  · intro h1 h2
    have hf0 : 0 < f := by linarith
    have hpos : 0 < (h - (1 - r) * (1 / 2)) / f := div_pos (by linarith) hf0
    refine ⟨?_, hpos⟩
    rw [if_neg (fun hc => by linarith [hc.2]), if_pos hf0, if_pos ⟨by linarith, h2⟩,
      if_neg (fun hc => by linarith [hc.1]), max_eq_left hpos.le]

/-! ## C25: totality and the terminator -/

section
variable {F : Type} (ops : FloatOps F) (ctx : EvalCtx F) (expr : List Char)

theorem bound_of_total {α : Type} (f : Nat → α → Option (F × Nat))
    (hs : ∀ n a r, f n a = some r → f (n + 1) a = some r) (a : α) (pos N : Nat)
    (ht : ∀ n, N ≤ n → Returns (f n a) expr pos) {n : Nat} {r : F × Nat}
    (h : f n a = some r) : pos ≤ r.2 ∧ r.2 ≤ expr.length := by
  have h1 := mono_of_succ f hs (Nat.le_max_left n N) h
  obtain ⟨v, p, hv, b1, b2⟩ := ht (max n N) (Nat.le_max_right n N)
  rw [h1] at hv
  cases hv
  exact ⟨b1, b2⟩

/-- Whatever the budget, a parse function that returns from a cursor inside
the text leaves the cursor at or after its start and inside the text. -/
theorem parse_bound (n : Nat) :
    (∀ pos r, pos ≤ expr.length → parseLogicalOr ops ctx expr n pos = some r →
      pos ≤ r.2 ∧ r.2 ≤ expr.length) ∧
    (∀ v pos r, pos ≤ expr.length → logicalOrLoop ops ctx expr n v pos = some r →
      pos ≤ r.2 ∧ r.2 ≤ expr.length) ∧
    (∀ pos r, pos ≤ expr.length → parseLogicalAnd ops ctx expr n pos = some r →
      pos ≤ r.2 ∧ r.2 ≤ expr.length) ∧
    (∀ v pos r, pos ≤ expr.length → logicalAndLoop ops ctx expr n v pos = some r →
      pos ≤ r.2 ∧ r.2 ≤ expr.length) ∧
    (∀ pos r, pos ≤ expr.length → parseComparison ops ctx expr n pos = some r →
      pos ≤ r.2 ∧ r.2 ≤ expr.length) ∧
    (∀ pos r, pos ≤ expr.length → parseExpression ops ctx expr n pos = some r →
      pos ≤ r.2 ∧ r.2 ≤ expr.length) ∧
    (∀ v pos r, pos ≤ expr.length → expressionLoop ops ctx expr n v pos = some r →
      pos ≤ r.2 ∧ r.2 ≤ expr.length) ∧
    (∀ pos r, pos ≤ expr.length → parseTerm ops ctx expr n pos = some r →
      pos ≤ r.2 ∧ r.2 ≤ expr.length) ∧
    (∀ v pos r, pos ≤ expr.length → termLoop ops ctx expr n v pos = some r →
      pos ≤ r.2 ∧ r.2 ≤ expr.length) ∧
    (∀ pos r, pos ≤ expr.length → parseFactor ops ctx expr n pos = some r →
      pos ≤ r.2 ∧ r.2 ≤ expr.length) ∧
    (∀ pos r, pos ≤ expr.length → parseUnary ops ctx expr n pos = some r →
      pos ≤ r.2 ∧ r.2 ≤ expr.length) ∧
    (∀ pos r, pos ≤ expr.length → parseIdentifier ops ctx expr n pos = some r →
      pos ≤ r.2 ∧ r.2 ≤ expr.length) := by
  refine ⟨?_, ?_, ?_, ?_, ?_, ?_, ?_, ?_, ?_, ?_, ?_, ?_⟩
  · intro pos r hpos h
    exact bound_of_total expr (fun n pos => parseLogicalOr ops ctx expr n pos)
      (fun n => (parse_mono_succ ops ctx expr n).1) pos pos (12 + 16 * expr.length)
      (fun m hm => (parse_total ops ctx expr m).1 pos hpos (by omega)) h
  · intro v pos r hpos h
    exact bound_of_total expr (fun n (a : F × Nat) => logicalOrLoop ops ctx expr n a.1 a.2)
      (fun n a => (parse_mono_succ ops ctx expr n).2.1 a.1 a.2) (v, pos) pos
      (12 + 16 * expr.length)
      (fun m hm => (parse_total ops ctx expr m).2.1 v pos hpos (by omega)) h
  · intro pos r hpos h
    exact bound_of_total expr (fun n pos => parseLogicalAnd ops ctx expr n pos)
      (fun n => (parse_mono_succ ops ctx expr n).2.2.1) pos pos (12 + 16 * expr.length)
      (fun m hm => (parse_total ops ctx expr m).2.2.1 pos hpos (by omega)) h
  · intro v pos r hpos h
    exact bound_of_total expr (fun n (a : F × Nat) => logicalAndLoop ops ctx expr n a.1 a.2)
      (fun n a => (parse_mono_succ ops ctx expr n).2.2.2.1 a.1 a.2) (v, pos) pos
      (12 + 16 * expr.length)
      (fun m hm => (parse_total ops ctx expr m).2.2.2.1 v pos hpos (by omega)) h
  · intro pos r hpos h
    exact bound_of_total expr (fun n pos => parseComparison ops ctx expr n pos)
      (fun n => (parse_mono_succ ops ctx expr n).2.2.2.2.1) pos pos (12 + 16 * expr.length)
      (fun m hm => (parse_total ops ctx expr m).2.2.2.2.1 pos hpos (by omega)) h
  · intro pos r hpos h
    exact bound_of_total expr (fun n pos => parseExpression ops ctx expr n pos)
      (fun n => (parse_mono_succ ops ctx expr n).2.2.2.2.2.1) pos pos (12 + 16 * expr.length)
      (fun m hm => (parse_total ops ctx expr m).2.2.2.2.2.1 pos hpos (by omega)) h
  · intro v pos r hpos h
    exact bound_of_total expr (fun n (a : F × Nat) => expressionLoop ops ctx expr n a.1 a.2)
      (fun n a => (parse_mono_succ ops ctx expr n).2.2.2.2.2.2.1 a.1 a.2) (v, pos) pos
      (12 + 16 * expr.length)
      (fun m hm => (parse_total ops ctx expr m).2.2.2.2.2.2.1 v pos hpos (by omega)) h
  · intro pos r hpos h
    exact bound_of_total expr (fun n pos => parseTerm ops ctx expr n pos)
      (fun n => (parse_mono_succ ops ctx expr n).2.2.2.2.2.2.2.1) pos pos
      (12 + 16 * expr.length)
      (fun m hm => (parse_total ops ctx expr m).2.2.2.2.2.2.2.1 pos hpos (by omega)) h
  · intro v pos r hpos h
    exact bound_of_total expr (fun n (a : F × Nat) => termLoop ops ctx expr n a.1 a.2)
      (fun n a => (parse_mono_succ ops ctx expr n).2.2.2.2.2.2.2.2.1 a.1 a.2) (v, pos) pos
      (12 + 16 * expr.length)
      (fun m hm => (parse_total ops ctx expr m).2.2.2.2.2.2.2.2.1 v pos hpos (by omega)) h
  · intro pos r hpos h
    exact bound_of_total expr (fun n pos => parseFactor ops ctx expr n pos)
      (fun n => (parse_mono_succ ops ctx expr n).2.2.2.2.2.2.2.2.2.1) pos pos
      (12 + 16 * expr.length)
      (fun m hm => (parse_total ops ctx expr m).2.2.2.2.2.2.2.2.2.1 pos hpos (by omega)) h
  · intro pos r hpos h
    exact bound_of_total expr (fun n pos => parseUnary ops ctx expr n pos)
      (fun n => (parse_mono_succ ops ctx expr n).2.2.2.2.2.2.2.2.2.2.1) pos pos
      (12 + 16 * expr.length)
      (fun m hm => (parse_total ops ctx expr m).2.2.2.2.2.2.2.2.2.2.1 pos hpos (by omega)) h
  · intro pos r hpos h
    exact bound_of_total expr (fun n pos => parseIdentifier ops ctx expr n pos)
      (fun n => (parse_mono_succ ops ctx expr n).2.2.2.2.2.2.2.2.2.2.2) pos pos
      (12 + 16 * expr.length)
      (fun m hm => (parse_total ops ctx expr m).2.2.2.2.2.2.2.2.2.2.2 pos hpos (by omega)) h

/-! ### Memory after the terminator -/

theorem peek_ext (g : List Char) {pos : Nat} (h : pos ≤ expr.length) :
    peek (expr ++ NUL :: g) pos = peek expr pos := by
  unfold peek
  rcases Nat.lt_or_eq_of_le h with hlt | heq
  · rw [List.getD_append _ _ _ _ hlt]
  · subst heq
    rw [List.getD_append_right _ _ _ _ (Nat.le_refl _)]
    simp

theorem drop_ext (g : List Char) {pos : Nat} (h : pos ≤ expr.length) :
    (expr ++ NUL :: g).drop pos = expr.drop pos ++ NUL :: g :=
  List.drop_append_of_le_length h

theorem scanWhile_ext (p : Char → Bool) (hp : p NUL = false) (g l : List Char) (pos : Nat) :
    scanWhile p (l ++ NUL :: g) pos = scanWhile p l pos := by
  induction l generalizing pos with
  | nil => simp [scanWhile, hp]
  | cons c cs ih =>
    simp only [List.cons_append, scanWhile]
    split_ifs
    · exact ih (pos + 1)
    · rfl

theorem skip_ext (g : List Char) {pos : Nat} (h : pos ≤ expr.length) :
    skipWhitespace (expr ++ NUL :: g) pos = skipWhitespace expr pos := by
  unfold skipWhitespace
  rw [drop_ext expr g h]
  exact scanWhile_ext isspace (by decide) g _ pos

theorem copy_ext (g : List Char) {start pos : Nat} (h : pos ≤ expr.length) :
    copyBuffer (expr ++ NUL :: g) start pos = copyBuffer expr start pos := by
  unfold copyBuffer
  by_cases hs : start ≤ expr.length
  · rw [drop_ext expr g hs, List.take_append_of_le_length]
    rw [List.length_drop]
    omega
  · have h0 : min 31 (pos - start) = 0 := by omega
    rw [h0, List.take_zero, List.take_zero]

theorem parseNumber_ext (g : List Char) {pos : Nat} (h : pos ≤ expr.length) :
    parseNumber ops (expr ++ NUL :: g) pos = parseNumber ops expr pos := by
  unfold parseNumber
  dsimp only
  rw [drop_ext expr g h, scanWhile_ext isNumChar (by decide) g _ pos,
    copy_ext expr g (scanWhile_drop_le _ _ _ h)]

end

section
variable {F : Type} (ops : FloatOps F) (ctx : EvalCtx F) (expr g : List Char)

/-- The twelve parse functions run on the text followed by its terminator and
arbitrary further characters behave as on the text alone: nothing after the
terminator is read. -/
theorem parse_ext (n : Nat) :
    (∀ pos, pos ≤ expr.length →
      parseLogicalOr ops ctx (expr ++ NUL :: g) n pos = parseLogicalOr ops ctx expr n pos) ∧
    (∀ v pos, pos ≤ expr.length →
      logicalOrLoop ops ctx (expr ++ NUL :: g) n v pos = logicalOrLoop ops ctx expr n v pos) ∧
    (∀ pos, pos ≤ expr.length →
      parseLogicalAnd ops ctx (expr ++ NUL :: g) n pos = parseLogicalAnd ops ctx expr n pos) ∧
    (∀ v pos, pos ≤ expr.length →
      logicalAndLoop ops ctx (expr ++ NUL :: g) n v pos =
        logicalAndLoop ops ctx expr n v pos) ∧
    (∀ pos, pos ≤ expr.length →
      parseComparison ops ctx (expr ++ NUL :: g) n pos = parseComparison ops ctx expr n pos) ∧
    (∀ pos, pos ≤ expr.length →
      parseExpression ops ctx (expr ++ NUL :: g) n pos = parseExpression ops ctx expr n pos) ∧
    (∀ v pos, pos ≤ expr.length →
      expressionLoop ops ctx (expr ++ NUL :: g) n v pos =
        expressionLoop ops ctx expr n v pos) ∧
    (∀ pos, pos ≤ expr.length →
      parseTerm ops ctx (expr ++ NUL :: g) n pos = parseTerm ops ctx expr n pos) ∧
    (∀ v pos, pos ≤ expr.length →
      termLoop ops ctx (expr ++ NUL :: g) n v pos = termLoop ops ctx expr n v pos) ∧
    (∀ pos, pos ≤ expr.length →
      parseFactor ops ctx (expr ++ NUL :: g) n pos = parseFactor ops ctx expr n pos) ∧
    (∀ pos, pos ≤ expr.length →
      parseUnary ops ctx (expr ++ NUL :: g) n pos = parseUnary ops ctx expr n pos) ∧
    (∀ pos, pos ≤ expr.length →
      parseIdentifier ops ctx (expr ++ NUL :: g) n pos =
        parseIdentifier ops ctx expr n pos) := by
  induction n with
  | zero =>
    refine ⟨?_, ?_, ?_, ?_, ?_, ?_, ?_, ?_, ?_, ?_, ?_, ?_⟩ <;> intros <;>
      simp [parseLogicalOr, logicalOrLoop, parseLogicalAnd, logicalAndLoop,
        parseComparison, parseExpression, expressionLoop, parseTerm, termLoop,
        parseFactor, parseUnary, parseIdentifier]
  | succ n ih =>
    obtain ⟨iOr, iOrL, iAnd, iAndL, iCmp, iExp, iExpL, iTerm, iTermL, iFac, iUn, iId⟩ := ih
    obtain ⟨bOr, bOrL, bAnd, bAndL, bCmp, bExp, bExpL, bTerm, bTermL, bFac, bUn, bId⟩ :=
      parse_bound ops ctx expr n
    refine ⟨?_, ?_, ?_, ?_, ?_, ?_, ?_, ?_, ?_, ?_, ?_, ?_⟩
    · intro pos hpos
      have s2 := skipWhitespace_le expr pos hpos
      rw [parseLogicalOr, parseLogicalOr, skip_ext expr g hpos, iAnd _ s2]
      cases hA : parseLogicalAnd ops ctx expr n (skipWhitespace expr pos) with
      | none => rfl
      | some vp =>
        obtain ⟨v, p⟩ := vp
        exact iOrL v p (bAnd _ _ s2 hA).2
    · intro v pos hpos
      have s2 := skipWhitespace_le expr pos hpos
      rw [logicalOrLoop, logicalOrLoop]
      try dsimp only
      rw [skip_ext expr g hpos, peek_ext expr g s2]
      by_cases h1 : peek expr (skipWhitespace expr pos) = '|'
      · have l1 := peek_lt_of_eq h1 (by decide)
        rw [peek_ext expr g (show skipWhitespace expr pos + 1 ≤ expr.length by omega)]
        by_cases h2 : peek expr (skipWhitespace expr pos + 1) = '|'
        · have l2 := peek_lt_of_eq h2 (by decide)
          simp only [if_pos (And.intro h1 h2)]
          rw [iAnd _ (show skipWhitespace expr pos + 2 ≤ expr.length by omega)]
          cases hA : parseLogicalAnd ops ctx expr n (skipWhitespace expr pos + 2) with
          | none => rfl
          | some vp =>
            obtain ⟨w, p⟩ := vp
            exact iOrL _ p (bAnd _ _ (by omega) hA).2
        · simp only [if_neg (fun h => h2 (And.right h))]
      · simp only [if_neg (fun h => h1 (And.left h))]
    · intro pos hpos
      have s2 := skipWhitespace_le expr pos hpos
      rw [parseLogicalAnd, parseLogicalAnd, skip_ext expr g hpos, iCmp _ s2]
      cases hA : parseComparison ops ctx expr n (skipWhitespace expr pos) with
      | none => rfl
      | some vp =>
        obtain ⟨v, p⟩ := vp
        exact iAndL v p (bCmp _ _ s2 hA).2
    · intro v pos hpos
      have s2 := skipWhitespace_le expr pos hpos
      rw [logicalAndLoop, logicalAndLoop]
      try dsimp only
      rw [skip_ext expr g hpos, peek_ext expr g s2]
      by_cases h1 : peek expr (skipWhitespace expr pos) = '&'
      · have l1 := peek_lt_of_eq h1 (by decide)
        rw [peek_ext expr g (show skipWhitespace expr pos + 1 ≤ expr.length by omega)]
        by_cases h2 : peek expr (skipWhitespace expr pos + 1) = '&'
        · have l2 := peek_lt_of_eq h2 (by decide)
          simp only [if_pos (And.intro h1 h2)]
          rw [iCmp _ (show skipWhitespace expr pos + 2 ≤ expr.length by omega)]
          cases hA : parseComparison ops ctx expr n (skipWhitespace expr pos + 2) with
          | none => rfl
          | some vp =>
            obtain ⟨w, p⟩ := vp
            exact iAndL _ p (bCmp _ _ (by omega) hA).2
        · simp only [if_neg (fun h => h2 (And.right h))]
      · simp only [if_neg (fun h => h1 (And.left h))]
    · intro pos hpos
      have s2 := skipWhitespace_le expr pos hpos
      rw [parseComparison, parseComparison, skip_ext expr g hpos, iExp _ s2]
      cases hA : parseExpression ops ctx expr n (skipWhitespace expr pos) with
      | none => rfl
      | some vp =>
        obtain ⟨v, p⟩ := vp
        have hp := (bExp _ _ s2 hA).2
        have t2 := skipWhitespace_le expr p hp
        try dsimp only
        rw [skip_ext expr g hp, peek_ext expr g t2]
        by_cases h1 : peek expr (skipWhitespace expr p) = '<' ∨
            peek expr (skipWhitespace expr p) = '>' ∨
            peek expr (skipWhitespace expr p) = '=' ∨ peek expr (skipWhitespace expr p) = '!'
        · have l1 : skipWhitespace expr p < expr.length := by
            rcases h1 with h | h | h | h <;> exact peek_lt_of_eq h (by decide)
          simp only [if_pos h1]
          rw [peek_ext expr g (show skipWhitespace expr p + 1 ≤ expr.length by omega)]
          by_cases h2 : (peek expr (skipWhitespace expr p) = '<' ∧
                peek expr (skipWhitespace expr p + 1) = '=') ∨
              (peek expr (skipWhitespace expr p) = '>' ∧
                peek expr (skipWhitespace expr p + 1) = '=') ∨
              (peek expr (skipWhitespace expr p) = '=' ∧
                peek expr (skipWhitespace expr p + 1) = '=') ∨
              (peek expr (skipWhitespace expr p) = '!' ∧
                peek expr (skipWhitespace expr p + 1) = '=')
          · have l2 : skipWhitespace expr p + 1 < expr.length := by
              rcases h2 with h | h | h | h <;> exact peek_lt_of_eq h.2 (by decide)
            simp only [if_pos h2]
            rw [iExp _ (show skipWhitespace expr p + 1 + 1 ≤ expr.length by omega)]
          · simp only [if_neg h2]
            by_cases h3 : peek expr (skipWhitespace expr p) = '<' ∨
                peek expr (skipWhitespace expr p) = '>'
            · simp only [if_pos h3]
              rw [iExp _ (show skipWhitespace expr p + 1 ≤ expr.length by omega)]
            · simp only [if_neg h3]
        · simp only [if_neg h1]
    · intro pos hpos
      have s2 := skipWhitespace_le expr pos hpos
      rw [parseExpression, parseExpression, skip_ext expr g hpos, iTerm _ s2]
      cases hA : parseTerm ops ctx expr n (skipWhitespace expr pos) with
      | none => rfl
      | some vp =>
        obtain ⟨v, p⟩ := vp
        exact iExpL v p (bTerm _ _ s2 hA).2
    · intro v pos hpos
      have s2 := skipWhitespace_le expr pos hpos
      rw [expressionLoop, expressionLoop]
      try dsimp only
      rw [skip_ext expr g hpos, peek_ext expr g s2]
      by_cases hc : peek expr (skipWhitespace expr pos) = '+' ∨
          peek expr (skipWhitespace expr pos) = '-'
      · have l1 : skipWhitespace expr pos < expr.length := by
          rcases hc with h | h <;> exact peek_lt_of_eq h (by decide)
        simp only [if_pos hc]
        rw [iTerm _ (show skipWhitespace expr pos + 1 ≤ expr.length by omega)]
        cases hA : parseTerm ops ctx expr n (skipWhitespace expr pos + 1) with
        | none => rfl
        | some vp =>
          obtain ⟨w, p⟩ := vp
          exact iExpL _ p (bTerm _ _ (by omega) hA).2
      · simp only [if_neg hc]
    · intro pos hpos
      have s2 := skipWhitespace_le expr pos hpos
      rw [parseTerm, parseTerm, skip_ext expr g hpos, iFac _ s2]
      cases hA : parseFactor ops ctx expr n (skipWhitespace expr pos) with
      | none => rfl
      | some vp =>
        obtain ⟨v, p⟩ := vp
        exact iTermL v p (bFac _ _ s2 hA).2
    · intro v pos hpos
      have s2 := skipWhitespace_le expr pos hpos
      rw [termLoop, termLoop]
      try dsimp only
      rw [skip_ext expr g hpos, peek_ext expr g s2]
      by_cases hc : peek expr (skipWhitespace expr pos) = '*' ∨
          peek expr (skipWhitespace expr pos) = '/' ∨
          peek expr (skipWhitespace expr pos) = '%'
      · have l1 : skipWhitespace expr pos < expr.length := by
          rcases hc with h | h | h <;> exact peek_lt_of_eq h (by decide)
        simp only [if_pos hc]
        rw [iFac _ (show skipWhitespace expr pos + 1 ≤ expr.length by omega)]
        cases hA : parseFactor ops ctx expr n (skipWhitespace expr pos + 1) with
        | none => rfl
        | some vp =>
          obtain ⟨w, p⟩ := vp
          exact iTermL _ p (bFac _ _ (by omega) hA).2
      · simp only [if_neg hc]
    · intro pos hpos
      have s2 := skipWhitespace_le expr pos hpos
      rw [parseFactor, parseFactor]
      try dsimp only
      rw [skip_ext expr g hpos, peek_ext expr g s2]
      by_cases h1 : peek expr (skipWhitespace expr pos) = '!'
      · have l1 := peek_lt_of_eq h1 (by decide)
        have t1 := skipWhitespace_ge expr (skipWhitespace expr pos + 1)
        have t2 := skipWhitespace_le expr (skipWhitespace expr pos + 1) (by omega)
        simp only [if_pos h1]
        rw [skip_ext expr g (show skipWhitespace expr pos + 1 ≤ expr.length by omega),
          peek_ext expr g t2]
        by_cases h2 : peek expr (skipWhitespace expr (skipWhitespace expr pos + 1)) ≠ '='
        · simp only [if_pos h2]
          rw [iFac _ t2]
        · simp only [if_neg h2]
          exact iUn _ (by omega)
      · simp only [if_neg h1]
        exact iUn _ s2
    · intro pos hpos
      have s2 := skipWhitespace_le expr pos hpos
      rw [parseUnary, parseUnary]
      try dsimp only
      rw [skip_ext expr g hpos, peek_ext expr g s2]
      by_cases h1 : peek expr (skipWhitespace expr pos) = '-'
      · have l1 := peek_lt_of_eq h1 (by decide)
        simp only [if_pos h1]
        rw [iUn _ (show skipWhitespace expr pos + 1 ≤ expr.length by omega)]
      · simp only [if_neg h1]
        by_cases h2 : peek expr (skipWhitespace expr pos) = '('
        · have l2 := peek_lt_of_eq h2 (by decide)
          simp only [if_pos h2]
          rw [iOr _ (show skipWhitespace expr pos + 1 ≤ expr.length by omega)]
          cases hA : parseLogicalOr ops ctx expr n (skipWhitespace expr pos + 1) with
          | none => rfl
          | some vp =>
            obtain ⟨v, p⟩ := vp
            have hp := (bOr _ _ (show skipWhitespace expr pos + 1 ≤ expr.length by omega) hA).2
            have t2 := skipWhitespace_le expr p hp
            try dsimp only
            rw [skip_ext expr g hp, peek_ext expr g t2]
        · simp only [if_neg h2]
          by_cases h3 : isdigit (peek expr (skipWhitespace expr pos)) = true ∨
              peek expr (skipWhitespace expr pos) = '.'
          · simp only [if_pos h3]
            rw [parseNumber_ext ops expr g s2]
          · simp only [if_neg h3]
            by_cases h4 : isalpha (peek expr (skipWhitespace expr pos)) = true ∨
                peek expr (skipWhitespace expr pos) = '_'
            · simp only [if_pos h4]
              exact iId _ s2
            · simp only [if_neg h4]
    · intro pos hpos
      have c2 := scanWhile_drop_le isIdentChar expr pos hpos
      have s2 := skipWhitespace_le expr (scanWhile isIdentChar (expr.drop pos) pos) c2
      rw [parseIdentifier, parseIdentifier]
      try dsimp only
      rw [drop_ext expr g hpos, scanWhile_ext isIdentChar (by decide) g _ pos,
        skip_ext expr g c2, peek_ext expr g s2, copy_ext expr g c2]
      by_cases h1 : peek expr
          (skipWhitespace expr (scanWhile isIdentChar (expr.drop pos) pos)) = '('
      · have l1 := peek_lt_of_eq h1 (by decide)
        simp only [if_pos h1]
        rw [iOr _ (show skipWhitespace expr (scanWhile isIdentChar (expr.drop pos) pos) + 1 ≤
          expr.length by omega)]
        cases hA : parseLogicalOr ops ctx expr n
            (skipWhitespace expr (scanWhile isIdentChar (expr.drop pos) pos) + 1) with
        | none => rfl
        | some vp =>
          obtain ⟨v, p⟩ := vp
          have hp := (bOr _ _ (show skipWhitespace expr
            (scanWhile isIdentChar (expr.drop pos) pos) + 1 ≤ expr.length by omega) hA).2
          have t2 := skipWhitespace_le expr p hp
          try dsimp only
          rw [skip_ext expr g hp, peek_ext expr g t2]
          by_cases h2 : peek expr (skipWhitespace expr p) = ','
          · have l2 := peek_lt_of_eq h2 (by decide)
            simp only [if_pos h2]
            rw [iOr _ (show skipWhitespace expr p + 1 ≤ expr.length by omega)]
            cases hB : parseLogicalOr ops ctx expr n (skipWhitespace expr p + 1) with
            | none => rfl
            | some wq =>
              obtain ⟨w, q⟩ := wq
              have hq := (bOr _ _ (show skipWhitespace expr p + 1 ≤ expr.length by omega) hB).2
              have u2 := skipWhitespace_le expr q hq
              try dsimp only
              rw [skip_ext expr g hq, peek_ext expr g u2]
          · simp only [if_neg h2]
      · simp only [if_neg h1]

/-- The value `eval` returns does not depend on what follows the terminator. -/
theorem eval_ext : eval ops ctx (expr ++ NUL :: g) = eval ops ctx expr := by
  obtain ⟨v, p, hv, -, -⟩ := eval_returns ops ctx expr
  have h1 := (parse_ext ops ctx expr g (evalFuel expr.length)).1 0 (Nat.zero_le _)
  rw [hv] at h1
  rw [eval_eq_of_parse ops ctx (expr ++ NUL :: g) h1]
  unfold eval
  rw [hv]
  rfl

end

/-- C25: for every formula text, every `theta`, `t`, `i` and every resolver,
`eval` returns a value; each of the twelve parse functions, started inside the
text with a budget of its rank plus sixteen per character left, returns with
the cursor at or after its start and at most at the terminator, so a call is
followed either by a call of lower rank or by one made after a character was
consumed; whatever the budget the returned cursor never exceeds the length;
and the result does not depend on what is stored after the terminator. -/
theorem C25_eval_total {F : Type} (ops : FloatOps F) (ctx : EvalCtx F) (expr : List Char) :
    (∃ v, eval ops ctx expr = some v) ∧
    (∀ n pos, pos ≤ expr.length →
      (12 + 16 * (expr.length - pos) ≤ n →
        Returns (parseLogicalOr ops ctx expr n pos) expr pos) ∧
      (∀ v, 11 + 16 * (expr.length - pos) ≤ n →
        Returns (logicalOrLoop ops ctx expr n v pos) expr pos) ∧
      (10 + 16 * (expr.length - pos) ≤ n →
        Returns (parseLogicalAnd ops ctx expr n pos) expr pos) ∧
      (∀ v, 9 + 16 * (expr.length - pos) ≤ n →
        Returns (logicalAndLoop ops ctx expr n v pos) expr pos) ∧
      (8 + 16 * (expr.length - pos) ≤ n →
        Returns (parseComparison ops ctx expr n pos) expr pos) ∧
      (7 + 16 * (expr.length - pos) ≤ n →
        Returns (parseExpression ops ctx expr n pos) expr pos) ∧
      (∀ v, 6 + 16 * (expr.length - pos) ≤ n →
        Returns (expressionLoop ops ctx expr n v pos) expr pos) ∧
      (5 + 16 * (expr.length - pos) ≤ n →
        Returns (parseTerm ops ctx expr n pos) expr pos) ∧
      (∀ v, 4 + 16 * (expr.length - pos) ≤ n →
        Returns (termLoop ops ctx expr n v pos) expr pos) ∧
      (3 + 16 * (expr.length - pos) ≤ n →
        Returns (parseFactor ops ctx expr n pos) expr pos) ∧
      (2 + 16 * (expr.length - pos) ≤ n →
        Returns (parseUnary ops ctx expr n pos) expr pos) ∧
      (1 + 16 * (expr.length - pos) ≤ n →
        Returns (parseIdentifier ops ctx expr n pos) expr pos)) ∧
    (∀ n r, parseLogicalOr ops ctx expr n 0 = some r →
      r.2 ≤ expr.length ∧ eval ops ctx expr = some r.1) ∧
    (∀ g : List Char, eval ops ctx (expr ++ NUL :: g) = eval ops ctx expr) := by
  refine ⟨?_, ?_, ?_, ?_⟩
  · obtain ⟨v, p, hv, -, -⟩ := eval_returns ops ctx expr
    exact ⟨v, by unfold eval; rw [hv]; rfl⟩
  · intro n pos hpos
    obtain ⟨tOr, tOrL, tAnd, tAndL, tCmp, tExp, tExpL, tTerm, tTermL, tFac, tUn, tId⟩ :=
      parse_total ops ctx expr n
    exact ⟨tOr pos hpos, fun v => tOrL v pos hpos, tAnd pos hpos, fun v => tAndL v pos hpos,
      tCmp pos hpos, tExp pos hpos, fun v => tExpL v pos hpos, tTerm pos hpos,
      fun v => tTermL v pos hpos, tFac pos hpos, tUn pos hpos, tId pos hpos⟩
  · intro n r h
    obtain ⟨v, p⟩ := r
    exact ⟨((parse_bound ops ctx expr n).1 0 (v, p) (Nat.zero_le _) h).2,
      eval_eq_of_parse ops ctx expr h⟩
  · intro g
    exact eval_ext ops ctx expr g

/-- C25 on malformed input: unbalanced parentheses and dangling operators are
evaluated, and characters stored after the terminator are not read. -/
theorem C25_eval_total_witness :
    eval exactOps ctx0 ("2+3".toList ++ NUL :: "*7".toList) = eval exactOps ctx0 "2+3".toList ∧
    eval exactOps ctx0 "2+3".toList = some (Val.num 5) ∧
    eval exactOps ctx0 "((1+)*/!".toList = some (Val.num 0) ∧
    eval exactOps ctx0 ")))".toList = some (Val.num 0) :=
  ⟨(C25_eval_total exactOps ctx0 "2+3".toList).2.2.2 "*7".toList,
    by decide!, by decide!, by decide!⟩

end VibeLed
